import Mathlib

/-! # metabase-flexibee-adapter: incremental synchronisation engine

A shallow embedding of the Go sources under `internal/flexibee`, `internal/sync`,
`internal/store` and `internal/registry`, followed by the theorems about them.

Conventions of the embedding

* A Go `error` is its `Error()` text (`String`); `fmt.Errorf("p: %w", err)` is the text
  `"p: " ++ err`.  A nil error is `none` / `Except.ok`.
* Go `int` is taken at 64 bits, as on the platforms the adapter is built for.  The additions
  of evidence.go on the upsert total and on the cumulative row count wrap around as Go's do
  (`wrap64`); page offsets and lengths, bounded by the data held in memory, are `Int`;
  `len(xs)` is `xs.length`.
* `time.Time` is a count of nanoseconds (`Nat`); `*time.Time` is an `Option`.
* Everything outside the process (the HTTP source, the relational store, the clock) is reached
  through explicit state passing over a world type `σ`: a Go interface is a structure of
  functions `σ → result × σ`.
* Loops that the source does not bound (`for { ... }`) take a fuel argument and return `none`
  when the fuel runs out.
* The connection pool of the store is a structure `Pool σ`.  A statement is kept as the pieces
  the code puts into its template (`Statement`, with `Statement.sql` for the text); the calls
  are observed through the recording pool `faulty`, and where a property is about the stored
  data they are answered by a model of the database (`pgPool`).
-/

set_option autoImplicit false

deriving instance DecidableEq for Except

namespace FlexibeeAdapter

/-! ## Definitions -/

/-- Go `time.Time`, in nanoseconds. -/
abbrev Time := Nat

/-- A dynamically typed scalar of a record (`any` in `map[string]any`). -/
inductive Value where
  | null
  | bool (b : Bool)
  | num (n : Int)
  | str (s : String)
  deriving DecidableEq, Repr

/-- One source record, `map[string]any`, as the list of its fields. -/
abbrev Record := List (String × Value)

/-- Go `context.Context` as far as the code observes it: `err` is `ctx.Err()`, which is `none`
while the context is live and the cancellation cause once it is done. -/
structure Context where
  err : Option String
  deriving DecidableEq, Repr

/-- The context `context.Background()`. -/
def Context.background : Context := ⟨none⟩

/-- A context that has been cancelled (`ctx.Err()` is `context.Canceled`). -/
def Context.canceled : Context := ⟨some "context canceled"⟩

/-- Struct `flexibee.FetchOptions` (models.go). -/
structure FetchOptions where
  Limit : Int
  Start : Int
  Detail : String
  Filter : String
  AddRowCount : Bool
  deriving DecidableEq, Repr

/-- Struct `flexibee.ResponseEnvelope` (models.go). -/
structure ResponseEnvelope where
  Version : String
  RowCount : Option Int
  Records : List Record
  deriving DecidableEq, Repr

/-- Struct `flexibee.Response` (models.go). -/
structure Response where
  Winstrom : ResponseEnvelope
  deriving DecidableEq, Repr

/-! ### client.go -/

/-- Constant `maxRetries` of client.go. -/
def maxRetries : Nat := 3

/-- Go `time.Millisecond`, in nanoseconds. -/
def Millisecond : Nat := 1000000

/-- Constant `initialBackoff` of client.go. -/
def initialBackoff : Nat := 500 * Millisecond

/-- What one pass through the body of the retry loop meets when it talks to the source. -/
inductive RoundTrip where
  /-- The call `http.NewRequestWithContext` failed. -/
  | createError (msg : String)
  /-- The call `httpClient.Do` failed (transport-level failure). -/
  | transportError (msg : String)
  /-- The call `io.ReadAll(resp.Body)` failed. -/
  | readError (status : Int) (msg : String)
  /-- A response arrived and its body was read. -/
  | response (status : Int) (body : String)
  deriving DecidableEq, Repr

/-- The world `doRequest` runs against: what the source does at each attempt (attempts are
numbered from 0 as in the loop) and whether the context's `Done` channel fires during the
backoff wait that precedes an attempt. -/
structure Transport where
  roundTrip : Context → Nat → String → RoundTrip
  cancelDuringBackoff : Nat → Option String

/-- What `doRequest` does that the outside can see. -/
inductive Action where
  /-- A backoff wait of `d` nanoseconds was started. -/
  | backoff (d : Nat)
  /-- The HTTP request of attempt `attempt` (0-based) was issued. -/
  | send (attempt : Nat)
  deriving DecidableEq, Repr

/-- Result of one iteration of the retry loop after the backoff: either the loop
`continue`s with a new `lastErr`, or `doRequest` returns. -/
inductive AttemptResult where
  | retry (lastErr : String)
  | done (res : Except String String)
  deriving DecidableEq

/-- The body of the retry loop of `Client.doRequest` from `http.NewRequestWithContext` on
(client.go lines 116-148). -/
def doRequestAttempt (rt : RoundTrip) (attempt : Nat) : AttemptResult :=
  match rt with
  | .createError e => .done (.error ("create request: " ++ e))
  | .transportError e =>
      .retry ("http request (attempt " ++ toString (attempt + 1) ++ "): " ++ e)
  | .readError _ e =>
      .retry ("read body (attempt " ++ toString (attempt + 1) ++ "): " ++ e)
  | .response status body =>
      if status ≥ 500 then
        .retry ("server error " ++ toString status ++ " (attempt "
          ++ toString (attempt + 1) ++ ")")
      else if status ≠ 200 then
        .done (.error ("unexpected status " ++ toString status ++ ": " ++ body))
      else
        .done (.ok body)

/-- The `select` of the backoff wait: `some e` when `ctx.Done()` wins (always so when the
context is already done), `none` when the timer fires first. -/
def backoffInterrupted (tr : Transport) (ctx : Context) (attempt : Nat) : Option String :=
  match ctx.err with
  | some e => some e
  | none => tr.cancelDuringBackoff attempt

/-- The loop `for attempt := range maxRetries` of `Client.doRequest`, entered at iteration
`attempt` with `remaining` iterations left; `acts` are the actions performed so far. -/
def doRequestLoop (tr : Transport) (ctx : Context) (url : String) :
    Nat → Nat → Option String → List Action → Except String String × List Action
  | 0, _, lastErr, acts =>
      (.error ("all " ++ toString maxRetries ++ " attempts failed: "
        ++ lastErr.getD "%!w(<nil>)"), acts)
  | remaining + 1, attempt, _, acts =>
      let acts1 :=
        if attempt > 0 then acts ++ [Action.backoff (initialBackoff * 2 ^ (attempt - 1))]
        else acts
      match (if attempt > 0 then backoffInterrupted tr ctx attempt else none) with
      | some e => (.error e, acts1)
      | none =>
          match doRequestAttempt (tr.roundTrip ctx attempt url) attempt with
          | .done res => (res, acts1 ++ [Action.send attempt])
          | .retry e =>
              doRequestLoop tr ctx url remaining (attempt + 1) (some e)
                (acts1 ++ [Action.send attempt])

/-- Function `Client.doRequest` (client.go): the result and the actions performed. -/
def doRequest (tr : Transport) (ctx : Context) (url : String) :
    Except String String × List Action :=
  doRequestLoop tr ctx url maxRetries 0 none []

/-- Number of HTTP requests among the actions. -/
def attemptsMade (acts : List Action) : Nat :=
  (acts.filter (fun a => match a with | .send _ => true | .backoff _ => false)).length

/-- The client as the rest of the program uses it: `Client.FetchEvidence` against a world
`σ` (the remote source and whatever observes it). -/
structure Client (σ : Type) where
  FetchEvidence : Context → String → FetchOptions → σ → Except String Response × σ

/-! ### pagination.go -/

/-- Struct `flexibee.PageIterator` (pagination.go); the client is passed to `Next` instead of
being stored. -/
structure PageIterator where
  evidence : String
  opts : FetchOptions
  done : Bool
  total : Option Int
  fetched : Int
  deriving DecidableEq, Repr

/-- Function `Client.IterateEvidence` (pagination.go). -/
def IterateEvidence (evidence : String) (opts : FetchOptions) : PageIterator :=
  let opts1 := if opts.Limit ≤ 0 then { opts with Limit := 100 } else opts
  { evidence := evidence
    opts := { opts1 with AddRowCount := true, Start := 0 }
    done := false
    total := none
    fetched := 0 }

/-- Method `PageIterator.Next` (pagination.go).  The result is `(records, err)` of the Go function
(`Except.ok none` is `nil, nil`), the iterator after the call and the world after the call. -/
def PageIterator.Next {σ : Type} (client : Client σ) (ctx : Context) (it : PageIterator)
    (s : σ) : Except String (Option (List Record)) × PageIterator × σ :=
  if it.done then
    (.ok none, it, s)
  else
    let it1 := { it with opts := { it.opts with Start := it.fetched } }
    match client.FetchEvidence ctx it1.evidence it1.opts s with
    | (.error err, s1) =>
        (.error ("fetch page at offset " ++ toString it1.opts.Start ++ ": " ++ err), it1, s1)
    | (.ok resp, s1) =>
        let it2 :=
          if it1.total.isNone && resp.Winstrom.RowCount.isSome then
            { it1 with total := resp.Winstrom.RowCount }
          else it1
        let records := resp.Winstrom.Records
        if records.length = 0 then
          (.ok none, { it2 with done := true }, s1)
        else
          let it3 := { it2 with fetched := it2.fetched + records.length }
          let it4 :=
            if (records.length : Int) < it3.opts.Limit then { it3 with done := true } else it3
          let it5 :=
            match it4.total with
            | some total => if it4.fetched ≥ total then { it4 with done := true } else it4
            | none => it4
          (.ok (some records), it5, s1)

/-- Calling `Next` until it returns Done, collecting the pages, as the loop of
`TestPageIterator_MultiplePages` does; `none` when `fuel` calls were not enough. -/
def drainPages {σ : Type} (client : Client σ) (ctx : Context) :
    Nat → PageIterator → σ → Option (Except String (List (List Record)) × PageIterator × σ)
  | 0, _, _ => none
  | fuel + 1, it, s =>
      match it.Next client ctx s with
      | (.error err, it1, s1) => some (.error err, it1, s1)
      | (.ok none, it1, s1) => some (.ok [], it1, s1)
      | (.ok (some page), it1, s1) =>
          match drainPages client ctx fuel it1 s1 with
          | none => none
          | some (.error err, it2, s2) => some (.error err, it2, s2)
          | some (.ok pages, it2, s2) => some (.ok (page :: pages), it2, s2)

/-! ### registry.go, postgres.go (data), store.go -/

/-- Struct `registry.Evidence` (registry.go). -/
structure Evidence where
  Slug : String
  Table : String
  PrimaryKey : String
  IsMasterData : Bool
  deriving DecidableEq, Repr

/-- Struct `store.SyncState` (postgres.go). -/
structure SyncState where
  Evidence : String
  LastUpdate : Option Time
  LastSync : Time
  RowCount : Int
  Status : String
  ErrorMsg : String
  deriving DecidableEq, Repr

/-- The interface `SyncStore` (store.go) over a world `σ`.  `CleanupOldRecords` returns the
count together with the error, as the Go method returns both. -/
structure SyncStore (σ : Type) where
  GetSyncState : Context → String → σ → Except String (Option SyncState) × σ
  SetSyncState : Context → String → SyncState → σ → Option String × σ
  UpsertRecords : Context → String → List Record → String → σ → Except String Int × σ
  CleanupOldRecords : Context → String → Time → Int → σ → (Int × Option String) × σ
  LogCleanup : Context → String → Int → Option Time → σ → Option String × σ

/-- The two functions of the Go package `time` that the sync code uses: `time.Now()` and
`t.Format(time.RFC3339)`. -/
structure TimePkg (σ : Type) where
  Now : σ → Time × σ
  FormatRFC3339 : Time → String

/-! ### evidence.go -/

/-- The value a 64-bit signed integer holds after an operation whose exact result is `x`:
Go's `int64`, and `int` at 64 bits, wrap around in two's complement. -/
def wrap64 (x : Int) : Int := (x + 2 ^ 63) % 2 ^ 64 - 2 ^ 63

/-- The values of a 64-bit signed integer. -/
abbrev inInt64 (x : Int) : Prop := -2 ^ 63 ≤ x ∧ x < 2 ^ 63

/-- Function `saveErrorState` (evidence.go); a failure to store the state is only logged. -/
def saveErrorState {σ : Type} (st : SyncStore σ) (tm : TimePkg σ) (ctx : Context)
    (evidence : String) (current : Option SyncState) (syncErr : String) (s : σ) : σ :=
  match tm.Now s with
  | (now, s1) =>
      let state : SyncState :=
        { Evidence := evidence, LastUpdate := none, LastSync := now, RowCount := 0,
          Status := "error", ErrorMsg := syncErr }
      let state1 : SyncState :=
        match current with
        | some cur => { state with LastUpdate := cur.LastUpdate, RowCount := cur.RowCount }
        | none => state
      (st.SetSyncState ctx evidence state1 s1).2

/-- The page loop of `syncEvidence` (evidence.go lines 43-61): `Except.ok n` when the
iterator is exhausted with `totalUpserted = n`, `Except.error e` when the function returned
`e` from inside the loop, `none` when the fuel ran out.  The addition
`totalUpserted += upserted` is the wrapping addition of Go's `int`. -/
def syncLoop {σ : Type} (client : Client σ) (st : SyncStore σ) (tm : TimePkg σ)
    (ctx : Context) (ev : Evidence) (state : Option SyncState) :
    Nat → PageIterator → Int → σ → Option (Except String Int × σ)
  | 0, _, _, _ => none
  | fuel + 1, it, totalUpserted, s =>
      match it.Next client ctx s with
      | (.error err, _, s1) =>
          some (.error ("fetch page: " ++ err), saveErrorState st tm ctx ev.Slug state err s1)
      | (.ok none, _, s1) => some (.ok totalUpserted, s1)
      | (.ok (some records), it1, s1) =>
          match st.UpsertRecords ctx ev.Table records ev.PrimaryKey s1 with
          | (.error err, s2) =>
              some (.error ("upsert records: " ++ err),
                saveErrorState st tm ctx ev.Slug state err s2)
          | (.ok upserted, s2) =>
              syncLoop client st tm ctx ev state fuel it1 (wrap64 (totalUpserted + upserted))
                s2

/-- The fetch options `syncEvidence` builds (evidence.go lines 25-37). -/
def syncFetchOptions {σ : Type} (tm : TimePkg σ) (state : Option SyncState)
    (batchSize : Int) : FetchOptions :=
  let opts : FetchOptions :=
    { Limit := batchSize, Start := 0, Detail := "full", Filter := "", AddRowCount := false }
  match state with
  | some cur =>
      match cur.LastUpdate with
      | some lastUpdate =>
          { opts with Filter := "lastUpdate > '" ++ tm.FormatRFC3339 lastUpdate ++ "'" }
      | none => opts
  | none => opts

/-- Function `syncEvidence` (evidence.go): the returned error (`none` is `nil`) and the world
after the pass; `none` when the fuel ran out inside the page loop.  The conversion
`int64(totalUpserted)` changes nothing at 64 bits, and `state.RowCount + int64(totalUpserted)`
is the wrapping addition of `int64`. -/
def syncEvidence {σ : Type} (client : Client σ) (st : SyncStore σ) (tm : TimePkg σ)
    (ctx : Context) (ev : Evidence) (batchSize : Int) (fuel : Nat) (s : σ) :
    Option (Option String × σ) :=
  match st.GetSyncState ctx ev.Slug s with
  | (.error err, s1) => some (some ("get sync state: " ++ err), s1)
  | (.ok state, s1) =>
      let it := IterateEvidence ev.Slug (syncFetchOptions tm state batchSize)
      match syncLoop client st tm ctx ev state fuel it 0 s1 with
      | none => none
      | some (.error err, s2) => some (some err, s2)
      | some (.ok totalUpserted, s2) =>
          match tm.Now s2 with
          | (now, s3) =>
              let newState : SyncState :=
                { Evidence := ev.Slug, LastUpdate := some now, LastSync := now,
                  RowCount := totalUpserted, Status := "ok", ErrorMsg := "" }
              let newState1 : SyncState :=
                match state with
                | some cur => { newState with RowCount := wrap64 (cur.RowCount + totalUpserted) }
                | none => newState
              match st.SetSyncState ctx ev.Slug newState1 s3 with
              | (some err, s4) => some (some ("set sync state: " ++ err), s4)
              | (none, s4) => some (none, s4)

/-! ### The recording world

Every deterministic behaviour of the collaborators is a function of what has happened so
far.  `World` keeps the checkpoint table and the history of calls; `Env` gives the answers. -/

/-- One call that crossed the boundary of the process, with its arguments and its answer. -/
inductive Event where
  | fetchEvidence (evidence : String) (opts : FetchOptions) (res : Except String Response)
  | getSyncState (evidence : String) (res : Except String (Option SyncState))
  | setSyncState (evidence : String) (state : SyncState) (err : Option String)
  | upsertRecords (table : String) (records : List Record) (primaryKey : String)
      (res : Except String Int)
  | cleanupOldRecords (table : String) (olderThan : Time) (batchSize : Int)
      (res : Int × Option String)
  | logCleanup (evidence : String) (rowsDeleted : Int) (oldestKept : Option Time)
      (err : Option String)
  | now (t : Time)
  deriving DecidableEq, Repr

/-- Behaviour of the source, of the store and of the clock, given the history of calls. -/
structure Env where
  fetchEvidence : List Event → Context → String → FetchOptions → Except String Response
  getSyncStateErr : List Event → Context → String → Option String
  setSyncStateErr : List Event → Context → String → SyncState → Option String
  upsertRecords : List Event → Context → String → List Record → String → Except String Int
  cleanupOldRecords : List Event → Context → String → Time → Int → Int × Option String
  logCleanup : List Event → Context → String → Int → Option Time → Option String
  now : List Event → Time
  formatRFC3339 : Time → String

/-- The checkpoint table `sync_state` (one row per evidence) and the history of calls. -/
structure World where
  states : List (String × SyncState)
  history : List Event
  deriving DecidableEq, Repr

/-- The row of `sync_state` for `evidence`, if any. -/
def getRow (evidence : String) : List (String × SyncState) → Option SyncState
  | [] => none
  | (k, v) :: rest => if k = evidence then some v else getRow evidence rest

/-- The statement `INSERT ... ON CONFLICT (evidence) DO UPDATE` on `sync_state`. -/
def putRow (evidence : String) (state : SyncState) :
    List (String × SyncState) → List (String × SyncState)
  | [] => [(evidence, state)]
  | (k, v) :: rest =>
      if k = evidence then (evidence, state) :: rest else (k, v) :: putRow evidence state rest

/-- Append an event to the history. -/
def World.record (w : World) (e : Event) : World :=
  { w with history := w.history ++ [e] }

/-- The client over the recording world. -/
def recClient (env : Env) : Client World where
  FetchEvidence := fun ctx evidence opts w =>
    let res := env.fetchEvidence w.history ctx evidence opts
    (res, w.record (.fetchEvidence evidence opts res))

/-- The store over the recording world: `GetSyncState` and `SetSyncState` read and write the
row of the checkpoint table unless the environment makes the call fail. -/
def recStore (env : Env) : SyncStore World where
  GetSyncState := fun ctx evidence w =>
    let res : Except String (Option SyncState) :=
      match env.getSyncStateErr w.history ctx evidence with
      | some e => .error e
      | none => .ok (getRow evidence w.states)
    (res, w.record (.getSyncState evidence res))
  SetSyncState := fun ctx evidence state w =>
    match env.setSyncStateErr w.history ctx evidence state with
    | some e => (some e, w.record (.setSyncState evidence state (some e)))
    | none =>
        (none, { states := putRow evidence state w.states,
                 history := w.history ++ [.setSyncState evidence state none] })
  UpsertRecords := fun ctx table records primaryKey w =>
    let res := env.upsertRecords w.history ctx table records primaryKey
    (res, w.record (.upsertRecords table records primaryKey res))
  CleanupOldRecords := fun ctx table olderThan batchSize w =>
    let res := env.cleanupOldRecords w.history ctx table olderThan batchSize
    (res, w.record (.cleanupOldRecords table olderThan batchSize res))
  LogCleanup := fun ctx evidence rowsDeleted oldestKept w =>
    let res := env.logCleanup w.history ctx evidence rowsDeleted oldestKept
    (res, w.record (.logCleanup evidence rowsDeleted oldestKept res))

/-- The clock over the recording world. -/
def recTime (env : Env) : TimePkg World where
  Now := fun w => (env.now w.history, w.record (.now (env.now w.history)))
  FormatRFC3339 := env.formatRFC3339

/-- Function `syncEvidence` against the recording world. -/
def syncPass (env : Env) (ctx : Context) (ev : Evidence) (batchSize : Int) (fuel : Nat)
    (w : World) : Option (Option String × World) :=
  syncEvidence (recClient env) (recStore env) (recTime env) ctx ev batchSize fuel w

/-- The events a pass added to the history. -/
def passEvents (w w1 : World) : List Event :=
  w1.history.drop w.history.length

/-- The `UpsertRecords` calls among the events: table, records, primary key. -/
def upsertCalls : List Event → List (String × List Record × String)
  | [] => []
  | .upsertRecords table records primaryKey _ :: rest =>
      (table, records, primaryKey) :: upsertCalls rest
  | _ :: rest => upsertCalls rest

/-- Sum of the counts returned by the successful `UpsertRecords` calls among the events. -/
def upsertedSum : List Event → Int
  | [] => 0
  | .upsertRecords _ _ _ (.ok n) :: rest => n + upsertedSum rest
  | _ :: rest => upsertedSum rest

/-- The pages (record lists) of the successful fetches among the events. -/
def fetchedPages : List Event → List (List Record)
  | [] => []
  | .fetchEvidence _ _ (.ok resp) :: rest => resp.Winstrom.Records :: fetchedPages rest
  | _ :: rest => fetchedPages rest

/-- The requests sent to the source among the events. -/
def fetchRequests : List Event → List (String × FetchOptions)
  | [] => []
  | .fetchEvidence evidence opts _ :: rest => (evidence, opts) :: fetchRequests rest
  | _ :: rest => fetchRequests rest

/-- The event is a page fetch or an upsert that failed. -/
def Event.isSyncFailure : Event → Bool
  | .fetchEvidence _ _ (.error _) => true
  | .upsertRecords _ _ _ (.error _) => true
  | _ => false

/-- Row count of an optional checkpoint: 0 when there is none. -/
def rowCountOf : Option SyncState → Int
  | some s => s.RowCount
  | none => 0

/-- Watermark of an optional checkpoint: none when there is no checkpoint. -/
def watermarkOf : Option SyncState → Option Time
  | some s => s.LastUpdate
  | none => none

/-- Text of the failure a failed page fetch or a failed upsert hands to `saveErrorState`:
the error `PageIterator.Next` returns for the failed request, or the error of
`UpsertRecords`. -/
def failureText : Event → Option String
  | .fetchEvidence _ opts (.error e) =>
      some ("fetch page at offset " ++ toString opts.Start ++ ": " ++ e)
  | .upsertRecords _ _ _ (.error e) => some e
  | _ => none

/-- The event is a page fetch or an upsert (the calls made inside the page loop). -/
def Event.isLoopCall : Event → Bool
  | .fetchEvidence _ _ _ => true
  | .upsertRecords _ _ _ _ => true
  | _ => false

/-- The options of the request `Next` sends when the iterator is not done: the iterator's
options with `Start` set to `fetched` (pagination.go line 38). -/
def PageIterator.request (it : PageIterator) : FetchOptions :=
  { it.opts with Start := it.fetched }

/-! ### Concrete sources and stores used as inputs -/

/-- Answer of a source that holds `recs` and reports their number as the total: the records
from offset `opts.Start` up to `opts.Limit` of them, as the server of
`TestPageIterator_MultiplePages` answers. -/
def pageOf (recs : List Record) (opts : FetchOptions) : Response :=
  { Winstrom :=
      { Version := "1.0"
        RowCount := some recs.length
        Records := (recs.drop opts.Start.toNat).take opts.Limit.toNat } }

/-- An environment in which nothing fails: the source holds `recs`, the store behaves as
`mockSyncStore` of evidence_test.go (every upsert returns the number of records), and the
clock reads the number of calls made so far. -/
def listEnv (recs : List Record) : Env where
  fetchEvidence := fun _ _ _ opts => .ok (pageOf recs opts)
  getSyncStateErr := fun _ _ _ => none
  setSyncStateErr := fun _ _ _ _ => none
  upsertRecords := fun _ _ _ records _ => .ok records.length
  cleanupOldRecords := fun _ _ _ _ _ => (0, none)
  logCleanup := fun _ _ _ _ _ => none
  now := fun h => h.length
  formatRFC3339 := fun t => toString t

/-- Three records with ids 1, 2, 3. -/
def threeRecords : List Record :=
  [[("id", .num 1)], [("id", .num 2)], [("id", .num 3)]]

/-- The entity "items" of the end-to-end scenarios. -/
def itemsEvidence : Evidence :=
  { Slug := "items", Table := "flexibee_items", PrimaryKey := "id", IsMasterData := false }

/-- A world with an empty checkpoint table and no history. -/
def emptyWorld : World := { states := [], history := [] }

/-- The world after the first sync of "items" from `emptyWorld` against a source holding
`threeRecords`, with batch size 2. -/
def firstSyncWorld : World :=
  { states :=
      [("items", { Evidence := "items", LastUpdate := some 5, LastSync := 5, RowCount := 3,
                   Status := "ok", ErrorMsg := "" })]
    history :=
      [ .getSyncState "items" (.ok none),
        .fetchEvidence "items"
          { Limit := 2, Start := 0, Detail := "full", Filter := "", AddRowCount := true }
          (.ok { Winstrom := { Version := "1.0", RowCount := some 3,
                               Records := [[("id", .num 1)], [("id", .num 2)]] } }),
        .upsertRecords "flexibee_items" [[("id", .num 1)], [("id", .num 2)]] "id" (.ok 2),
        .fetchEvidence "items"
          { Limit := 2, Start := 2, Detail := "full", Filter := "", AddRowCount := true }
          (.ok { Winstrom := { Version := "1.0", RowCount := some 3,
                               Records := [[("id", .num 3)]] } }),
        .upsertRecords "flexibee_items" [[("id", .num 3)]] "id" (.ok 1),
        .now 5,
        .setSyncState "items"
          { Evidence := "items", LastUpdate := some 5, LastSync := 5, RowCount := 3,
            Status := "ok", ErrorMsg := "" } none ] }

/-- A source holding `threeRecords` whose first page is served and whose every later request
fails with a permanent error; store and clock as in `listEnv`. -/
def laterPagesFailEnv : Env :=
  { listEnv threeRecords with
    fetchEvidence := fun _ _ _ opts =>
      if opts.Start = 0 then .ok (pageOf threeRecords opts)
      else .error "fetch evidence items: unexpected status 400: bad request" }

/-- A world in which "items" has a checkpoint of a successful pass: watermark 1, 2 rows. -/
def syncedWorld : World :=
  { states :=
      [("items", { Evidence := "items", LastUpdate := some 1, LastSync := 1, RowCount := 2,
                   Status := "ok", ErrorMsg := "" })]
    history := [] }

/-- The world after a pass over `syncedWorld` against `laterPagesFailEnv` with batch size 2:
the first page was upserted, the second fetch failed. -/
def failedSyncWorld : World :=
  { states :=
      [("items",
        { Evidence := "items", LastUpdate := some 1, LastSync := 4, RowCount := 2,
          Status := "error",
          ErrorMsg := "fetch page at offset 2: fetch evidence items: unexpected status 400: bad request" })]
    history :=
      [ .getSyncState "items"
          (.ok (some { Evidence := "items", LastUpdate := some 1, LastSync := 1, RowCount := 2,
                       Status := "ok", ErrorMsg := "" })),
        .fetchEvidence "items"
          { Limit := 2, Start := 0, Detail := "full", Filter := "lastUpdate > '1'",
            AddRowCount := true }
          (.ok { Winstrom := { Version := "1.0", RowCount := some 3,
                               Records := [[("id", .num 1)], [("id", .num 2)]] } }),
        .upsertRecords "flexibee_items" [[("id", .num 1)], [("id", .num 2)]] "id" (.ok 2),
        .fetchEvidence "items"
          { Limit := 2, Start := 2, Detail := "full", Filter := "lastUpdate > '1'",
            AddRowCount := true }
          (.error "fetch evidence items: unexpected status 400: bad request"),
        .now 4,
        .setSyncState "items"
          { Evidence := "items", LastUpdate := some 1, LastSync := 4, RowCount := 2,
            Status := "error",
            ErrorMsg := "fetch page at offset 2: fetch evidence items: unexpected status 400: bad request" }
          none ] }

/-- Consecutive `syncEvidence` passes for one entity, one after the other: the outcome and
the world after each pass; `none` when a pass ran out of fuel. -/
def syncPasses (env : Env) (ctx : Context) (ev : Evidence) (batchSize : Int) (fuel : Nat) :
    Nat → World → Option (List (Option String × World))
  | 0, _ => some []
  | n + 1, w =>
      match syncPass env ctx ev batchSize fuel w with
      | none => none
      | some (out, w1) =>
          match syncPasses env ctx ev batchSize fuel n w1 with
          | none => none
          | some rest => some ((out, w1) :: rest)

/-- The world after the last of the passes (`w` when there was no pass). -/
def lastWorld (w : World) : List (Option String × World) → World
  | [] => w
  | s :: rest => lastWorld s.2 rest

/-- Stored cumulative row count of an entity: 0 when it has no checkpoint. -/
def storedRowCount (slug : String) (w : World) : Int :=
  rowCountOf (getRow slug w.states)

/-- The event is a read or a write of the checkpoint that the store failed. -/
def Event.isCheckpointFailure : Event → Bool
  | .getSyncState _ (.error _) => true
  | .setSyncState _ _ (some _) => true
  | _ => false

/-- As `listEnv threeRecords`, but the store fails every read of the checkpoint. -/
def checkpointReadFailsEnv : Env :=
  { listEnv threeRecords with getSyncStateErr := fun _ _ _ => some "connection refused" }

/-- The event is not a successful upsert that returned a negative count. -/
def Event.countNonneg : Event → Bool
  | .upsertRecords _ _ _ (.ok c) => decide (0 ≤ c)
  | _ => true

/-- As `laterPagesFailEnv`, but the store fails every write of the checkpoint. -/
def fetchAndWriteFailEnv : Env :=
  { laterPagesFailEnv with setSyncStateErr := fun _ _ _ _ => some "connection refused" }

/-- A world in which the checkpoint of "items" holds the largest row count an `int64` can
hold, 2^63 - 1. -/
def fullCountWorld : World :=
  { states :=
      [("items", { Evidence := "items", LastUpdate := some 1, LastSync := 1,
                   RowCount := 9223372036854775807, Status := "ok", ErrorMsg := "" })]
    history := [] }

/-! ### client.go: FetchEvidence, and engine.go -/

/-- Method `Client.FetchEvidence` (client.go) over a transport.  `buildURL` and `parseResponse`
(URL encoding and JSON decoding) are taken as given functions. -/
def FetchEvidence (tr : Transport) (buildURL : String → FetchOptions → String)
    (parseResponse : String → String → Except String Response)
    (ctx : Context) (evidence : String) (opts : FetchOptions) : Except String Response :=
  match (doRequest tr ctx (buildURL evidence opts)).1 with
  | .error err => .error ("fetch evidence " ++ evidence ++ ": " ++ err)
  | .ok body =>
      match parseResponse body evidence with
      | .error err => .error ("parse evidence " ++ evidence ++ ": " ++ err)
      | .ok resp => .ok resp

/-- The fields of `sync.Engine` (engine.go) that `RunOnce` reads; `registry` is the result
of `e.registry.All()`. -/
structure Engine where
  registry : List Evidence
  batchSize : Int
  concurrency : Int

/-- The loop of `Engine.RunOnce` over the catalog with the `errgroup` of
`errgroup.WithContext(ctx)` under `g.SetLimit(1)`: `g.Go` starts the next `syncEvidence` when
the previous one has returned, so the entities run one at a time in catalog order.  `gctx` is
the context of the group, handed to every `syncEvidence`; `gerr` is the error the group
keeps.  The first non-nil error returned by a `syncEvidence` is kept and cancels `gctx`
(`errOnce.Do`), before the next entity starts.  The result is what `g.Wait()` returns, the
error each entity returned, and the world. -/
def runGroup {σ : Type} (client : Client σ) (st : SyncStore σ) (tm : TimePkg σ)
    (batchSize : Int) (fuel : Nat) :
    List Evidence → Context → Option String → σ →
      Option (Option String × List (String × Option String) × σ)
  | [], _, gerr, s => some (gerr, [], s)
  | ev :: rest, gctx, gerr, s =>
      match syncEvidence client st tm gctx ev batchSize fuel s with
      | none => none
      | some (err, s1) =>
          let gerr1 := match gerr with
            | some e => some e
            | none => err
          let gctx1 := match err, gctx.err with
            | some _, none => Context.canceled
            | _, _ => gctx
          match runGroup client st tm batchSize fuel rest gctx1 gerr1 s1 with
          | none => none
          | some (r, outs, s2) => some (r, (ev.Slug, err) :: outs, s2)

/-- Method `Engine.RunOnce` (engine.go) for an engine whose `concurrency` is 1: the run in
which each entity is started when the previous one has ended (see `Engine.RunOnceMoves` for
the runs under any limit). -/
def Engine.RunOnce {σ : Type} (e : Engine) (client : Client σ) (st : SyncStore σ)
    (tm : TimePkg σ) (ctx : Context) (fuel : Nat) (s : σ) :
    Option (Option String × List (String × Option String) × σ) :=
  runGroup client st tm e.batchSize fuel e.registry ctx none s

/-- A remote source that answers 400 for the evidence "broken" and a page of two records
for every other evidence, reached through `net/http`: a request whose context is done fails
at the transport with the context's error. -/
def twoEntityTransport : Transport where
  roundTrip := fun ctx _ url =>
    match ctx.err with
    | some e => .transportError e
    | none => if url = "broken" then .response 400 "bad request" else .response 200 "page"
  cancelDuringBackoff := fun _ => none

/-- The environment of the two-entity scenario: the client of `FetchEvidence` over
`twoEntityTransport` (the URL is the evidence name, the body "page" decodes to two records),
and the store and clock of `listEnv`. -/
def twoEntityEnv : Env :=
  { listEnv [] with
    fetchEvidence := fun _ ctx evidence opts =>
      FetchEvidence twoEntityTransport (fun ev _ => ev)
        (fun _ _ => .ok { Winstrom := { Version := "1.0", RowCount := some 2,
                                        Records := [[("id", .num 1)], [("id", .num 2)]] } })
        ctx evidence opts }

/-- An entity whose source always answers 400. -/
def brokenEvidence : Evidence :=
  { Slug := "broken", Table := "flexibee_broken", PrimaryKey := "id", IsMasterData := false }

/-- Five records with ids 1 to 5, the source of `TestPageIterator_MultiplePages`. -/
def fiveRecords : List Record :=
  [[("id", .num 1)], [("id", .num 2)], [("id", .num 3)], [("id", .num 4)], [("id", .num 5)]]

/-- The options of `TestPageIterator_MultiplePages`: `FetchOptions{Limit: 2}`. -/
def limitTwo : FetchOptions :=
  { Limit := 2, Start := 0, Detail := "", Filter := "", AddRowCount := false }

/-- Some `k` consecutive calls of `Next` on an iterator, whatever they return: the iterator and
the world after the last call. -/
def nextCalls {σ : Type} (client : Client σ) (ctx : Context) :
    Nat → PageIterator → σ → PageIterator × σ
  | 0, it, s => (it, s)
  | k + 1, it, s => nextCalls client ctx k (it.Next client ctx s).2.1 (it.Next client ctx s).2.2

/-- The page size an iterator made by `IterateEvidence` with options `opts` requests: the
given limit, or 100 when that limit is not positive. -/
def requestedPageSize (opts : FetchOptions) : Int :=
  if opts.Limit ≤ 0 then 100 else opts.Limit

/-- Number of records returned by the successful fetches among the events. -/
def fetchedCount : List Event → Int
  | [] => 0
  | .fetchEvidence _ _ (.ok resp) :: rest => resp.Winstrom.Records.length + fetchedCount rest
  | _ :: rest => fetchedCount rest

/-- The total reported by the first successful fetch among the events that reported one. -/
def knownTotal : List Event → Option Int
  | [] => none
  | .fetchEvidence _ _ (.ok resp) :: rest =>
      match resp.Winstrom.RowCount with
      | some t => some t
      | none => knownTotal rest
  | _ :: rest => knownTotal rest

/-- What holds of an iterator made by `IterateEvidence` for `evidence` with page size `L`
after `Next` calls whose fetches are the events `evs`: its counters are those the events
give, and every request was sent for `evidence`, at the offset given by the records returned
before it, with the row count asked for and with limit `L`. -/
def IterInv (evidence : String) (L : Int) (it : PageIterator) (evs : List Event) : Prop :=
  it.evidence = evidence ∧ it.opts.Limit = L ∧ it.opts.AddRowCount = true
  ∧ it.fetched = fetchedCount evs ∧ it.total = knownTotal evs
  ∧ ∀ pre e o r post, evs = pre ++ Event.fetchEvidence e o r :: post →
      e = evidence ∧ o.Start = fetchedCount pre ∧ o.AddRowCount = true ∧ o.Limit = L

/-- A retryable failure, in the words of the retry policy: a transport-level failure, a
failure to read the body, or a response with a server-error status (500 and above). -/
def RoundTrip.retryable : RoundTrip → Bool
  | .transportError _ => true
  | .readError _ _ => true
  | .response status _ => decide (500 ≤ status)
  | .createError _ => false

/-- A source that fails twice (a 500, then a transport failure) and then answers 200 with
`body`, as the server of `TestFetchEvidence_RetriesOnServerError`. -/
def failTwiceThenOk (body : String) : Transport where
  roundTrip := fun _ attempt _ =>
    match attempt with
    | 0 => .response 500 ""
    | 1 => .transportError "connection reset by peer"
    | _ => .response 200 body
  cancelDuringBackoff := fun _ => none

/-- A source that answers 200 with `body` at once. -/
def okAtOnce (body : String) : Transport where
  roundTrip := fun _ _ _ => .response 200 body
  cancelDuringBackoff := fun _ => none

/-- A source that answers 503 to every request. -/
def alwaysUnavailable : Transport where
  roundTrip := fun _ _ _ => .response 503 "unavailable"
  cancelDuringBackoff := fun _ => none

/-- A source that answers 401 with body "unauthorized" to every request, the server of
`TestFetchEvidence_FailsOnClientError`. -/
def alwaysUnauthorized : Transport where
  roundTrip := fun _ _ _ => .response 401 "unauthorized"
  cancelDuringBackoff := fun _ => none

/-- A source that answers 204 with an empty body to every request. -/
def alwaysNoContent : Transport where
  roundTrip := fun _ _ _ => .response 204 ""
  cancelDuringBackoff := fun _ => none

/-- The waits and requests of a call that uses all its attempts, in the words of the retry
policy: attempt `n` (counted from 1) is preceded, for `n > 1`, by a wait of
`500ms * 2^(n-2)`; the first attempt is not preceded by a wait. -/
def retrySchedule : List Action :=
  (List.range 3).flatMap (fun i =>
    (if i + 1 > 1 then [Action.backoff (500 * Millisecond * 2 ^ (i + 1 - 2))] else [])
      ++ [Action.send i])

/-- Total duration of the backoff waits among the actions, in nanoseconds. -/
def backoffTotal : List Action → Nat
  | [] => 0
  | .backoff d :: rest => d + backoffTotal rest
  | .send _ :: rest => backoffTotal rest

/-- A source that answers 503 to every request, called under a context whose cancellation
fires during the wait before the third attempt. -/
def cancelInSecondWait : Transport where
  roundTrip := fun _ _ _ => .response 503 "unavailable"
  cancelDuringBackoff := fun n => if n = 2 then some "context canceled" else none

/-! ### cleanup.go -/

/-- Struct `sync.CleanupConfig` (cleanup.go). -/
structure CleanupConfig where
  RetentionDays : Int
  BatchSize : Int
  deriving DecidableEq, Repr

/-- The loop of `Cleaner.Run` over the catalog (cleanup.go lines 45-63); the log lines are
not part of the embedding. -/
def cleanerLoop {σ : Type} (st : SyncStore σ) (ctx : Context) (cutoff : Time)
    (batchSize : Int) : List Evidence → σ → σ
  | [], s => s
  | ev :: rest, s =>
      if ev.IsMasterData then
        cleanerLoop st ctx cutoff batchSize rest s
      else
        match st.CleanupOldRecords ctx ev.Table cutoff batchSize s with
        | ((_, some _), s1) => cleanerLoop st ctx cutoff batchSize rest s1
        | ((deleted, none), s1) =>
            if deleted > 0 then
              cleanerLoop st ctx cutoff batchSize rest
                (st.LogCleanup ctx ev.Slug deleted (some cutoff) s1).2
            else
              cleanerLoop st ctx cutoff batchSize rest s1

/-- Method `Cleaner.Run` (cleanup.go): the returned error and the world after the run.
`registry` is the result of `c.registry.All()`; `addDate` is `time.Time.AddDate`. -/
def Cleaner.Run {σ : Type} (st : SyncStore σ) (tm : TimePkg σ)
    (addDate : Time → Int → Int → Int → Time) (registry : List Evidence)
    (config : CleanupConfig) (ctx : Context) (s : σ) : Option String × σ :=
  if config.RetentionDays ≤ 0 then
    (none, s)
  else
    match tm.Now s with
    | (now, s1) =>
        (none, cleanerLoop st ctx (addDate now 0 0 (-config.RetentionDays))
          config.BatchSize registry s1)

/-- The calls a cleanup pass over the catalog `evs` makes, in the words of the retention
algorithm: nothing for a reference-data entity; for every other entity one
`CleanupOldRecords` call on its table with the cutoff and the batch size, directly followed
by one `LogCleanup` call with the slug, the number of rows deleted and the cutoff exactly
when the cleanup succeeded and deleted at least one row; then the calls for the entities
after it, whatever the cleanup returned. -/
inductive CleanupCalls (cutoff : Time) (batchSize : Int) : List Evidence → List Event → Prop
  | done : CleanupCalls cutoff batchSize [] []
  | skipped (ev : Evidence) (rest : List Evidence) (calls : List Event) :
      ev.IsMasterData = true → CleanupCalls cutoff batchSize rest calls →
      CleanupCalls cutoff batchSize (ev :: rest) calls
  | cleaned (ev : Evidence) (rest : List Evidence) (calls : List Event)
      (res : Int × Option String) :
      ev.IsMasterData = false → ¬ (res.2 = none ∧ 0 < res.1) →
      CleanupCalls cutoff batchSize rest calls →
      CleanupCalls cutoff batchSize (ev :: rest)
        (.cleanupOldRecords ev.Table cutoff batchSize res :: calls)
  | logged (ev : Evidence) (rest : List Evidence) (calls : List Event)
      (deleted : Int) (lerr : Option String) :
      ev.IsMasterData = false → 0 < deleted →
      CleanupCalls cutoff batchSize rest calls →
      CleanupCalls cutoff batchSize (ev :: rest)
        (.cleanupOldRecords ev.Table cutoff batchSize (deleted, none)
          :: .logCleanup ev.Slug deleted (some cutoff) lerr :: calls)

/-- The `CleanupOldRecords` calls among the events: table, cutoff, batch size. -/
def cleanupCallsOf : List Event → List (String × Time × Int)
  | [] => []
  | .cleanupOldRecords table olderThan batchSize _ :: rest =>
      (table, olderThan, batchSize) :: cleanupCallsOf rest
  | _ :: rest => cleanupCallsOf rest

/-- Calendar arithmetic of the examples: a day is 86400 seconds of 10^9 nanoseconds. -/
def addDateDays (t : Time) (_years _months : Int) (days : Int) : Time :=
  (t + days * 86400000000000).toNat

/-- The catalog of `TestCleaner_SkipsMasterData`, followed by a second transactional
entity. -/
def cleanerCatalog : List Evidence :=
  [ { Slug := "master", Table := "flexibee_master", PrimaryKey := "id", IsMasterData := true },
    { Slug := "trans", Table := "flexibee_trans", PrimaryKey := "id", IsMasterData := false },
    { Slug := "other", Table := "flexibee_other", PrimaryKey := "id", IsMasterData := false } ]

/-- A store whose cleanup of "flexibee_trans" fails and whose cleanup of any other table
deletes 5 rows; the clock reads 100 days. -/
def cleanupFailsEnv : Env :=
  { listEnv [] with
    cleanupOldRecords := fun _ _ table _ _ =>
      if table = "flexibee_trans" then (0, some "connection refused") else (5, none)
    now := fun _ => 100 * 86400000000000 }

/-! ### schema.go and postgres.go: identifiers and statements -/

/-- The parts of the Go standard library the store code relies on that are not reproduced
here: the tables of `strconv.IsPrint` for runes above U+00FF, and `json.Marshal` on a
record. -/
structure GoLib where
  isPrintTable : Char → Bool
  jsonMarshal : Record → Except String String

/-- Struct `flexibee.Property` (models.go); its field `Type` is `Type_` here. -/
structure Property where
  Name : String
  Type_ : String
  MaxLength : Int
  Mandatory : Bool
  ReadOnly : Bool
  deriving DecidableEq, Repr

/-- The double quote character. -/
def dquote : Char := Char.ofNat 34

/-- The backslash character. -/
def backslash : Char := Char.ofNat 92

/-- Lower-case hexadecimal digit of `n mod 16` (`lowerhex` of package strconv). -/
def hexDigit (n : Nat) : Char :=
  Nat.digitChar (n % 16)

/-- The `width` lower-case hexadecimal digits of `n`, most significant first. -/
def hexDigits (width n : Nat) : List Char :=
  (List.range width).reverse.map (fun i => hexDigit (n / 16 ^ i))

/-- Function `strconv.IsPrint`: exact for Latin-1, by the given table above it. -/
def IsPrint (lib : GoLib) (c : Char) : Bool :=
  if c.toNat ≤ 0xFF then
    if 0x20 ≤ c.toNat ∧ c.toNat ≤ 0x7E then true
    else if 0xA1 ≤ c.toNat ∧ c.toNat ≤ 0xFF then decide (c.toNat ≠ 0xAD)
    else false
  else lib.isPrintTable c

/-- Function `appendEscapedRune` of package strconv for the quote character `"`, without
the ASCII-only and graphic-only modes: what `%q` writes for one rune of a string. -/
def appendEscapedRune (lib : GoLib) (c : Char) : List Char :=
  if c = dquote ∨ c = backslash then [backslash, c]
  else if IsPrint lib c then [c]
  else if c.toNat = 7 then [backslash, 'a']
  else if c.toNat = 8 then [backslash, 'b']
  else if c.toNat = 12 then [backslash, 'f']
  else if c.toNat = 10 then [backslash, 'n']
  else if c.toNat = 13 then [backslash, 'r']
  else if c.toNat = 9 then [backslash, 't']
  else if c.toNat = 11 then [backslash, 'v']
  else if c.toNat < 0x20 ∨ c.toNat = 0x7F then backslash :: 'x' :: hexDigits 2 c.toNat
  else if c.toNat < 0x10000 then backslash :: 'u' :: hexDigits 4 c.toNat
  else backslash :: 'U' :: hexDigits 8 c.toNat

/-- The text `fmt.Sprintf("%q", s)` (`strconv.Quote`) for a string of valid runes. -/
def goQuote (lib : GoLib) (s : String) : String :=
  String.mk (dquote :: (s.data.flatMap (appendEscapedRune lib) ++ [dquote]))

/-- Function `sanitizeIdentifier` (schema.go). -/
def sanitizeIdentifier (lib : GoLib) (name : String) : String :=
  let safe := String.mk (name.data.filter (fun c => c ≠ dquote))
  let safe1 := String.mk (safe.data.map (fun c => if c = '-' then '_' else c))
  goQuote lib safe1

/-- Function `FlexibeeTypeToPG` (schema.go). -/
def FlexibeeTypeToPG (prop : Property) : String :=
  if prop.Type_ = "integer" then "BIGINT"
  else if prop.Type_ = "numeric" then "NUMERIC"
  else if prop.Type_ = "date" then "DATE"
  else if prop.Type_ = "datetime" then "TIMESTAMPTZ"
  else if prop.Type_ = "logic" then "BOOLEAN"
  else if prop.Type_ = "string" then "TEXT"
  else if prop.Type_ = "relation" then "TEXT"
  else "TEXT"

/-- An argument bound to a placeholder of a statement. -/
inductive SqlArg where
  | val (v : Value)
  | json (payload : String)
  | time (t : Time)
  | int (n : Int)
  deriving DecidableEq, Repr

/-- A statement the store code builds with `fmt.Sprintf`, kept as the pieces put into the
template; `Statement.sql` is the text. -/
inductive Statement where
  /-- The statement `createSQL` of `EnsureTable`. -/
  | createTable (safeTable : String)
  /-- The statement `alterSQL` of `EnsureTable`. -/
  | addColumn (safeTable colName pgType : String)
  /-- The statement `query` of `UpsertRecords`; an update is the column and its
  placeholder. -/
  | upsert (safeTable : String) (cols placeholders : List String) (safePK : String)
      (updates : List (String × String))
  /-- The statement `query` of `CleanupOldRecords`. -/
  | cleanup (safeTable : String)
  deriving DecidableEq, Repr

/-- The text of a statement, as the `fmt.Sprintf` calls of schema.go and postgres.go
produce it (layout whitespace of the multi-line templates reduced to single blanks). -/
def Statement.sql : Statement → String
  | .createTable safeTable =>
      "CREATE TABLE IF NOT EXISTS " ++ safeTable
        ++ " ( id BIGINT PRIMARY KEY, raw_data JSONB,"
        ++ " synced_at TIMESTAMPTZ NOT NULL DEFAULT NOW() )"
  | .addColumn safeTable colName pgType =>
      "ALTER TABLE " ++ safeTable ++ " ADD COLUMN IF NOT EXISTS " ++ colName ++ " " ++ pgType
  | .upsert safeTable cols placeholders safePK updates =>
      "INSERT INTO " ++ safeTable ++ " (" ++ ", ".intercalate cols ++ ") VALUES ("
        ++ ", ".intercalate placeholders ++ ") ON CONFLICT (" ++ safePK
        ++ ") DO UPDATE SET "
        ++ ", ".intercalate (updates.map (fun u => u.1 ++ " = " ++ u.2))
  | .cleanup safeTable =>
      "DELETE FROM " ++ safeTable ++ " WHERE ctid IN ( SELECT ctid FROM " ++ safeTable
        ++ " WHERE " ++ String.mk [dquote] ++ "synced_at" ++ String.mk [dquote]
        ++ " < $1 LIMIT $2 )"

/-- The connection pool (`pgxpool.Pool`) as the store code uses it, over a world `σ`:
`Exec` answers with the number of rows affected or an error; `QueryColumns` is the query of
`getExistingColumns` for a table name, answering with the column names or an error. -/
structure Pool (σ : Type) where
  Exec : Context → Statement → List SqlArg → σ → Except String Int × σ
  QueryColumns : Context → String → σ → Except String (List String) × σ

/-- One call on the pool together with its answer. -/
inductive PoolEvent where
  | exec (stmt : Statement) (args : List SqlArg) (res : Except String Int)
  | queryColumns (table : String) (res : Except String (List String))
  deriving DecidableEq, Repr

/-- Failures of the connection or the server that do not depend on the statement's meaning:
each may depend on the calls made so far. -/
structure Faults where
  exec : List PoolEvent → Statement → List SqlArg → Option String
  query : List PoolEvent → String → Option String

/-- No failure is injected. -/
def noFaults : Faults := ⟨fun _ _ _ => none, fun _ _ => none⟩

/-- A pool that records every call and its answer, and on which the faults `faults` occur: a
call hit by a fault is answered with the error and does not reach the underlying pool. -/
def faulty {σ : Type} (faults : Faults) (pool : Pool σ) : Pool (σ × List PoolEvent) where
  Exec := fun ctx stmt args s =>
    match faults.exec s.2 stmt args with
    | some e => (.error e, (s.1, s.2 ++ [.exec stmt args (.error e)]))
    | none =>
        let r := pool.Exec ctx stmt args s.1
        (r.1, (r.2, s.2 ++ [.exec stmt args r.1]))
  QueryColumns := fun ctx table s =>
    match faults.query s.2 table with
    | some e => (.error e, (s.1, s.2 ++ [.queryColumns table (.error e)]))
    | none =>
        let r := pool.QueryColumns ctx table s.1
        (r.1, (r.2, s.2 ++ [.queryColumns table r.1]))

/-- The statements of the `Exec` calls among the events, in order. -/
def execStatements : List PoolEvent → List Statement
  | [] => []
  | .exec stmt _ _ :: rest => stmt :: execStatements rest
  | .queryColumns _ _ :: rest => execStatements rest

/-- The answers of the `Exec` calls among the events, in order. -/
def execResults : List PoolEvent → List (Except String Int)
  | [] => []
  | .exec _ _ res :: rest => res :: execResults rest
  | .queryColumns _ _ :: rest => execResults rest

/-- Whether the call was answered without an error. -/
def PoolEvent.succeeded : PoolEvent → Bool
  | .exec _ _ (.ok _) => true
  | .queryColumns _ (.ok _) => true
  | _ => false

/-! ### A relational database answering the statements

The part of PostgreSQL's documented behaviour that the statements above exercise. Values are
not checked against column types, identifiers are taken to be shorter than the server's
length limit, and a `LIMIT` without an order takes rows in storage order. -/

/-- A stored row: the value of each column that has one. -/
abbrev DbRow := List (String × SqlArg)

/-- A table: its columns with their types, and its rows. -/
structure DbTable where
  columns : List (String × String)
  rows : List DbRow
  deriving DecidableEq, Repr

/-- The database: its tables by name, and the value of `NOW()`. -/
structure Database where
  tables : List (String × DbTable)
  now : Time
  deriving DecidableEq, Repr

/-- The table called `name`, if any. -/
def getTable (name : String) : List (String × DbTable) → Option DbTable
  | [] => none
  | (k, v) :: rest => if k = name then some v else getTable name rest

/-- Replace the table called `name`, or add it. -/
def putTable (name : String) (t : DbTable) : List (String × DbTable) → List (String × DbTable)
  | [] => [(name, t)]
  | (k, v) :: rest => if k = name then (name, t) :: rest else (k, v) :: putTable name t rest

/-- The columns `CREATE TABLE` of `EnsureTable` gives a new table. -/
def baseColumns : List (String × String) :=
  [("id", "BIGINT"), ("raw_data", "JSONB"), ("synced_at", "TIMESTAMPTZ")]

/-- The name a delimited identifier `"..."` denotes: the text between the quotes. -/
def pgIdent (quoted : String) : String :=
  String.mk (quoted.data.drop 1).dropLast

/-- The number written by a non-empty list of decimal digits, continuing from `acc`. -/
def parseDigits : List Char → Nat → Option Nat
  | [], _ => none
  | [c], acc => if c.isDigit then some (acc * 10 + (c.toNat - 48)) else none
  | c :: d :: rest, acc =>
      if c.isDigit then parseDigits (d :: rest) (acc * 10 + (c.toNat - 48)) else none

/-- The value of one entry of a `VALUES` list or right-hand side of `SET`: `NOW()`, or the
argument a placeholder `$n` stands for. -/
def evalPlaceholder (args : List SqlArg) (now : Time) (ph : String) : Option SqlArg :=
  if ph = "NOW()" then some (.time now)
  else
    match ph.data with
    | '$' :: ds =>
        match parseDigits ds 0 with
        | some (n + 1) => args.get? n
        | _ => none
    | _ => none

/-- The values of a list of entries; `none` if one of them has no value. -/
def evalPlaceholders (args : List SqlArg) (now : Time) : List String → Option (List SqlArg)
  | [] => some []
  | ph :: rest =>
      match evalPlaceholder args now ph, evalPlaceholders args now rest with
      | some v, some vs => some (v :: vs)
      | _, _ => none

/-- Set the value of a column in a row. -/
def setCell (col : String) (v : SqlArg) : DbRow → DbRow
  | [] => [(col, v)]
  | (k, old) :: rest => if k = col then (col, v) :: rest else (k, old) :: setCell col v rest

/-- Insert `row`, or on a conflict on `id` assign `sets` in the row already there. -/
def upsertRow (row : DbRow) (sets : List (String × SqlArg)) : List DbRow → List DbRow
  | [] => [row]
  | r :: rest =>
      if r.lookup "id" = row.lookup "id" then
        sets.foldl (fun acc cv => setCell cv.1 cv.2 acc) r :: rest
      else r :: upsertRow row sets rest

/-- Whether the row's `synced_at` is strictly before `cutoff`. -/
def isOld (cutoff : Time) (r : DbRow) : Bool :=
  match r.lookup "synced_at" with
  | some (.time t) => decide (t < cutoff)
  | _ => false

/-- Remove the first `limit` rows that are older than `cutoff`. -/
def deleteOld (cutoff : Time) : Nat → List DbRow → List DbRow
  | 0, rows => rows
  | _ + 1, [] => []
  | n + 1, r :: rows =>
      if isOld cutoff r then deleteOld cutoff n rows else r :: deleteOld cutoff (n + 1) rows

/-- What the database answers to a statement, and the database afterwards. A statement that
fails changes nothing. -/
def pgExec (stmt : Statement) (args : List SqlArg) (db : Database) :
    Except String Int × Database :=
  match stmt with
  | .createTable safeTable =>
      if pgIdent safeTable = "" then (.error "zero-length delimited identifier", db)
      else
        match getTable (pgIdent safeTable) db.tables with
        | some _ => (.ok 0, db)
        | none =>
            (.ok 0, ⟨db.tables ++ [(pgIdent safeTable, ⟨baseColumns, []⟩)], db.now⟩)
  | .addColumn safeTable colName pgType =>
      match getTable (pgIdent safeTable) db.tables with
      | none => (.error ("relation " ++ safeTable ++ " does not exist"), db)
      | some t =>
          if pgIdent colName = "" then (.error "zero-length delimited identifier", db)
          else if pgIdent colName ∈ t.columns.map Prod.fst then (.ok 0, db)
          else
            (.ok 0, ⟨putTable (pgIdent safeTable)
              ⟨t.columns ++ [(pgIdent colName, pgType)], t.rows⟩ db.tables, db.now⟩)
  | .upsert safeTable cols placeholders safePK updates =>
      match getTable (pgIdent safeTable) db.tables with
      | none => (.error ("relation " ++ safeTable ++ " does not exist"), db)
      | some t =>
          match (cols.map pgIdent).find? (fun c => decide (c ∉ t.columns.map Prod.fst)) with
          | some c =>
              (.error ("column " ++ c ++ " of relation " ++ safeTable ++ " does not exist"), db)
          | none =>
              if ¬ (cols.map pgIdent).Nodup then
                (.error "column specified more than once", db)
              else if pgIdent safePK ≠ "id" then
                (.error "there is no unique constraint matching the ON CONFLICT specification",
                  db)
              else
                match evalPlaceholders args db.now placeholders,
                    evalPlaceholders args db.now (updates.map Prod.snd) with
                | some vals, some sets =>
                    if vals.length ≠ cols.length then
                      (.error "INSERT has more target columns than expressions", db)
                    else if ((cols.map pgIdent).zip vals).lookup "id" = some (.val .null) then
                      (.error "null value in column id violates not-null constraint", db)
                    else
                      (.ok 1, ⟨putTable (pgIdent safeTable)
                        ⟨t.columns, upsertRow ((cols.map pgIdent).zip vals)
                          ((updates.map (fun u => pgIdent u.1)).zip sets) t.rows⟩
                        db.tables, db.now⟩)
                | _, _ => (.error "there is no parameter for a placeholder", db)
  | .cleanup safeTable =>
      match getTable (pgIdent safeTable) db.tables, args with
      | some t, [.time cutoff, .int limit] =>
          if limit < 0 then (.error "LIMIT must not be negative", db)
          else
            (.ok ((t.rows.length : Int) - ((deleteOld cutoff limit.toNat t.rows).length : Int)),
              ⟨putTable (pgIdent safeTable)
                ⟨t.columns, deleteOld cutoff limit.toNat t.rows⟩ db.tables, db.now⟩)
      | none, _ => (.error ("relation " ++ safeTable ++ " does not exist"), db)
      | _, _ => (.error "wrong parameters", db)

/-- The database as a pool: `information_schema.columns` lists the columns of the table
whose name is the given text. -/
def pgPool : Pool Database where
  Exec := fun _ stmt args db => pgExec stmt args db
  QueryColumns := fun _ table db =>
    match getTable table db.tables with
    | some t => (.ok (t.columns.map Prod.fst), db)
    | none => (.ok [], db)

/-! ### postgres.go: UpsertRecords and CleanupOldRecords -/

/-- The locals `cols`, `placeholders`, `updates` and `args` of `UpsertRecords`. -/
structure UpsertParts where
  cols : List String
  placeholders : List String
  updates : List (String × String)
  args : List SqlArg
  deriving DecidableEq, Repr

/-- The inner loop `for k, v := range record` of `UpsertRecords`, from argument index
`argIdx`; the fields are visited in the order of the list. -/
def upsertFields (lib : GoLib) (primaryKey : String) :
    List (String × Value) → Nat → UpsertParts → UpsertParts
  | [], _, p => p
  | (k, v) :: rest, argIdx, p =>
      if k = primaryKey then upsertFields lib primaryKey rest argIdx p
      else
        upsertFields lib primaryKey rest (argIdx + 1)
          ⟨p.cols ++ [sanitizeIdentifier lib k],
            p.placeholders ++ ["$" ++ toString argIdx],
            p.updates ++ [(sanitizeIdentifier lib k, "$" ++ toString argIdx)],
            p.args ++ [.val v]⟩

/-- The statement parts `UpsertRecords` builds for a record whose primary key value is `id`
and whose payload is `rawJSON`. -/
def upsertParts (lib : GoLib) (primaryKey : String) (record : Record) (id : Value)
    (rawJSON : String) : UpsertParts :=
  upsertFields lib primaryKey record 3
    ⟨[sanitizeIdentifier lib primaryKey, sanitizeIdentifier lib "raw_data",
        sanitizeIdentifier lib "synced_at"],
      ["$1", "$2", "NOW()"],
      [(sanitizeIdentifier lib "raw_data", "$2"), (sanitizeIdentifier lib "synced_at", "NOW()")],
      [.val id, .json rawJSON]⟩

/-- The statement built for a record, see `upsertParts`. -/
def upsertStatement (lib : GoLib) (table primaryKey : String) (record : Record) (id : Value)
    (rawJSON : String) : Statement :=
  .upsert (sanitizeIdentifier lib table) (upsertParts lib primaryKey record id rawJSON).cols
    (upsertParts lib primaryKey record id rawJSON).placeholders
    (sanitizeIdentifier lib primaryKey)
    (upsertParts lib primaryKey record id rawJSON).updates

/-- The loop `for _, record := range records` of `UpsertRecords`, from the count `count`. -/
def upsertLoop {σ : Type} (lib : GoLib) (pool : Pool σ) (ctx : Context)
    (table primaryKey : String) : List Record → Int → σ → Int × σ
  | [], count, s => (count, s)
  | record :: rest, count, s =>
      match lib.jsonMarshal record with
      | .error _ => upsertLoop lib pool ctx table primaryKey rest count s
      | .ok rawJSON =>
          match record.lookup primaryKey with
          | none => upsertLoop lib pool ctx table primaryKey rest count s
          | some id =>
              match pool.Exec ctx (upsertStatement lib table primaryKey record id rawJSON)
                  (upsertParts lib primaryKey record id rawJSON).args s with
              | (.error _, s1) => upsertLoop lib pool ctx table primaryKey rest count s1
              | (.ok _, s1) => upsertLoop lib pool ctx table primaryKey rest (count + 1) s1

/-- Method `Store.UpsertRecords` (postgres.go): the count and the error. -/
def Store.UpsertRecords {σ : Type} (lib : GoLib) (pool : Pool σ) (ctx : Context)
    (table : String) (records : List Record) (primaryKey : String) (s : σ) :
    (Int × Option String) × σ :=
  if records.length = 0 then ((0, none), s)
  else
    (((upsertLoop lib pool ctx table primaryKey records 0 s).1, none),
      (upsertLoop lib pool ctx table primaryKey records 0 s).2)

/-- The loop of `CleanupOldRecords` from the total `totalDeleted`, for at most `fuel` rounds;
`none` when the loop is still running after them. -/
def cleanupLoop {σ : Type} (lib : GoLib) (pool : Pool σ) (ctx : Context) (table : String)
    (olderThan : Time) (batchSize : Int) : Nat → Int → σ → Option ((Int × Option String) × σ)
  | 0, _, _ => none
  | fuel + 1, totalDeleted, s =>
      match pool.Exec ctx (.cleanup (sanitizeIdentifier lib table))
          [.time olderThan, .int batchSize] s with
      | (.error e, s1) => some ((totalDeleted, some ("cleanup " ++ table ++ ": " ++ e)), s1)
      | (.ok deleted, s1) =>
          if deleted < batchSize then some ((totalDeleted + deleted, none), s1)
          else cleanupLoop lib pool ctx table olderThan batchSize fuel (totalDeleted + deleted) s1

/-- Method `Store.CleanupOldRecords` (postgres.go), run for at most `fuel` rounds. -/
def Store.CleanupOldRecords {σ : Type} (lib : GoLib) (pool : Pool σ) (fuel : Nat)
    (ctx : Context) (table : String) (olderThan : Time) (batchSize : Int) (s : σ) :
    Option ((Int × Option String) × σ) :=
  cleanupLoop lib pool ctx table olderThan batchSize fuel 0 s

/-! ### schema.go: EnsureTable -/

/-- Function `getExistingColumns` (schema.go): the set of column names, as a list. -/
def getExistingColumns {σ : Type} (pool : Pool σ) (ctx : Context) (table : String) (s : σ) :
    Except String (List String) × σ :=
  pool.QueryColumns ctx table s

/-- The loop `for _, prop := range properties` of `EnsureTable`. -/
def ensureColumns {σ : Type} (lib : GoLib) (pool : Pool σ) (ctx : Context)
    (safeTable : String) (existing : List String) : List Property → σ → σ
  | [], s => s
  | prop :: rest, s =>
      if prop.Name ∈ existing then ensureColumns lib pool ctx safeTable existing rest s
      else if prop.Name = "id" then ensureColumns lib pool ctx safeTable existing rest s
      else
        ensureColumns lib pool ctx safeTable existing rest
          (pool.Exec ctx
            (.addColumn safeTable (sanitizeIdentifier lib prop.Name) (FlexibeeTypeToPG prop))
            [] s).2

/-- Function `EnsureTable` (schema.go). -/
def EnsureTable {σ : Type} (lib : GoLib) (pool : Pool σ) (ctx : Context) (table : String)
    (properties : List Property) (s : σ) : Option String × σ :=
  match pool.Exec ctx (.createTable (sanitizeIdentifier lib table)) [] s with
  | (.error e, s1) => (some ("create table " ++ table ++ ": " ++ e), s1)
  | (.ok _, s1) =>
      match getExistingColumns pool ctx table s1 with
      | (.error e, s2) => (some ("get columns for " ++ table ++ ": " ++ e), s2)
      | (.ok existing, s2) =>
          (none, ensureColumns lib pool ctx (sanitizeIdentifier lib table) existing properties s2)

/-! ### Sample data for the store -/

/-- A library whose `json.Marshal` fails on a record with a field `bad`, as it does on a
value that has no JSON form. -/
def sampleLib : GoLib where
  isPrintTable := fun _ => true
  jsonMarshal := fun record =>
    if record.lookup "bad" = none then .ok ("json of " ++ toString record.length ++ " fields")
    else .error "json: unsupported value"

/-- An empty database at time 50. -/
def emptyDb : Database := ⟨[], 50⟩

/-- The field descriptors of a sample entity. -/
def sampleProps : List Property :=
  [⟨"id", "integer", 0, true, true⟩, ⟨"kod", "string", 20, true, false⟩,
    ⟨"cena", "numeric", 0, false, false⟩, ⟨"last-update", "datetime", 0, false, false⟩]

/-- The database after `EnsureTable` ran for `flexibee_test` without field descriptors: the
table has the base columns only. -/
def baseColumnsDb : Database := ⟨[("flexibee_test", ⟨baseColumns, []⟩)], 50⟩

/-- A record with the primary key and one further field. -/
def recordWithKod : Record := [("id", .num 1), ("kod", .str "T001")]

/-- The write `UpsertRecords` attempts for a record: its statement and arguments, when the
record serialises and has the primary-key field. -/
def upsertCall (lib : GoLib) (table primaryKey : String) (record : Record) :
    Option (Statement × List SqlArg) :=
  match lib.jsonMarshal record, record.lookup primaryKey with
  | .ok rawJSON, some id =>
      some (upsertStatement lib table primaryKey record id rawJSON,
        (upsertParts lib primaryKey record id rawJSON).args)
  | _, _ => none

/-- Whether an answer is a success. -/
def isOk : Except String Int → Bool
  | .ok _ => true
  | .error _ => false

/-- A table with rows synced at 10, 120, 20, 100, 30, 40 and 50. -/
def agedTable : DbTable :=
  ⟨baseColumns,
    [[("id", .val (.num 1)), ("synced_at", .time 10)],
     [("id", .val (.num 2)), ("synced_at", .time 120)],
     [("id", .val (.num 3)), ("synced_at", .time 20)],
     [("id", .val (.num 4)), ("synced_at", .time 100)],
     [("id", .val (.num 5)), ("synced_at", .time 30)],
     [("id", .val (.num 6)), ("synced_at", .time 40)],
     [("id", .val (.num 7)), ("synced_at", .time 50)]]⟩

/-- A database holding `agedTable` as `flexibee_test`, at time 130. -/
def agedDb : Database := ⟨[("flexibee_test", agedTable)], 130⟩

/-- The names of the columns of the table `name`; none if there is no such table. -/
def columnNames (name : String) (db : Database) : List String :=
  match getTable name db.tables with
  | some t => t.columns.map Prod.fst
  | none => []

/-- Every table of `db` is a table of `db1` with the same rows, whose columns are those of
`db`, names and types, followed by further ones. -/
def Grows (db db1 : Database) : Prop :=
  ∀ name t, getTable name db.tables = some t →
    ∃ extra, getTable name db1.tables = some ⟨t.columns ++ extra, t.rows⟩

/-! ### Definitions used to state the properties of the schema and of the statements -/

/-- The fields for which `EnsureTable` attempts to add a column, given the listing
`existing`: those that are not listed and are not named `id`, in the order of the fields. -/
def columnsToAdd (existing : List String) (props : List Property) : List Property :=
  props.filter (fun p => !decide (p.Name ∈ existing) && !decide (p.Name = "id"))

/-- The statement `alterSQL` of `EnsureTable` for a field. -/
def addColumnStatement (lib : GoLib) (table : String) (p : Property) : Statement :=
  .addColumn (sanitizeIdentifier lib table) (sanitizeIdentifier lib p.Name) (FlexibeeTypeToPG p)

/-- Faults that hit exactly the addition of the column `"kod"`. -/
def kodColumnFails : Faults where
  exec := fun _ stmt _ =>
    match stmt with
    | .addColumn _ colName _ =>
        if pgIdent colName = "kod" then some "permission denied" else none
    | _ => none
  query := fun _ _ => none

/-- The name with every double quote removed and every hyphen replaced by an underscore:
the local `safe` of `sanitizeIdentifier` before it is quoted. -/
def cleanedName (name : String) : List Char :=
  (name.data.filter (fun c => c ≠ dquote)).map (fun c => if c = '-' then '_' else c)

/-- The identifier in the words of the specification: a double quote, the cleaned name with
all its characters unchanged, and a closing double quote. -/
def wrappedIdentifier (name : String) : String :=
  String.mk (dquote :: (cleanedName name ++ [dquote]))

/-- A name with a backslash between two letters. -/
def backslashName : String := String.mk ['a', backslash, 'b']

/-- A name with a line feed between two letters. -/
def lineFeedName : String := String.mk ['a', Char.ofNat 10, 'b']

/-- The fields of a record other than the primary key, in the order they are visited. -/
def nonKeyFields (primaryKey : String) (record : Record) : List (String × Value) :=
  record.filter (fun kv => decide (kv.1 ≠ primaryKey))

/-- The placeholder written for the field at position `i` among the fields other than the
primary key: `$3` for the first of them. -/
def fieldPlaceholder (i : Nat) : String := "$" ++ toString (i + 3)

/-- A record whose field names `a-b` and `a_b` differ and have the same sanitised name. -/
def twinNamesRecord : Record := [("id", .num 1), ("a-b", .str "x"), ("a_b", .str "y")]

/-- A record with a field named as the payload column. -/
def payloadNameRecord : Record := [("id", .num 1), ("raw_data", .str "x")]

/-- A record with a field named as the timestamp column. -/
def timestampNameRecord : Record := [("id", .num 1), ("synced_at", .str "x")]

/-- A database whose table `flexibee_test` has the base columns and a column `a_b`. -/
def twinColumnDb : Database :=
  ⟨[("flexibee_test", ⟨baseColumns ++ [("a_b", "TEXT")], []⟩)], 50⟩

/-! ### registry.go -/

/-- The zero value `Evidence{}`, which a Go map gives for a missing key. -/
def Evidence.zero : Evidence := ⟨"", "", "", false⟩

/-- Lookup `m[slug]` in the map `evidences`, kept as one entry per key: `none` when the key
is missing. -/
def mapGet (slug : String) : List (String × Evidence) → Option Evidence
  | [] => none
  | (k, v) :: rest => if k = slug then some v else mapGet slug rest

/-- Assignment `m[slug] = ev` in the map `evidences`: the entry of the key is replaced, or a
new entry is added. -/
def mapSet (slug : String) (ev : Evidence) : List (String × Evidence) → List (String × Evidence)
  | [] => [(slug, ev)]
  | (k, v) :: rest => if k = slug then (slug, ev) :: rest else (k, v) :: mapSet slug ev rest

/-- Struct `Registry` (registry.go). -/
structure Registry where
  evidences : List (String × Evidence)
  order : List String
  deriving DecidableEq, Repr

/-- Function `New` of package registry. -/
def Registry.New : Registry := ⟨[], []⟩

/-- Method `Registry.Register`. -/
def Registry.Register (r : Registry) (ev : Evidence) : Registry :=
  let order1 := if (mapGet ev.Slug r.evidences).isSome then r.order else r.order ++ [ev.Slug]
  ⟨mapSet ev.Slug ev r.evidences, order1⟩

/-- Method `Registry.Get`: the descriptor and whether the slug is registered. -/
def Registry.Get (r : Registry) (slug : String) : Evidence × Bool :=
  match mapGet slug r.evidences with
  | some ev => (ev, true)
  | none => (Evidence.zero, false)

/-- Method `Registry.All`. -/
def Registry.All (r : Registry) : List Evidence :=
  r.order.map (fun slug => (mapGet slug r.evidences).getD Evidence.zero)

/-- Method `Registry.Len`: `len(r.evidences)`. -/
def Registry.Len (r : Registry) : Int :=
  r.evidences.length

/-- The registry after the `Register` calls `evs` on a new registry. -/
def registered (evs : List Evidence) : Registry :=
  evs.foldl Registry.Register Registry.New

/-- The distinct texts of a list, each at the place of its first occurrence. -/
def firstOccurrences : List String → List String
  | [] => []
  | x :: xs => x :: (firstOccurrences xs).filter (fun y => decide (y ≠ x))

/-- The descriptor most recently registered for `slug` by the calls `evs`, if any. -/
def lastRegistered (slug : String) (evs : List Evidence) : Option Evidence :=
  evs.reverse.find? (fun ev => decide (ev.Slug = slug))

/-- The calls of `TestRegistry_All_PreservesOrder` followed by a second registration of
`b`. -/
def sampleRegistrations : List Evidence :=
  [⟨"b", "t_b", "id", false⟩, ⟨"a", "t_a", "id", false⟩, ⟨"c", "t_c", "id", false⟩,
    ⟨"b", "t_b_updated", "id", true⟩]

/-! ### engine.go: `RunOnce` and the limit of its group

`Engine.RunOnce` makes the group with `errgroup.WithContext`, calls
`g.SetLimit(e.concurrency)`, calls `g.Go` with the `syncEvidence` of each entity in catalog
order, and waits.  The group is that of package errgroup: `SetLimit(n)` makes the semaphore
`g.sem`, a channel of capacity `n` (no channel for a negative `n`); `g.Go` first sends a
token on `g.sem`, which blocks while the channel is full, and then starts the goroutine; the
goroutine runs the function, keeps the first error and cancels the context of the group on
it, and its deferred `g.done()` receives a token back.  The goroutines advance in any order:
a run is a sequence of moves, and the calls of one `syncEvidence` on the world are placed at
the moment it returns. -/

/-- A channel of tokens, `chan token`: its capacity and the number of tokens in its
buffer. -/
structure TokenChan where
  cap : Nat
  len : Nat
  deriving DecidableEq, Repr

/-- A send on the channel, with no receiver waiting: the channel after it, or `none` while
the send blocks because the buffer is full. -/
def TokenChan.send (c : TokenChan) : Option TokenChan :=
  if c.len < c.cap then some ⟨c.cap, c.len + 1⟩ else none

/-- A receive from the channel: the channel after it, or `none` while the receive blocks
because the buffer is empty. -/
def TokenChan.recv (c : TokenChan) : Option TokenChan :=
  if 0 < c.len then some ⟨c.cap, c.len - 1⟩ else none

/-- Struct `errgroup.Group`: the semaphore `sem` (`none` is the nil channel) and the error
`err` the group keeps. -/
structure Group where
  sem : Option TokenChan
  err : Option String
  deriving DecidableEq, Repr

/-- Method `Group.SetLimit`. -/
def Group.SetLimit (g : Group) (n : Int) : Group :=
  if n < 0 then { g with sem := none } else { g with sem := some ⟨n.toNat, 0⟩ }

/-- The first statement of `Group.Go`, `if g.sem != nil { g.sem <- token{} }`: the group
after it, or `none` while it blocks. -/
def Group.acquire (g : Group) : Option Group :=
  match g.sem with
  | none => some g
  | some c =>
      match c.send with
      | none => none
      | some c1 => some { g with sem := some c1 }

/-- Method `Group.done`, `if g.sem != nil { <-g.sem }`. -/
def Group.done (g : Group) : Option Group :=
  match g.sem with
  | none => some g
  | some c =>
      match c.recv with
      | none => none
      | some c1 => some { g with sem := some c1 }

/-- A moment of `Engine.RunOnce` between `g.SetLimit` and the return of `g.Wait`: the group
and its context; the entities the loop has still to hand to `g.Go` (it stands at the first
one); the entities whose goroutine is executing `syncEvidence`; those whose `syncEvidence`
has returned and whose `g.done()` has not run yet; those whose goroutine has ended; and the
world. -/
structure RunOnceState (σ : Type) where
  g : Group
  gctx : Context
  pending : List Evidence
  executing : List Evidence
  returned : List Evidence
  finished : List Evidence
  world : σ
  deriving DecidableEq, Repr

/-- What happens next: the loop's `g.Go` gets past the semaphore and starts the goroutine of
the entity it stands at; the `syncEvidence` at position `i` among the executing ones
returns; or the goroutine at position `i` among the returned ones runs `g.done()`. -/
inductive RunOnceMove where
  | go
  | syncReturns (i : Nat)
  | done (i : Nat)
  deriving DecidableEq, Repr

/-- The state of `Engine.RunOnce` when its loop begins: `evidences := e.registry.All()`,
`g, ctx := errgroup.WithContext(ctx)`, `g.SetLimit(e.concurrency)`. -/
def Engine.RunOnceStart {σ : Type} (e : Engine) (ctx : Context) (s : σ) : RunOnceState σ :=
  { g := Group.SetLimit ⟨none, none⟩ e.concurrency
    gctx := ctx
    pending := e.registry
    executing := []
    returned := []
    finished := []
    world := s }

/-- One move of `Engine.RunOnce`; `none` when the move cannot happen now (`g.Go` is blocked
at the semaphore, there is no such goroutine, or the fuel of the page loop ran out).  When a
`syncEvidence` returns an error and the group has none yet, the group keeps it and cancels
its context. -/
def Engine.RunOnceStep {σ : Type} (e : Engine) (client : Client σ) (st : SyncStore σ)
    (tm : TimePkg σ) (fuel : Nat) (s : RunOnceState σ) : RunOnceMove → Option (RunOnceState σ)
  | .go =>
      match s.pending with
      | [] => none
      | ev :: rest =>
          match s.g.acquire with
          | none => none
          | some g1 => some { s with g := g1, pending := rest, executing := s.executing ++ [ev] }
  | .syncReturns i =>
      match s.executing[i]? with
      | none => none
      | some ev =>
          match syncEvidence client st tm s.gctx ev e.batchSize fuel s.world with
          | none => none
          | some (err, w1) =>
              some { s with
                g := { s.g with err := match s.g.err with
                                        | some x => some x
                                        | none => err }
                gctx := match err, s.gctx.err with
                        | some _, none => Context.canceled
                        | _, _ => s.gctx
                executing := s.executing.eraseIdx i
                returned := s.returned ++ [ev]
                world := w1 }
  | .done i =>
      match s.returned[i]? with
      | none => none
      | some ev =>
          match s.g.done with
          | none => none
          | some g1 =>
              some { s with g := g1, returned := s.returned.eraseIdx i,
                            finished := s.finished ++ [ev] }

/-- A run of `Engine.RunOnce` from a state: a sequence of moves. -/
def Engine.RunOnceMoves {σ : Type} (e : Engine) (client : Client σ) (st : SyncStore σ)
    (tm : TimePkg σ) (fuel : Nat) : RunOnceState σ → List RunOnceMove → Option (RunOnceState σ)
  | s, [] => some s
  | s, m :: rest =>
      match e.RunOnceStep client st tm fuel s m with
      | none => none
      | some s1 => e.RunOnceMoves client st tm fuel s1 rest

/-- An engine over `cleanerCatalog` with batch size 2 and the given limit. -/
def catalogEngine (limit : Int) : Engine :=
  { registry := cleanerCatalog, batchSize := 2, concurrency := limit }

/-- The run in which each of `n` entities is started, returns from `syncEvidence` and ends
before the loop hands the next one to `g.Go`. -/
def sequentialMoves : Nat → List RunOnceMove
  | 0 => []
  | n + 1 => .go :: .syncReturns 0 :: .done 0 :: sequentialMoves n

/-! ## Theorems -/

theorem Next_of_done {σ : Type} (client : Client σ) (ctx : Context) (it : PageIterator)
    (s : σ) (hd : it.done = true) : it.Next client ctx s = (.ok none, it, s) := by
  simp [PageIterator.Next, hd]

theorem Next_of_fetch_error {σ : Type} (client : Client σ) (ctx : Context)
    (it : PageIterator) (s s1 : σ) (e : String) (hd : it.done = false)
    (hf : client.FetchEvidence ctx it.evidence it.request s = (.error e, s1)) :
    it.Next client ctx s
      = (.error ("fetch page at offset " ++ toString it.fetched ++ ": " ++ e),
          { it with opts := it.request }, s1) := by
  simp only [PageIterator.request] at hf
  simp [PageIterator.Next, PageIterator.request, hd, hf]

theorem Next_of_fetch_ok {σ : Type} (client : Client σ) (ctx : Context)
    (it : PageIterator) (s s1 : σ) (resp : Response) (hd : it.done = false)
    (hf : client.FetchEvidence ctx it.evidence it.request s = (.ok resp, s1)) :
    ∃ it1 : PageIterator,
      it.Next client ctx s
        = (.ok (if resp.Winstrom.Records = [] then none else some resp.Winstrom.Records),
            it1, s1)
      ∧ it1.evidence = it.evidence
      ∧ it1.opts = it.request
      ∧ it1.fetched = it.fetched + resp.Winstrom.Records.length
      ∧ it1.total = (match it.total with
          | some t => some t
          | none => resp.Winstrom.RowCount)
      ∧ (it1.done = true ↔
          resp.Winstrom.Records = []
          ∨ (resp.Winstrom.Records.length : Int) < it.opts.Limit
          ∨ ∃ t, it1.total = some t ∧ t ≤ it1.fetched) := by
  rcases it with ⟨evd, opts, dn, tot, fet⟩
  rcases resp with ⟨⟨ver, rc, recs⟩⟩
  simp only [PageIterator.request] at hd hf ⊢
  subst hd
  cases recs with
  | nil =>
      cases tot <;> cases rc <;>
        simp [PageIterator.Next, hf]
  | cons r rs =>
      by_cases h1 : ((rs.length : Int) + 1) < opts.Limit
      · cases tot with
        | none =>
            cases rc with
            | none => simp [PageIterator.Next, hf, h1]
            | some v =>
                by_cases h2 : v ≤ fet + ((rs.length : Int) + 1) <;>
                  simp [PageIterator.Next, hf, h1, h2]
        | some t =>
            by_cases h2 : t ≤ fet + ((rs.length : Int) + 1) <;>
              cases rc <;> simp [PageIterator.Next, hf, h1, h2]
      · cases tot with
        | none =>
            cases rc with
            | none => simp [PageIterator.Next, hf, h1]
            | some v =>
                by_cases h2 : v ≤ fet + ((rs.length : Int) + 1) <;>
                  simp [PageIterator.Next, hf, h1, h2]
        | some t =>
            by_cases h2 : t ≤ fet + ((rs.length : Int) + 1) <;>
              cases rc <;> simp [PageIterator.Next, hf, h1, h2]


theorem upsertCalls_append (xs ys : List Event) :
    upsertCalls (xs ++ ys) = upsertCalls xs ++ upsertCalls ys := by
  induction xs with
  | nil => rfl
  | cons e xs ih => cases e <;> simp [upsertCalls, ih]

theorem upsertedSum_append (xs ys : List Event) :
    upsertedSum (xs ++ ys) = upsertedSum xs + upsertedSum ys := by
  induction xs with
  | nil => simp [upsertedSum]
  | cons e xs ih =>
      cases e with
      | upsertRecords t r p res => cases res <;> simp [upsertedSum, ih, add_assoc]
      | _ => simp [upsertedSum, ih]

theorem fetchedPages_append (xs ys : List Event) :
    fetchedPages (xs ++ ys) = fetchedPages xs ++ fetchedPages ys := by
  induction xs with
  | nil => rfl
  | cons e xs ih =>
      cases e with
      | fetchEvidence t o res => cases res <;> simp [fetchedPages, ih]
      | _ => simp [fetchedPages, ih]

theorem fetchRequests_append (xs ys : List Event) :
    fetchRequests (xs ++ ys) = fetchRequests xs ++ fetchRequests ys := by
  induction xs with
  | nil => rfl
  | cons e xs ih => cases e <;> simp [fetchRequests, ih]

theorem saveErrorState_rec (env : Env) (ctx : Context) (slug : String)
    (prior : Option SyncState) (cause : String) (w : World) :
    ∃ (t : Time) (serr : Option String),
      (saveErrorState (recStore env) (recTime env) ctx slug prior cause w).history
        = w.history ++ [.now t, .setSyncState slug
            { Evidence := slug, LastUpdate := watermarkOf prior, LastSync := t,
              RowCount := rowCountOf prior, Status := "error", ErrorMsg := cause } serr]
      ∧ (saveErrorState (recStore env) (recTime env) ctx slug prior cause w).states
        = (match serr with
          | none => putRow slug
              { Evidence := slug, LastUpdate := watermarkOf prior, LastSync := t,
                RowCount := rowCountOf prior, Status := "error", ErrorMsg := cause } w.states
          | some _ => w.states) := by
  refine ⟨env.now w.history, env.setSyncStateErr (w.history ++ [.now (env.now w.history)]) ctx
    slug { Evidence := slug, LastUpdate := watermarkOf prior, LastSync := env.now w.history,
           RowCount := rowCountOf prior, Status := "error", ErrorMsg := cause }, ?_⟩
  cases prior with
  | none =>
      simp only [saveErrorState, recStore, recTime, World.record, watermarkOf, rowCountOf]
      split <;> rename_i h <;> simp [h]
  | some cur =>
      simp only [saveErrorState, recStore, recTime, World.record, watermarkOf, rowCountOf]
      split <;> rename_i h <;> simp [h]


theorem recClient_fetch (env : Env) (ctx : Context) (evidence : String) (opts : FetchOptions)
    (w : World) :
    (recClient env).FetchEvidence ctx evidence opts w
      = (env.fetchEvidence w.history ctx evidence opts,
          w.record (.fetchEvidence evidence opts (env.fetchEvidence w.history ctx evidence opts)))
    := rfl

theorem recStore_upsert (env : Env) (ctx : Context) (table : String) (records : List Record)
    (pk : String) (w : World) :
    (recStore env).UpsertRecords ctx table records pk w
      = (env.upsertRecords w.history ctx table records pk,
          w.record (.upsertRecords table records pk
            (env.upsertRecords w.history ctx table records pk))) := rfl

theorem record_history (w : World) (e : Event) : (w.record e).history = w.history ++ [e] := rfl

theorem record_states (w : World) (e : Event) : (w.record e).states = w.states := rfl

theorem forall_mem_pair_append {p : Event → Prop} (a b : Event) (xs : List Event)
    (ha : p a) (hb : p b) (hxs : ∀ e ∈ xs, p e) : ∀ e ∈ [a, b] ++ xs, p e := by
  intro e he
  simp only [List.mem_append, List.mem_cons, List.mem_singleton, List.not_mem_nil,
    or_false] at he
  rcases he with (rfl | rfl) | he
  · exact ha
  · exact hb
  · exact hxs e he

theorem wrap64_of_inInt64 (x : Int) (h : inInt64 x) : wrap64 x = x := by
  unfold wrap64; unfold inInt64 at h; omega

theorem wrap64_inInt64 (x : Int) : inInt64 (wrap64 x) := by
  unfold wrap64 inInt64; omega

theorem wrap64_wrap64_add (a b : Int) : wrap64 (wrap64 a + b) = wrap64 (a + b) := by
  unfold wrap64; omega

theorem wrap64_add_congr (c a b : Int) (h : wrap64 a = wrap64 b) :
    wrap64 (c + a) = wrap64 (c + b) := by
  unfold wrap64 at *; omega

/-- Shape of what the page loop of `syncEvidence` does in the recording world. -/
theorem syncLoop_rec_spec (env : Env) (ctx : Context) (ev : Evidence)
    (prior : Option SyncState) :
    ∀ (fuel : Nat) (it : PageIterator) (total : Int) (w : World)
      (r : Except String Int) (w1 : World),
      syncLoop (recClient env) (recStore env) (recTime env) ctx ev prior fuel it total w
        = some (r, w1) →
      ∃ evs : List Event, w1.history = w.history ++ evs ∧
        (match r with
         | .ok n =>
             w1.states = w.states
             ∧ (wrap64 n = wrap64 (total + upsertedSum evs) ∧ (inInt64 total → inInt64 n))
             ∧ (∀ e ∈ evs, e.isSyncFailure = false)
             ∧ (∀ e ∈ evs, e.isLoopCall = true)
             ∧ upsertCalls evs
                 = ((fetchedPages evs).filter (fun p => !p.isEmpty)).map
                     (fun p => (ev.Table, p, ev.PrimaryKey))
         | .error msg =>
             ∃ (pre : List Event) (failEv : Event) (cause : String) (t : Time)
               (serr : Option String),
               evs = pre ++ [failEv, .now t, .setSyncState ev.Slug
                   { Evidence := ev.Slug, LastUpdate := watermarkOf prior, LastSync := t,
                     RowCount := rowCountOf prior, Status := "error", ErrorMsg := cause } serr]
               ∧ failureText failEv = some cause
               ∧ (∀ e ∈ pre, e.isSyncFailure = false)
               ∧ (∀ e ∈ pre, e.isLoopCall = true)
               ∧ (msg = "fetch page: " ++ cause ∨ msg = "upsert records: " ++ cause)
               ∧ w1.states = (match serr with
                   | none => putRow ev.Slug
                       { Evidence := ev.Slug, LastUpdate := watermarkOf prior, LastSync := t,
                         RowCount := rowCountOf prior, Status := "error", ErrorMsg := cause }
                       w.states
                   | some _ => w.states)) := by
  intro fuel
  induction fuel with
  | zero => intro it total w r w1 h; simp [syncLoop] at h
  | succ fuel ih =>
      intro it total w r w1 h
      rw [syncLoop] at h
      by_cases hd : it.done = true
      · rw [Next_of_done _ _ _ _ hd] at h
        simp only [Option.some.injEq, Prod.mk.injEq] at h
        obtain ⟨rfl, rfl⟩ := h
        exact ⟨[], by simp, by simp [upsertedSum, upsertCalls, fetchedPages]⟩
      · have hd1 : it.done = false := by simpa using hd
        have hf := recClient_fetch env ctx it.evidence it.request w
        generalize hwf : w.record (.fetchEvidence it.evidence it.request
          (env.fetchEvidence w.history ctx it.evidence it.request)) = wf at hf
        have hwfh : wf.history = w.history ++ [.fetchEvidence it.evidence it.request
          (env.fetchEvidence w.history ctx it.evidence it.request)] := by
          rw [← hwf]; rfl
        have hwfs : wf.states = w.states := by rw [← hwf]; rfl
        cases hres : env.fetchEvidence w.history ctx it.evidence it.request with
        | error e =>
            rw [hres] at hf hwfh
            rw [Next_of_fetch_error _ _ _ _ _ _ hd1 hf] at h
            simp only [Option.some.injEq, Prod.mk.injEq] at h
            obtain ⟨rfl, rfl⟩ := h
            obtain ⟨t, serr, hh, hs⟩ := saveErrorState_rec env ctx ev.Slug prior
              ("fetch page at offset " ++ toString it.fetched ++ ": " ++ e) wf
            refine ⟨[.fetchEvidence it.evidence it.request (.error e),
              .now t, .setSyncState ev.Slug
                { Evidence := ev.Slug, LastUpdate := watermarkOf prior, LastSync := t,
                  RowCount := rowCountOf prior, Status := "error",
                  ErrorMsg := "fetch page at offset " ++ toString it.fetched ++ ": " ++ e }
                serr], ?_, ?_⟩
            · rw [hh, hwfh]; simp
            · refine ⟨[], _, _, t, serr, rfl, ?_, ?_, ?_, Or.inl rfl, ?_⟩
              · simp [failureText, PageIterator.request]
              · simp
              · simp
              · rw [hs, hwfs]
        | ok resp =>
            rw [hres] at hf hwfh
            obtain ⟨it1, hn, -⟩ := Next_of_fetch_ok _ _ _ _ _ _ hd1 hf
            rw [hn] at h
            by_cases hrec : resp.Winstrom.Records = []
            · simp only [hrec, if_true, Option.some.injEq, Prod.mk.injEq] at h
              obtain ⟨rfl, rfl⟩ := h
              refine ⟨[.fetchEvidence it.evidence it.request (.ok resp)], hwfh, ?_⟩
              simp [upsertedSum, upsertCalls, fetchedPages, hrec, hwfs,
                Event.isSyncFailure, Event.isLoopCall]
            · simp only [hrec, if_false] at h
              rw [recStore_upsert] at h
              generalize hwu : wf.record (.upsertRecords ev.Table resp.Winstrom.Records
                ev.PrimaryKey (env.upsertRecords wf.history ctx ev.Table resp.Winstrom.Records
                  ev.PrimaryKey)) = wu at h
              have hwuh : wu.history = wf.history ++ [.upsertRecords ev.Table
                  resp.Winstrom.Records ev.PrimaryKey (env.upsertRecords wf.history ctx
                    ev.Table resp.Winstrom.Records ev.PrimaryKey)] := by
                rw [← hwu]; rfl
              have hwus : wu.states = w.states := by rw [← hwu, ← hwfs]; rfl
              cases hup : env.upsertRecords wf.history ctx ev.Table resp.Winstrom.Records
                  ev.PrimaryKey with
              | error e =>
                  rw [hup] at h hwuh
                  simp only [Option.some.injEq, Prod.mk.injEq] at h
                  obtain ⟨rfl, rfl⟩ := h
                  obtain ⟨t, serr, hh, hs⟩ := saveErrorState_rec env ctx ev.Slug prior e wu
                  refine ⟨[.fetchEvidence it.evidence it.request (.ok resp),
                    .upsertRecords ev.Table resp.Winstrom.Records ev.PrimaryKey (.error e),
                    .now t, .setSyncState ev.Slug
                      { Evidence := ev.Slug, LastUpdate := watermarkOf prior, LastSync := t,
                        RowCount := rowCountOf prior, Status := "error", ErrorMsg := e }
                      serr], ?_, ?_⟩
                  · rw [hh, hwuh, hwfh]; simp
                  · refine ⟨[.fetchEvidence it.evidence it.request (.ok resp)], _, _, t, serr,
                      rfl, ?_, ?_, ?_, Or.inr rfl, ?_⟩
                    · simp [failureText]
                    · simp [Event.isSyncFailure]
                    · simp [Event.isLoopCall]
                    · rw [hs, hwus]
              | ok n =>
                  rw [hup] at h hwuh
                  simp only at h
                  obtain ⟨evs, hh, hshape⟩ := ih _ _ _ _ _ h
                  refine ⟨[.fetchEvidence it.evidence it.request (.ok resp),
                    .upsertRecords ev.Table resp.Winstrom.Records ev.PrimaryKey (.ok n)]
                    ++ evs, ?_, ?_⟩
                  · rw [hh, hwuh, hwfh]; simp
                  · cases r with
                    | ok m =>
                        simp only at hshape ⊢
                        obtain ⟨h1, h2, h3, h4, h5⟩ := hshape
                        refine ⟨h1.trans hwus, ?_, ?_, ?_, ?_⟩
                        · refine ⟨?_, fun _ => h2.2 (wrap64_inInt64 _)⟩
                          rw [h2.1, wrap64_wrap64_add, upsertedSum_append]
                          simp [upsertedSum, add_assoc]
                        · exact forall_mem_pair_append _ _ _ rfl rfl h3
                        · exact forall_mem_pair_append _ _ _ rfl rfl h4
                        · rw [upsertCalls_append, fetchedPages_append, h5]
                          simp [upsertCalls, fetchedPages, hrec]
                    | error msg =>
                        simp only at hshape ⊢
                        obtain ⟨pre, failEv, cause, t, serr, h1, h2, h3, h4, h5, h6⟩ := hshape
                        refine ⟨[.fetchEvidence it.evidence it.request (.ok resp),
                          .upsertRecords ev.Table resp.Winstrom.Records ev.PrimaryKey (.ok n)]
                          ++ pre, failEv, cause, t, serr, ?_, h2, ?_, ?_, h5, ?_⟩
                        · rw [h1]; simp
                        · exact forall_mem_pair_append _ _ _ rfl rfl h3
                        · exact forall_mem_pair_append _ _ _ rfl rfl h4
                        · rw [h6, hwus]


theorem recStore_get (env : Env) (ctx : Context) (evidence : String) (w : World) :
    (recStore env).GetSyncState ctx evidence w
      = ((match env.getSyncStateErr w.history ctx evidence with
          | some e => Except.error e
          | none => Except.ok (getRow evidence w.states)),
         w.record (.getSyncState evidence
          (match env.getSyncStateErr w.history ctx evidence with
          | some e => Except.error e
          | none => Except.ok (getRow evidence w.states)))) := rfl

theorem recStore_set (env : Env) (ctx : Context) (evidence : String) (state : SyncState)
    (w : World) :
    ∃ serr : Option String,
      serr = env.setSyncStateErr w.history ctx evidence state
      ∧ ((recStore env).SetSyncState ctx evidence state w).1 = serr
      ∧ ((recStore env).SetSyncState ctx evidence state w).2.history
          = w.history ++ [.setSyncState evidence state serr]
      ∧ ((recStore env).SetSyncState ctx evidence state w).2.states
          = (match serr with
            | none => putRow evidence state w.states
            | some _ => w.states) := by
  refine ⟨_, rfl, ?_⟩
  cases h : env.setSyncStateErr w.history ctx evidence state <;>
    simp [recStore, h, World.record]

/-- Shape of a whole `syncEvidence` pass in the recording world: it fails at reading the
checkpoint, or it fails inside the page loop, or it reaches the final checkpoint write. -/
theorem syncPass_spec (env : Env) (ctx : Context) (ev : Evidence) (batchSize : Int)
    (fuel : Nat) (w : World) (out : Option String) (w1 : World)
    (h : syncPass env ctx ev batchSize fuel w = some (out, w1)) :
    (∃ e, env.getSyncStateErr w.history ctx ev.Slug = some e
        ∧ out = some ("get sync state: " ++ e)
        ∧ w1.history = w.history ++ [.getSyncState ev.Slug (.error e)]
        ∧ w1.states = w.states)
    ∨ (env.getSyncStateErr w.history ctx ev.Slug = none
        ∧ ∃ (pre : List Event) (failEv : Event) (cause : String) (t : Time)
            (serr : Option String),
            w1.history = w.history ++ (.getSyncState ev.Slug (.ok (getRow ev.Slug w.states))
              :: (pre ++ [failEv, .now t, .setSyncState ev.Slug
                { Evidence := ev.Slug, LastUpdate := watermarkOf (getRow ev.Slug w.states),
                  LastSync := t, RowCount := rowCountOf (getRow ev.Slug w.states),
                  Status := "error", ErrorMsg := cause } serr]))
            ∧ failureText failEv = some cause
            ∧ (∀ e ∈ pre, e.isSyncFailure = false)
            ∧ (∀ e ∈ pre, e.isLoopCall = true)
            ∧ (out = some ("fetch page: " ++ cause) ∨ out = some ("upsert records: " ++ cause))
            ∧ w1.states = (match serr with
                | none => putRow ev.Slug
                    { Evidence := ev.Slug, LastUpdate := watermarkOf (getRow ev.Slug w.states),
                      LastSync := t, RowCount := rowCountOf (getRow ev.Slug w.states),
                      Status := "error", ErrorMsg := cause } w.states
                | some _ => w.states))
    ∨ (env.getSyncStateErr w.history ctx ev.Slug = none
        ∧ ∃ (evs : List Event) (t : Time) (serr : Option String),
            w1.history = w.history ++ (.getSyncState ev.Slug (.ok (getRow ev.Slug w.states))
              :: (evs ++ [.now t, .setSyncState ev.Slug
                { Evidence := ev.Slug, LastUpdate := some t, LastSync := t,
                  RowCount := wrap64 (rowCountOf (getRow ev.Slug w.states) + upsertedSum evs),
                  Status := "ok", ErrorMsg := "" } serr]))
            ∧ (∀ e ∈ evs, e.isSyncFailure = false)
            ∧ (∀ e ∈ evs, e.isLoopCall = true)
            ∧ upsertCalls evs
                = ((fetchedPages evs).filter (fun p => !p.isEmpty)).map
                    (fun p => (ev.Table, p, ev.PrimaryKey))
            ∧ out = serr.map (fun e => "set sync state: " ++ e)
            ∧ w1.states = (match serr with
                | none => putRow ev.Slug
                    { Evidence := ev.Slug, LastUpdate := some t, LastSync := t,
                      RowCount :=
                        wrap64 (rowCountOf (getRow ev.Slug w.states) + upsertedSum evs),
                      Status := "ok", ErrorMsg := "" } w.states
                | some _ => w.states)) := by
  unfold syncPass syncEvidence at h
  rw [recStore_get] at h
  cases hg : env.getSyncStateErr w.history ctx ev.Slug with
  | some e =>
      left
      rw [hg] at h
      simp only [Option.some.injEq, Prod.mk.injEq] at h
      obtain ⟨rfl, rfl⟩ := h
      exact ⟨e, rfl, rfl, rfl, rfl⟩
  | none =>
      right
      rw [hg] at h
      simp only at h
      generalize hwg : w.record (.getSyncState ev.Slug (.ok (getRow ev.Slug w.states))) = wg
        at h
      have hwgh : wg.history
          = w.history ++ [.getSyncState ev.Slug (.ok (getRow ev.Slug w.states))] := by
        rw [← hwg]; rfl
      have hwgs : wg.states = w.states := by rw [← hwg]; rfl
      generalize hprior : getRow ev.Slug w.states = prior at h hwgh ⊢
      cases hl : syncLoop (recClient env) (recStore env) (recTime env) ctx ev prior fuel
          (IterateEvidence ev.Slug (syncFetchOptions (recTime env) prior batchSize)) 0 wg with
      | none => rw [hl] at h; simp at h
      | some res =>
          obtain ⟨r, w2⟩ := res
          rw [hl] at h
          obtain ⟨evs, hh, hshape⟩ := syncLoop_rec_spec env ctx ev prior _ _ _ _ _ _ hl
          cases r with
          | error msg =>
              left
              simp only [Option.some.injEq, Prod.mk.injEq] at h
              obtain ⟨rfl, rfl⟩ := h
              simp only at hshape
              obtain ⟨pre, failEv, cause, t, serr, h1, h2, h3, h4, h5, h6⟩ := hshape
              refine ⟨rfl, pre, failEv, cause, t, serr, ?_, h2, h3, h4, ?_, ?_⟩
              · rw [hh, hwgh, h1]; simp
              · rcases h5 with h5 | h5 <;> simp [h5]
              · rw [h6, hwgs]
          | ok n =>
              right
              simp only at hshape
              obtain ⟨h1, h2, h3, h4, h5⟩ := hshape
              have hn : n = wrap64 (upsertedSum evs) := by
                have hr := h2.2 ⟨by omega, by omega⟩
                rw [← wrap64_of_inInt64 n hr, h2.1, zero_add]
              simp only at h
              have hst : (match prior with
                  | some cur =>
                    ({ Evidence := ev.Slug, LastUpdate := some ((recTime env).Now w2).1,
                       LastSync := ((recTime env).Now w2).1,
                       RowCount := wrap64 (cur.RowCount + n), Status := "ok",
                       ErrorMsg := "" } : SyncState)
                  | none =>
                    { Evidence := ev.Slug, LastUpdate := some ((recTime env).Now w2).1,
                      LastSync := ((recTime env).Now w2).1, RowCount := n,
                      Status := "ok", ErrorMsg := "" })
                  = { Evidence := ev.Slug, LastUpdate := some (env.now w2.history),
                      LastSync := env.now w2.history,
                      RowCount := wrap64 (rowCountOf prior + upsertedSum evs),
                      Status := "ok", ErrorMsg := "" } := by
                cases prior with
                | none => simp [rowCountOf, recTime, hn]
                | some cur =>
                    have := wrap64_add_congr cur.RowCount n (upsertedSum evs)
                      (by rw [hn, wrap64_of_inInt64 _ (wrap64_inInt64 _)])
                    simp [rowCountOf, recTime, this]
              rw [hst] at h
              have hnow : ((recTime env).Now w2).2 = w2.record (.now (env.now w2.history)) :=
                rfl
              rw [hnow] at h
              obtain ⟨serr, -, hs1, hs2, hs3⟩ := recStore_set env ctx ev.Slug
                { Evidence := ev.Slug, LastUpdate := some (env.now w2.history),
                  LastSync := env.now w2.history,
                  RowCount := wrap64 (rowCountOf prior + upsertedSum evs),
                  Status := "ok", ErrorMsg := "" }
                (w2.record (.now (env.now w2.history)))
              generalize (recStore env).SetSyncState ctx ev.Slug
                { Evidence := ev.Slug, LastUpdate := some (env.now w2.history),
                  LastSync := env.now w2.history,
                  RowCount := wrap64 (rowCountOf prior + upsertedSum evs),
                  Status := "ok", ErrorMsg := "" }
                (w2.record (.now (env.now w2.history))) = res at h hs1 hs2 hs3
              obtain ⟨serr1, w3⟩ := res
              simp only at hs1 hs2 hs3
              subst hs1
              refine ⟨rfl, evs, env.now w2.history, serr1, ?_, h3, h4, h5, ?_, ?_⟩
              · cases serr1 <;> simp only [Option.some.injEq, Prod.mk.injEq] at h <;>
                  obtain ⟨-, rfl⟩ := h <;>
                  rw [hs2, record_history, hh, hwgh] <;> simp
              · cases serr1 <;> simp only [Option.some.injEq, Prod.mk.injEq] at h <;>
                  obtain ⟨rfl, -⟩ := h <;> rfl
              · cases serr1 <;> simp only [Option.some.injEq, Prod.mk.injEq] at h <;>
                  obtain ⟨-, rfl⟩ := h <;>
                  rw [hs3, record_states, h1, hwgs]


theorem getRow_putRow_same (k : String) (v : SyncState) (xs : List (String × SyncState)) :
    getRow k (putRow k v xs) = some v := by
  induction xs with
  | nil => simp [putRow, getRow]
  | cons x xs ih =>
      obtain ⟨k1, v1⟩ := x
      by_cases h : k1 = k
      · simp [putRow, getRow, h]
      · simp [putRow, getRow, h, ih]

theorem getRow_putRow_other (k k1 : String) (v : SyncState) (xs : List (String × SyncState))
    (hne : k1 ≠ k) : getRow k1 (putRow k v xs) = getRow k1 xs := by
  induction xs with
  | nil => simp [putRow, getRow, hne.symm]
  | cons x xs ih =>
      obtain ⟨k2, v2⟩ := x
      by_cases h : k2 = k
      · subst h
        simp [putRow, getRow, hne.symm]
      · by_cases h1 : k2 = k1
        · subst h1
          simp [putRow, getRow, h]
        · simp [putRow, getRow, h, h1, ih]

theorem passEvents_of_history (w w1 : World) (evs : List Event)
    (h : w1.history = w.history ++ evs) : passEvents w w1 = evs := by
  simp [passEvents, h]

theorem isSyncFailure_of_failureText (e : Event) (cause : String)
    (h : failureText e = some cause) : e.isSyncFailure = true := by
  cases e with
  | fetchEvidence a b res => cases res <;> simp_all [failureText, Event.isSyncFailure]
  | upsertRecords a b c res => cases res <;> simp_all [failureText, Event.isSyncFailure]
  | _ => simp [failureText] at h

/-- C2, counterexample. "items" has a stored checkpoint with status "ok"; the first page is
upserted, the second page fetch fails, and the store rejects the write of the error
checkpoint, which `saveErrorState` only logs: after the pass the stored checkpoint still has
status "ok" and an empty error message. -/
theorem syncEvidence_failed_pass_counterexample :
    ∃ w1 : World,
      syncPass fetchAndWriteFailEnv .background itemsEvidence 2 10 syncedWorld
        = some (some ("fetch page: fetch page at offset 2: "
            ++ "fetch evidence items: unexpected status 400: bad request"), w1)
      ∧ (∃ e ∈ passEvents syncedWorld w1, e.isSyncFailure = true)
      ∧ getRow "items" w1.states
        = some { Evidence := "items", LastUpdate := some 1, LastSync := 1, RowCount := 2,
                 Status := "ok", ErrorMsg := "" } := by
  refine ⟨_, rfl, ?_, ?_⟩ <;> decide

/-- C2, amended. A pass of `syncEvidence` during which a page fetch or an upsert failed: the
pass read the checkpoint `prior` at its start, the failed call is the last call of the page
loop (whatever pages were fetched and upserted before it), and the pass ends by writing with
`SetSyncState` the checkpoint with status "error", error message = the text of the failure,
and the watermark and row count of `prior` (no watermark and 0 when there was none).  When
the store accepts the write that checkpoint is the stored row; when the store rejects it the
stored checkpoint is still `prior`; and in either case the stored watermark and row count
after the pass are those of `prior`. -/
theorem syncEvidence_failed_pass (env : Env) (ctx : Context) (ev : Evidence)
    (batchSize : Int) (fuel : Nat) (w : World) (out : Option String) (w1 : World)
    (hrun : syncPass env ctx ev batchSize fuel w = some (out, w1))
    (hfail : ∃ e ∈ passEvents w w1, e.isSyncFailure = true) :
    ∃ (prior : Option SyncState) (pre : List Event) (failEv : Event) (cause : String)
      (t : Time) (serr : Option String),
      prior = getRow ev.Slug w.states
      ∧ passEvents w w1 = .getSyncState ev.Slug (.ok prior) ::
          (pre ++ [failEv, .now t, .setSyncState ev.Slug
            { Evidence := ev.Slug, LastUpdate := watermarkOf prior, LastSync := t,
              RowCount := rowCountOf prior, Status := "error", ErrorMsg := cause } serr])
      ∧ failureText failEv = some cause
      ∧ (∀ e ∈ pre, e.isSyncFailure = false)
      ∧ (out = some ("fetch page: " ++ cause) ∨ out = some ("upsert records: " ++ cause))
      ∧ (serr = none → getRow ev.Slug w1.states = some
            { Evidence := ev.Slug, LastUpdate := watermarkOf prior, LastSync := t,
              RowCount := rowCountOf prior, Status := "error", ErrorMsg := cause })
      ∧ watermarkOf (getRow ev.Slug w1.states) = watermarkOf prior
      ∧ rowCountOf (getRow ev.Slug w1.states) = rowCountOf prior
      ∧ (∀ e, serr = some e → getRow ev.Slug w1.states = prior) := by
  obtain ⟨e0, he0, hf0⟩ := hfail
  rcases syncPass_spec env ctx ev batchSize fuel w out w1 hrun with
    ⟨e, -, -, hh, -⟩ | ⟨-, pre, failEv, cause, t, serr, hh, hfail, hpre, -, hout, hstates⟩
    | ⟨-, evs, t, serr, hh, hevs, -⟩
  · rw [passEvents_of_history w w1 _ hh] at he0
    simp only [List.mem_singleton] at he0
    subst he0
    simp [Event.isSyncFailure] at hf0
  · refine ⟨_, pre, failEv, cause, t, serr, rfl, passEvents_of_history w w1 _ hh, hfail, hpre,
      hout, ?_, ?_, ?_, ?_⟩
    · intro hs
      subst hs
      simp only at hstates
      rw [hstates, getRow_putRow_same]
    · cases serr with
      | none => simp only at hstates; rw [hstates, getRow_putRow_same]; rfl
      | some e => simp only at hstates; rw [hstates]
    · cases serr with
      | none => simp only at hstates; rw [hstates, getRow_putRow_same]; rfl
      | some e => simp only at hstates; rw [hstates]
    · intro e hs
      subst hs
      simp only at hstates
      rw [hstates]
  · exfalso
    rw [passEvents_of_history w w1 _ hh] at he0
    simp only [List.mem_cons, List.mem_append, List.mem_singleton, List.not_mem_nil,
      or_false] at he0
    rcases he0 with rfl | he0 | rfl | rfl
    · simp [Event.isSyncFailure] at hf0
    · rw [hevs e0 he0] at hf0; cases hf0
    · simp [Event.isSyncFailure] at hf0
    · simp [Event.isSyncFailure] at hf0

/-- Witness for C2 (amended): "items" has a checkpoint with watermark 1 and 2 rows, the first page is
fetched and upserted, the second fetch fails: the stored checkpoint has status "error", the
failure text, and still watermark 1 and row count 2. -/
theorem syncEvidence_failed_pass_witness :
    syncPass laterPagesFailEnv .background itemsEvidence 2 10 syncedWorld
      = some (some ("fetch page: fetch page at offset 2: "
          ++ "fetch evidence items: unexpected status 400: bad request"), failedSyncWorld)
    ∧ (upsertCalls (passEvents syncedWorld failedSyncWorld)).length = 1
    ∧ watermarkOf (getRow "items" failedSyncWorld.states) = some 1
    ∧ rowCountOf (getRow "items" failedSyncWorld.states) = 2 :=
  have h := syncEvidence_failed_pass laterPagesFailEnv .background itemsEvidence 2 10
    syncedWorld (some ("fetch page: fetch page at offset 2: "
      ++ "fetch evidence items: unexpected status 400: bad request")) failedSyncWorld
    (by decide) (by decide)
  ⟨by decide, by decide,
    by obtain ⟨p, _, _, _, _, _, hp, _, _, _, _, _, h7, _⟩ := h
       subst hp; exact h7.trans (by decide),
    by obtain ⟨p, _, _, _, _, _, hp, _, _, _, _, _, _, h8, _⟩ := h
       subst hp; exact h8.trans (by decide)⟩


theorem syncPass_history (env : Env) (ctx : Context) (ev : Evidence) (batchSize : Int)
    (fuel : Nat) (w : World) (out : Option String) (w1 : World)
    (h : syncPass env ctx ev batchSize fuel w = some (out, w1)) :
    w1.history = w.history ++ passEvents w w1 := by
  rcases syncPass_spec env ctx ev batchSize fuel w out w1 h with
    ⟨e, -, -, hh, -⟩ | ⟨-, pre, failEv, cause, t, serr, hh, -⟩ | ⟨-, evs, t, serr, hh, -⟩ <;>
  · rw [passEvents_of_history w w1 _ hh]; exact hh

theorem upsertedSum_nonneg (evs : List Event)
    (h : ∀ t r p c, Event.upsertRecords t r p (.ok c) ∈ evs → 0 ≤ c) :
    0 ≤ upsertedSum evs := by
  induction evs with
  | nil => simp [upsertedSum]
  | cons e evs ih =>
      have ih1 := ih (fun t r p c hc => h t r p c (List.mem_cons_of_mem _ hc))
      cases e with
      | upsertRecords t r p res =>
          cases res with
          | ok c =>
              have := h t r p c (List.mem_cons_self _ _)
              simp only [upsertedSum]; omega
          | error e => simpa [upsertedSum] using ih1
      | _ => simpa [upsertedSum] using ih1

theorem syncPass_rowCount_success (env : Env) (ctx : Context) (ev : Evidence)
    (batchSize : Int) (fuel : Nat) (w w1 : World)
    (h : syncPass env ctx ev batchSize fuel w = some (none, w1)) :
    storedRowCount ev.Slug w1
      = wrap64 (storedRowCount ev.Slug w + upsertedSum (passEvents w w1)) := by
  rcases syncPass_spec env ctx ev batchSize fuel w none w1 h with
    ⟨e, -, ho, -⟩ | ⟨-, pre, failEv, cause, t, serr, -, -, -, -, ho, -⟩
    | ⟨-, evs, t, serr, hh, -, -, -, hout, hstates⟩
  · cases ho
  · rcases ho with ho | ho <;> cases ho
  · cases serr with
    | some e => simp at hout
    | none =>
        simp only at hstates
        rw [passEvents_of_history w w1 _ hh, storedRowCount, hstates, getRow_putRow_same,
          upsertedSum, upsertedSum_append]
        · simp [upsertedSum, rowCountOf, storedRowCount]
        · intro a b c d hc; cases hc

theorem countNonneg_spec (evs : List Event) (h : ∀ e ∈ evs, e.countNonneg = true) :
    ∀ t r p c, Event.upsertRecords t r p (.ok c) ∈ evs → 0 ≤ c := by
  intro t r p c hc
  simpa [Event.countNonneg] using h _ hc

/-- Within the 64-bit range a pass moves the stored row count up, by at most the upsert
counts it was given. -/
theorem syncPass_rowCount_mono (env : Env) (ctx : Context) (ev : Evidence)
    (batchSize : Int) (fuel : Nat) (w : World) (out : Option String) (w1 : World)
    (h : syncPass env ctx ev batchSize fuel w = some (out, w1))
    (hnn : ∀ t r p c, Event.upsertRecords t r p (.ok c) ∈ passEvents w w1 → 0 ≤ c)
    (hr : inInt64 (storedRowCount ev.Slug w))
    (hub : storedRowCount ev.Slug w + upsertedSum (passEvents w w1) < 2 ^ 63) :
    storedRowCount ev.Slug w ≤ storedRowCount ev.Slug w1
    ∧ storedRowCount ev.Slug w1
        ≤ storedRowCount ev.Slug w + upsertedSum (passEvents w w1) := by
  have hsum : 0 ≤ upsertedSum (passEvents w w1) := upsertedSum_nonneg _ hnn
  have hsame : w1.states = w.states →
      storedRowCount ev.Slug w ≤ storedRowCount ev.Slug w1
      ∧ storedRowCount ev.Slug w1
          ≤ storedRowCount ev.Slug w + upsertedSum (passEvents w w1) := by
    intro hs
    rw [storedRowCount, storedRowCount, hs]
    omega
  rcases syncPass_spec env ctx ev batchSize fuel w out w1 h with
    ⟨e, -, -, -, hs⟩ | ⟨-, pre, failEv, cause, t, serr, -, -, -, -, -, hs⟩
    | ⟨-, evs, t, serr, hh, -, -, -, -, hs⟩
  · exact hsame hs
  · cases serr with
    | none =>
        simp only at hs
        have hrow : storedRowCount ev.Slug w1 = storedRowCount ev.Slug w := by
          rw [storedRowCount, storedRowCount, hs, getRow_putRow_same]
          simp [rowCountOf]
        rw [hrow]
        omega
    | some e => simp only at hs; exact hsame hs
  · cases serr with
    | none =>
        simp only at hs
        have hpe : upsertedSum (passEvents w w1) = upsertedSum evs := by
          rw [passEvents_of_history w w1 _ hh, upsertedSum, upsertedSum_append]
          · simp [upsertedSum]
          · intro a b c d hc; cases hc
        rw [hpe] at hub hsum ⊢
        have hrow : storedRowCount ev.Slug w1
            = wrap64 (storedRowCount ev.Slug w + upsertedSum evs) := by
          rw [storedRowCount, storedRowCount, hs, getRow_putRow_same]
          rfl
        have hin : inInt64 (storedRowCount ev.Slug w + upsertedSum evs) := by
          unfold inInt64 at hr ⊢
          omega
        rw [hrow, wrap64_of_inInt64 _ hin]
        omega
    | some e => simp only at hs; exact hsame hs


theorem lastWorld_cons (w : World) (s : Option String × World)
    (rest : List (Option String × World)) :
    lastWorld w (s :: rest) = lastWorld s.2 rest := rfl

theorem passEvents_trans (w w1 w2 : World)
    (h1 : w1.history = w.history ++ passEvents w w1)
    (h2 : w2.history = w1.history ++ passEvents w1 w2) :
    passEvents w w2 = passEvents w w1 ++ passEvents w1 w2
    ∧ w2.history = w.history ++ passEvents w w2 := by
  have h3 : w2.history = w.history ++ (passEvents w w1 ++ passEvents w1 w2) := by
    rw [h2, h1]; simp
  have h4 := passEvents_of_history w w2 _ h3
  exact ⟨h4, by rw [h4]; exact h3⟩

theorem syncPasses_cons (env : Env) (ctx : Context) (ev : Evidence) (batchSize : Int)
    (fuel n : Nat) (w : World) (steps : List (Option String × World))
    (h : syncPasses env ctx ev batchSize fuel (n + 1) w = some steps) :
    ∃ out w1 rest, steps = (out, w1) :: rest
      ∧ syncPass env ctx ev batchSize fuel w = some (out, w1)
      ∧ syncPasses env ctx ev batchSize fuel n w1 = some rest := by
  rw [syncPasses] at h
  cases hp : syncPass env ctx ev batchSize fuel w with
  | none => rw [hp] at h; cases h
  | some res =>
      obtain ⟨out, w1⟩ := res
      rw [hp] at h
      simp only at h
      cases hr : syncPasses env ctx ev batchSize fuel n w1 with
      | none => rw [hr] at h; cases h
      | some rest =>
          rw [hr] at h
          simp only [Option.some.injEq] at h
          exact ⟨out, w1, rest, h.symm, rfl, hr⟩

theorem syncPasses_history (env : Env) (ctx : Context) (ev : Evidence) (batchSize : Int)
    (fuel : Nat) :
    ∀ (n : Nat) (w : World) (steps : List (Option String × World)),
      syncPasses env ctx ev batchSize fuel n w = some steps →
      (lastWorld w steps).history = w.history ++ passEvents w (lastWorld w steps) := by
  intro n
  induction n with
  | zero =>
      intro w steps h
      simp only [syncPasses, Option.some.injEq] at h
      subst h
      simp [lastWorld, passEvents]
  | succ n ih =>
      intro w steps h
      obtain ⟨out, w1, rest, rfl, hp, hr⟩ := syncPasses_cons env ctx ev batchSize fuel n w _ h
      rw [lastWorld_cons]
      exact (passEvents_trans w w1 _ (syncPass_history env ctx ev batchSize fuel w out w1 hp)
        (ih w1 rest hr)).2

/-- C3, counterexample. The checkpoint of "items" holds row count 2^63 - 1; one successful
pass upserts 3 records: the stored row count becomes -9223372036854775806, which is not the
sum and is below the count before the pass. -/
theorem rowCount_over_passes_counterexample :
    ∃ steps : List (Option String × World),
      syncPasses (listEnv threeRecords) .background itemsEvidence 2 10 1 fullCountWorld
        = some steps
      ∧ steps.map (fun s => (s.1, storedRowCount "items" s.2))
          = [(none, -9223372036854775806)]
      ∧ storedRowCount "items" fullCountWorld = 9223372036854775807
      ∧ upsertedSum (passEvents fullCountWorld (lastWorld fullCountWorld steps)) = 3
      ∧ storedRowCount "items" (lastWorld fullCountWorld steps)
          < storedRowCount "items" fullCountWorld := by
  refine ⟨_, rfl, ?_, ?_, ?_, ?_⟩ <;> decide

/-- C3, amended. Over `n` consecutive `syncEvidence` passes of one entity (`steps` lists the
outcome and the world after each pass), starting from a stored row count that is a 64-bit
value (0 without a checkpoint): when all `n` passes return nil, the stored row count after
the last pass is the stored row count before the first pass plus the sum of the upsert
counts returned during the `n` passes as 64-bit addition gives it, which is that sum
whenever the sum is a 64-bit value; and whatever the passes return, when the upsert counts
are non-negative and the count before the first pass plus all upsert counts returned stays
below 2^63, the stored row count never decreases from one pass to the next. -/
theorem rowCount_over_passes (env : Env) (ctx : Context) (ev : Evidence) (batchSize : Int)
    (fuel : Nat) :
    ∀ (n : Nat) (w : World) (steps : List (Option String × World)),
      syncPasses env ctx ev batchSize fuel n w = some steps →
      steps.length = n
      ∧ ((∀ s ∈ steps, s.1 = none) → inInt64 (storedRowCount ev.Slug w) →
          storedRowCount ev.Slug (lastWorld w steps)
            = wrap64 (storedRowCount ev.Slug w
                + upsertedSum (passEvents w (lastWorld w steps)))
          ∧ (inInt64 (storedRowCount ev.Slug w
                + upsertedSum (passEvents w (lastWorld w steps))) →
              storedRowCount ev.Slug (lastWorld w steps)
                = storedRowCount ev.Slug w
                  + upsertedSum (passEvents w (lastWorld w steps))))
      ∧ ((∀ t r p c, Event.upsertRecords t r p (.ok c) ∈ passEvents w (lastWorld w steps)
            → 0 ≤ c) →
          inInt64 (storedRowCount ev.Slug w) →
          storedRowCount ev.Slug w + upsertedSum (passEvents w (lastWorld w steps)) < 2 ^ 63 →
          List.Chain (fun a b => a ≤ b) (storedRowCount ev.Slug w)
            (steps.map (fun s => storedRowCount ev.Slug s.2))) := by
  have hexact : ∀ a b : Int, a = wrap64 b → a = wrap64 b ∧ (inInt64 b → a = b) :=
    fun a b h => ⟨h, fun hb => h.trans (wrap64_of_inInt64 b hb)⟩
  intro n
  induction n with
  | zero =>
      intro w steps h
      simp only [syncPasses, Option.some.injEq] at h
      subst h
      refine ⟨rfl, fun _ hr => hexact _ _ ?_, fun _ _ _ => by simp⟩
      simp [lastWorld, passEvents, upsertedSum, wrap64_of_inInt64 _ hr]
  | succ n ih =>
      intro w steps h
      obtain ⟨out, w1, rest, rfl, hp, hr⟩ := syncPasses_cons env ctx ev batchSize fuel n w _ h
      obtain ⟨hlen, hsum, hmono⟩ := ih w1 rest hr
      have hpe := passEvents_trans w w1 (lastWorld w1 rest)
        (syncPass_history env ctx ev batchSize fuel w out w1 hp)
        (syncPasses_history env ctx ev batchSize fuel n w1 rest hr)
      rw [lastWorld_cons]
      refine ⟨by simp [hlen], ?_, ?_⟩
      · intro hall _
        have hout : out = none := hall (out, w1) (List.mem_cons_self _ _)
        subst hout
        have h1 := syncPass_rowCount_success env ctx ev batchSize fuel w w1 hp
        have h2 := (hsum (fun s hs => hall s (List.mem_cons_of_mem _ hs))
          (by rw [h1]; exact wrap64_inInt64 _)).1
        apply hexact
        rw [h2, h1, wrap64_wrap64_add, hpe.1, upsertedSum_append, add_assoc]
      · intro hnn hr0 hub
        rw [hpe.1, upsertedSum_append] at hub
        have hnn1 : ∀ t r p c, Event.upsertRecords t r p (.ok c) ∈ passEvents w w1 → 0 ≤ c := by
          intro t r p c hc
          apply hnn t r p c
          rw [hpe.1]
          exact List.mem_append_left _ hc
        have hnn2 : ∀ t r p c, Event.upsertRecords t r p (.ok c)
            ∈ passEvents w1 (lastWorld w1 rest) → 0 ≤ c := by
          intro t r p c hc
          apply hnn t r p c
          rw [hpe.1]
          exact List.mem_append_right _ hc
        have hs1 := upsertedSum_nonneg _ hnn1
        have hs2 := upsertedSum_nonneg _ hnn2
        obtain ⟨hlo, hhi⟩ := syncPass_rowCount_mono env ctx ev batchSize fuel w out w1 hp hnn1
          hr0 (by omega)
        simp only [List.map_cons, List.chain_cons]
        refine ⟨hlo, hmono hnn2 ?_ (by omega)⟩
        unfold inInt64 at hr0 ⊢
        omega

/-- Witness for C3 (amended): two successful passes from an empty checkpoint table against a
source that serves three records each time: the stored row count goes 0, 3, 6. -/
theorem rowCount_over_passes_witness :
    ∃ steps : List (Option String × World),
      syncPasses (listEnv threeRecords) .background itemsEvidence 2 10 2 emptyWorld
        = some steps
      ∧ steps.map (fun s => (s.1, storedRowCount "items" s.2)) = [(none, 3), (none, 6)]
      ∧ upsertedSum (passEvents emptyWorld (lastWorld emptyWorld steps)) = 6
      ∧ storedRowCount "items" (lastWorld emptyWorld steps)
          = storedRowCount "items" emptyWorld
            + upsertedSum (passEvents emptyWorld (lastWorld emptyWorld steps))
      ∧ List.Chain (fun a b => a ≤ b) (storedRowCount "items" emptyWorld)
          (steps.map (fun s => storedRowCount "items" s.2)) := by
  refine ⟨_, rfl, ?_, ?_, ?_, ?_⟩
  · decide
  · decide
  · exact ((rowCount_over_passes (listEnv threeRecords) .background itemsEvidence 2 10 2
      emptyWorld _ rfl).2.1 (by decide) (by decide)).2 (by decide)
  · exact (rowCount_over_passes (listEnv threeRecords) .background itemsEvidence 2 10 2
      emptyWorld _ rfl).2.2 (countNonneg_spec _ (by decide)) (by decide) (by decide)


/-- Under a context that is already done, `doRequest` fails with the context's error:
the first request fails at the transport and the backoff wait before the second attempt is
interrupted. -/
theorem doRequest_ctx_done (tr : Transport) (ctx : Context) (url cerr : String)
    (hctx : ctx.err = some cerr)
    (hrt : ∃ e, tr.roundTrip ctx 0 url = .transportError e) :
    (doRequest tr ctx url).1 = .error cerr := by
  obtain ⟨e, he⟩ := hrt
  simp [doRequest, maxRetries, doRequestLoop, doRequestAttempt, he, backoffInterrupted, hctx]

/-- C4, the code at the failing input.  Catalog "broken", "items" with concurrency limit 1;
the source answers 400 for "broken" and serves two records for "items".  The failure of
"broken" cancels the context of the group, the page fetch of "items" then fails with
"context canceled" and "items" is left with an "error" checkpoint and no rows; with "items"
alone in the catalog the same source and store give "items" an "ok" checkpoint with 2 rows. -/
theorem RunOnce_failure_reaches_other_entity :
    (∃ w1 : World,
      Engine.RunOnce
          { registry := [brokenEvidence, itemsEvidence], batchSize := 2, concurrency := 1 }
          (recClient twoEntityEnv) (recStore twoEntityEnv) (recTime twoEntityEnv)
          .background 10 emptyWorld
        = some (some ("fetch page: fetch page at offset 0: "
              ++ "fetch evidence broken: unexpected status 400: bad request"),
            [("broken", some ("fetch page: fetch page at offset 0: "
                ++ "fetch evidence broken: unexpected status 400: bad request")),
             ("items", some ("fetch page: fetch page at offset 0: "
                ++ "fetch evidence items: context canceled"))], w1)
      ∧ getRow "items" w1.states
        = some { Evidence := "items", LastUpdate := none, LastSync := 6, RowCount := 0,
                 Status := "error",
                 ErrorMsg := "fetch page at offset 0: fetch evidence items: context canceled" }
      ∧ upsertCalls w1.history = [])
    ∧ (∃ w2 : World,
      Engine.RunOnce { registry := [itemsEvidence], batchSize := 2, concurrency := 1 }
          (recClient twoEntityEnv) (recStore twoEntityEnv) (recTime twoEntityEnv)
          .background 10 emptyWorld
        = some (none, [("items", none)], w2)
      ∧ getRow "items" w2.states
        = some { Evidence := "items", LastUpdate := some 3, LastSync := 3, RowCount := 2,
                 Status := "ok", ErrorMsg := "" }
      ∧ upsertCalls w2.history
        = [("flexibee_items", [[("id", .num 1)], [("id", .num 2)]], "id")]) := by
  refine ⟨⟨_, rfl, ?_, ?_⟩, ⟨_, rfl, ?_, ?_⟩⟩ <;> decide


/-- C5, counterexample. "items" has a stored checkpoint with status "ok"; the store fails the
read of the checkpoint at the start of the pass: the pass returns an error, and the stored
checkpoint still has status "ok" and an empty error message. -/
theorem checkpoint_reflects_outcome_counterexample :
    ∃ w1 : World,
      syncPass checkpointReadFailsEnv .background itemsEvidence 2 10 syncedWorld
        = some (some "get sync state: connection refused", w1)
      ∧ getRow "items" w1.states
        = some { Evidence := "items", LastUpdate := some 1, LastSync := 1, RowCount := 2,
                 Status := "ok", ErrorMsg := "" } := by
  refine ⟨_, rfl, ?_⟩
  decide

/-- C5, amended. After a `syncEvidence` pass in which no read and no write of the checkpoint
failed, the stored checkpoint reflects the outcome of the pass: status "ok" with an empty
message when the pass returns nil; status "error" with the text of the failed page fetch or
upsert when the pass returns an error; and the status is "error" exactly when the pass
returned an error.  When the read or a write of the checkpoint failed, the pass returns an
error and the stored checkpoint of the entity is as it was before the pass. -/
theorem checkpoint_reflects_outcome (env : Env) (ctx : Context) (ev : Evidence)
    (batchSize : Int) (fuel : Nat) (w : World) (out : Option String) (w1 : World)
    (hrun : syncPass env ctx ev batchSize fuel w = some (out, w1)) :
    ((∀ e ∈ passEvents w w1, e.isCheckpointFailure = false) →
      ∃ st : SyncState, getRow ev.Slug w1.states = some st
        ∧ (out = none → st.Status = "ok" ∧ st.ErrorMsg = "")
        ∧ (∀ msg, out = some msg →
            st.Status = "error"
            ∧ (∃ failEv ∈ passEvents w w1, failureText failEv = some st.ErrorMsg)
            ∧ (msg = "fetch page: " ++ st.ErrorMsg ∨ msg = "upsert records: " ++ st.ErrorMsg))
        ∧ (st.Status = "error" ↔ out ≠ none))
    ∧ ((∃ e ∈ passEvents w w1, e.isCheckpointFailure = true) →
        out ≠ none ∧ getRow ev.Slug w1.states = getRow ev.Slug w.states) := by
  rcases syncPass_spec env ctx ev batchSize fuel w out w1 hrun with
    ⟨e, -, hout, hh, hs⟩ | ⟨-, pre, failEv, cause, t, serr, hh, hfail, -, hloop, hout, hs⟩
    | ⟨-, evs, t, serr, hh, -, hloop, -, hout, hs⟩
  · rw [passEvents_of_history w w1 _ hh]
    refine ⟨?_, ?_⟩
    · intro hno
      have := hno _ (List.mem_singleton.mpr rfl)
      simp [Event.isCheckpointFailure] at this
    · intro _
      exact ⟨by simp [hout], by rw [hs]⟩
  · rw [passEvents_of_history w w1 _ hh]
    cases serr with
    | some e =>
        refine ⟨?_, ?_⟩
        · intro hno
          have := hno (.setSyncState ev.Slug
            { Evidence := ev.Slug, LastUpdate := watermarkOf (getRow ev.Slug w.states),
              LastSync := t, RowCount := rowCountOf (getRow ev.Slug w.states),
              Status := "error", ErrorMsg := cause } (some e)) (by simp)
          simp [Event.isCheckpointFailure] at this
        · intro _
          simp only at hs
          exact ⟨by rcases hout with h | h <;> simp [h], by rw [hs]⟩
    | none =>
        simp only at hs
        refine ⟨?_, ?_⟩
        · intro _
          refine ⟨_, by rw [hs, getRow_putRow_same], ?_, ?_, ?_⟩
          · intro h; rcases hout with h1 | h1 <;> simp [h1] at h
          · intro msg hmsg
            refine ⟨rfl, ⟨failEv, by simp, hfail⟩, ?_⟩
            rcases hout with h1 | h1 <;> rw [h1] at hmsg <;>
              simp only [Option.some.injEq] at hmsg <;> simp [← hmsg]
          · rcases hout with h1 | h1 <;> simp [h1]
        · rintro ⟨e, he, hf⟩
          exfalso
          simp only [List.mem_cons, List.mem_append, List.mem_singleton, List.not_mem_nil,
            or_false] at he
          rcases he with rfl | he | rfl | rfl | rfl
          · simp [Event.isCheckpointFailure] at hf
          · have := hloop e he
            cases e <;> simp_all [Event.isCheckpointFailure, Event.isLoopCall]
          · have := isSyncFailure_of_failureText _ _ hfail
            cases e <;> simp_all [Event.isCheckpointFailure, Event.isSyncFailure]
          · simp [Event.isCheckpointFailure] at hf
          · simp [Event.isCheckpointFailure] at hf
  · rw [passEvents_of_history w w1 _ hh]
    cases serr with
    | some e =>
        refine ⟨?_, ?_⟩
        · intro hno
          have := hno (.setSyncState ev.Slug
            { Evidence := ev.Slug, LastUpdate := some t, LastSync := t,
              RowCount := wrap64 (rowCountOf (getRow ev.Slug w.states) + upsertedSum evs),
              Status := "ok", ErrorMsg := "" } (some e)) (by simp)
          simp [Event.isCheckpointFailure] at this
        · intro _
          simp only at hs
          exact ⟨by simp [hout], by rw [hs]⟩
    | none =>
        simp only at hs
        simp only [Option.map_none'] at hout
        subst hout
        refine ⟨?_, ?_⟩
        · intro _
          refine ⟨_, by rw [hs, getRow_putRow_same], ?_, ?_, ?_⟩
          · intro _; exact ⟨rfl, rfl⟩
          · intro msg hmsg; cases hmsg
          · simp
        · rintro ⟨e, he, hf⟩
          exfalso
          simp only [List.mem_cons, List.mem_append, List.mem_singleton, List.not_mem_nil,
            or_false] at he
          rcases he with rfl | he | rfl | rfl
          · simp [Event.isCheckpointFailure] at hf
          · have := hloop e he
            cases e <;> simp_all [Event.isCheckpointFailure, Event.isLoopCall]
          · simp [Event.isCheckpointFailure] at hf
          · simp [Event.isCheckpointFailure] at hf

/-- Witness for C5 (amended): the pass over `syncedWorld` whose second page fetch fails
leaves a stored checkpoint with status "error". -/
theorem checkpoint_reflects_outcome_witness :
    ∃ st : SyncState, getRow "items" failedSyncWorld.states = some st
      ∧ st.Status = "error" :=
  have h := (checkpoint_reflects_outcome laterPagesFailEnv .background itemsEvidence 2 10
    syncedWorld (some ("fetch page: fetch page at offset 2: "
      ++ "fetch evidence items: unexpected status 400: bad request")) failedSyncWorld
    (by decide)).1 (by decide)
  match h with
  | ⟨st, h1, _, h3, _⟩ => ⟨st, h1, (h3 _ rfl).1⟩


theorem drainPages_list_step (recs : List Record) (ctx : Context) (L : Nat) (hL : 1 ≤ L) :
    ∀ (k : Nat) (f : Nat) (it : PageIterator) (w : World) (fuel : Nat),
      it.done = false → it.opts.Limit = (L : Int) → it.fetched = (f : Int) →
      (it.total = none ∨ it.total = some (recs.length : Int)) →
      k * L < recs.length - f → recs.length - f ≤ (k + 1) * L → k + 2 ≤ fuel →
      ∃ (pages : List (List Record)) (it1 : PageIterator) (w1 : World) (evs : List Event),
        drainPages (recClient (listEnv recs)) ctx fuel it w = some (.ok pages, it1, w1)
        ∧ it1.done = true
        ∧ w1.history = w.history ++ evs
        ∧ (fetchRequests evs).length = k + 1
        ∧ pages.flatten = recs.drop f
        ∧ pages.length = k + 1
        ∧ (∀ p ∈ pages, p ≠ [])
        ∧ (∀ p ∈ pages.dropLast, p.length = L) := by
  intro k
  induction k with
  | zero =>
      intro f it w fuel hd hlim hf htot hlo hhi hfuel
      obtain ⟨fuel, rfl⟩ : ∃ m, fuel = m + 2 := ⟨fuel - 2, by omega⟩
      have hfetch := recClient_fetch (listEnv recs) ctx it.evidence it.request w
      have hres : (listEnv recs).fetchEvidence w.history ctx it.evidence it.request
          = .ok (pageOf recs it.request) := rfl
      rw [hres] at hfetch
      obtain ⟨it1, hn, -, -, hfet, htot1, hdone⟩ := Next_of_fetch_ok _ _ _ _ _ _ hd hfetch
      have hpage : (pageOf recs it.request).Winstrom.Records = recs.drop f := by
        simp only [pageOf, PageIterator.request, hf, hlim, Int.toNat_ofNat]
        apply List.take_of_length_le
        simp only [List.length_drop]; omega
      have hne : recs.drop f ≠ [] := by
        intro h
        have := congrArg List.length h
        simp only [List.length_drop, List.length_nil] at this
        omega
      rw [hpage] at hn hfet hdone
      have hd1 : it1.done = true := by
        rw [hdone]
        right; right
        refine ⟨(recs.length : Int), ?_, ?_⟩
        · rw [htot1]
          rcases htot with h | h
          · rw [h]; rfl
          · rw [h]
        · rw [hfet, hf]
          simp only [List.length_drop]
          omega
      refine ⟨[recs.drop f], it1, w.record (.fetchEvidence it.evidence it.request
        (.ok (pageOf recs it.request))), [.fetchEvidence it.evidence it.request
        (.ok (pageOf recs it.request))], ?_, hd1, rfl, by simp [fetchRequests], by simp,
        by simp, by simpa using hne, by simp⟩
      rw [drainPages, hn]
      simp only [hne, if_false]
      rw [drainPages, Next_of_done _ _ _ _ hd1]
  | succ k ih =>
      intro f it w fuel hd hlim hf htot hlo hhi hfuel
      obtain ⟨fuel, rfl⟩ : ∃ m, fuel = m + 1 := ⟨fuel - 1, by omega⟩
      have hfetch := recClient_fetch (listEnv recs) ctx it.evidence it.request w
      have hres : (listEnv recs).fetchEvidence w.history ctx it.evidence it.request
          = .ok (pageOf recs it.request) := rfl
      rw [hres] at hfetch
      obtain ⟨it1, hn, -, hopts, hfet, htot1, hdone⟩ :=
        Next_of_fetch_ok _ _ _ _ _ _ hd hfetch
      have hLlt : L < recs.length - f := by
        have : L ≤ (k + 1) * L := Nat.le_mul_of_pos_left L (by omega)
        omega
      have hpage : (pageOf recs it.request).Winstrom.Records = (recs.drop f).take L := by
        simp only [pageOf, PageIterator.request, hf, hlim, Int.toNat_ofNat]
      have hlen : ((recs.drop f).take L).length = L := by
        simp only [List.length_take, List.length_drop]; omega
      have hne : (recs.drop f).take L ≠ [] := by
        intro h
        have := congrArg List.length h
        rw [hlen] at this
        simp at this
        omega
      rw [hpage] at hn hfet hdone
      rw [hlen] at hfet
      have htot2 : it1.total = some (recs.length : Int) := by
        rw [htot1]
        rcases htot with h | h
        · rw [h]; rfl
        · rw [h]
      have hd1 : it1.done = false := by
        by_contra hcon
        have hcon1 : it1.done = true := by simpa using hcon
        rw [hdone] at hcon1
        rcases hcon1 with h | h | ⟨t, ht, hle⟩
        · exact hne h
        · rw [hlen, hlim] at h; omega
        · rw [htot2] at ht
          simp only [Option.some.injEq] at ht
          subst ht
          rw [hfet, hf] at hle
          omega
      have hk : (k + 1) * L = k * L + L := by ring
      have hk2 : (k + 1 + 1) * L = k * L + L + L := by ring
      obtain ⟨pages, it2, w2, evs, hdr, hd2, hh, hreq, hjoin, hplen, hpne, hpl⟩ :=
        ih (f + L) it1 (w.record (.fetchEvidence it.evidence it.request
          (.ok (pageOf recs it.request)))) fuel hd1
          (by rw [hopts]; simpa [PageIterator.request] using hlim)
          (by rw [hfet, hf]; push_cast; ring) (Or.inr htot2)
          (by omega) (by omega) (by omega)
      refine ⟨(recs.drop f).take L :: pages, it2, w2,
        .fetchEvidence it.evidence it.request (.ok (pageOf recs it.request)) :: evs,
        ?_, hd2, ?_, ?_, ?_, by simp [hplen], ?_, ?_⟩
      · rw [drainPages, hn]
        simp only [hne, if_false]
        rw [hdr]
      · rw [hh, record_history]; simp
      · simp [fetchRequests, hreq]
      · have hdd : List.drop (f + L) recs = List.drop L (List.drop f recs) := by
          simp [List.drop_drop, Nat.add_comm]
        rw [List.flatten_cons, hjoin, hdd, List.take_append_drop]
      · intro p hp
        rcases List.mem_cons.mp hp with rfl | hp
        · exact hne
        · exact hpne p hp
      · intro p hp
        have hpages : pages ≠ [] := by
          intro h; rw [h] at hplen; simp at hplen
        rw [List.dropLast_cons_of_ne_nil hpages] at hp
        rcases List.mem_cons.mp hp with rfl | hp
        · exact hlen
        · exact hpl p hp

/-- C6. Against a source that holds the `n` records `recs`, reports the total `n` and
answers a request at offset `o` for `L` records with the records `o .. min (o+L) n - 1`, for
every page size `L ≥ 1`: calling `Next` until it returns Done (with enough fuel for
`ceil(n/L) + 1` calls) terminates and yields pages whose concatenation is `recs`, that are
`ceil(n/L)` in number, all non-empty, all but the last of exactly `L` records, using exactly
`max 1 (ceil(n/L))` source requests. -/
theorem drainPages_list_source (recs : List Record) (L : Nat) (hL : 1 ≤ L) (ctx : Context)
    (evidence : String) (opts : FetchOptions) (hopts : opts.Limit = (L : Int)) (w : World)
    (fuel : Nat) (hfuel : (recs.length + L - 1) / L + 1 ≤ fuel) :
    ∃ (pages : List (List Record)) (it1 : PageIterator) (w1 : World),
      drainPages (recClient (listEnv recs)) ctx fuel (IterateEvidence evidence opts) w
        = some (.ok pages, it1, w1)
      ∧ it1.done = true
      ∧ pages.flatten = recs
      ∧ pages.length = (recs.length + L - 1) / L
      ∧ (∀ p ∈ pages, p ≠ [])
      ∧ (∀ p ∈ pages.dropLast, p.length = L)
      ∧ (fetchRequests (passEvents w w1)).length = max 1 ((recs.length + L - 1) / L) := by
  have hit_lim : (IterateEvidence evidence opts).opts.Limit = (L : Int) := by
    have : ¬ ((L : Int) ≤ 0) := by omega
    simp [IterateEvidence, hopts, this]
  have hit_done : (IterateEvidence evidence opts).done = false := rfl
  have hit_fet : (IterateEvidence evidence opts).fetched = ((0 : Nat) : Int) := rfl
  have hit_tot : (IterateEvidence evidence opts).total = none := rfl
  rcases Nat.eq_zero_or_pos recs.length with hn | hn
  · -- no records: the first request returns an empty page
    have hrecs : recs = [] := List.length_eq_zero.mp hn
    subst hrecs
    have hf1 : 1 ≤ fuel := le_trans (Nat.le_add_left 1 _) hfuel
    obtain ⟨fuel, rfl⟩ : ∃ m, fuel = m + 1 := ⟨fuel - 1, by omega⟩
    have hfetch := recClient_fetch (listEnv []) ctx (IterateEvidence evidence opts).evidence
      (IterateEvidence evidence opts).request w
    have hres : (listEnv []).fetchEvidence w.history ctx
        (IterateEvidence evidence opts).evidence (IterateEvidence evidence opts).request
        = .ok (pageOf [] (IterateEvidence evidence opts).request) := rfl
    rw [hres] at hfetch
    obtain ⟨it1, hnx, -, -, -, -, hdone⟩ := Next_of_fetch_ok _ _ _ _ _ _ hit_done hfetch
    have hpage : (pageOf [] (IterateEvidence evidence opts).request).Winstrom.Records = [] := by
      simp [pageOf]
    rw [hpage] at hnx hdone
    have hc : (([] : List Record).length + L - 1) / L = 0 := by
      apply Nat.div_eq_of_lt
      simp only [List.length_nil]; omega
    refine ⟨[], it1, w.record (.fetchEvidence (IterateEvidence evidence opts).evidence
      (IterateEvidence evidence opts).request
      (.ok (pageOf [] (IterateEvidence evidence opts).request))), ?_,
      hdone.mpr (Or.inl rfl), rfl, by rw [hc]; rfl, by simp, by simp, ?_⟩
    · rw [drainPages, hnx]; simp
    · rw [hc, passEvents_of_history w _ _ (record_history w _)]
      simp [fetchRequests]
  · -- at least one record: ceil(n/L) = k + 1 pages
    have hdm := Nat.div_add_mod (recs.length + L - 1) L
    have hml := Nat.mod_lt (recs.length + L - 1) (by omega : L > 0)
    have hcpos : 1 ≤ (recs.length + L - 1) / L := by
      apply (Nat.one_le_div_iff (by omega)).mpr; omega
    obtain ⟨k, hk⟩ : ∃ k, (recs.length + L - 1) / L = k + 1 :=
      ⟨(recs.length + L - 1) / L - 1, by omega⟩
    rw [hk] at hdm hfuel ⊢
    have hmul : L * (k + 1) = k * L + L := by ring
    have hmul2 : (k + 1) * L = k * L + L := by ring
    obtain ⟨pages, it1, w1, evs, hdr, hd1, hh, hreq, hjoin, hplen, hpne, hpl⟩ :=
      drainPages_list_step recs ctx L hL k 0 (IterateEvidence evidence opts) w fuel hit_done
        hit_lim hit_fet (Or.inl hit_tot) (by omega) (by omega) (by omega)
    refine ⟨pages, it1, w1, hdr, hd1, by simpa using hjoin, hplen, hpne, hpl, ?_⟩
    rw [passEvents_of_history w w1 _ hh, hreq]
    omega


/-- Witness for C6: 5 records and page size 2 give pages of sizes 2, 2, 1 and 3 requests. -/
theorem drainPages_list_source_witness :
    ∃ (pages : List (List Record)) (it1 : PageIterator) (w1 : World),
      drainPages (recClient (listEnv fiveRecords)) .background 4
          (IterateEvidence "test" limitTwo) emptyWorld = some (.ok pages, it1, w1)
      ∧ pages.map List.length = [2, 2, 1]
      ∧ pages.flatten = fiveRecords
      ∧ (fetchRequests (passEvents emptyWorld w1)).length = 3 := by
  obtain ⟨pages, it1, w1, hdr, -, hflat, -, -, -, hreq⟩ :=
    drainPages_list_source fiveRecords 2 (by decide) .background "test" limitTwo rfl
      emptyWorld 4 (by decide)
  have hc : (drainPages (recClient (listEnv fiveRecords)) .background 4
      (IterateEvidence "test" limitTwo) emptyWorld).map (fun r => r.1)
      = some (.ok [[[("id", .num 1)], [("id", .num 2)]], [[("id", .num 3)], [("id", .num 4)]],
          [[("id", .num 5)]]]) := by decide
  rw [hdr] at hc
  simp only [Option.map_some', Option.some.injEq, Except.ok.injEq] at hc
  subst hc
  exact ⟨_, it1, w1, hdr, by decide, hflat, by rw [hreq]; decide⟩


theorem fetchedCount_append (xs ys : List Event) :
    fetchedCount (xs ++ ys) = fetchedCount xs + fetchedCount ys := by
  induction xs with
  | nil => simp [fetchedCount]
  | cons e xs ih =>
      cases e with
      | fetchEvidence a o res => cases res <;> simp [fetchedCount, ih, add_assoc]
      | _ => simp [fetchedCount, ih]

theorem knownTotal_append (xs ys : List Event) :
    knownTotal (xs ++ ys) = (match knownTotal xs with
      | some t => some t
      | none => knownTotal ys) := by
  induction xs with
  | nil => simp [knownTotal]
  | cons e xs ih =>
      cases e with
      | fetchEvidence a o res =>
          cases res with
          | error e => simp [knownTotal, ih]
          | ok resp =>
              cases h : resp.Winstrom.RowCount <;> simp [knownTotal, ih, h]
      | _ => simp [knownTotal, ih]

theorem append_singleton_split {α : Type} (pre post evs : List α) (x y : α)
    (h : evs ++ [y] = pre ++ x :: post) :
    (post = [] ∧ pre = evs ∧ x = y) ∨ (∃ post1, post = post1 ++ [y] ∧ evs = pre ++ x :: post1)
    := by
  rcases List.eq_nil_or_concat post with rfl | ⟨post1, z, rfl⟩
  · left
    have h1 : evs ++ [y] = pre ++ [x] := h
    have := List.append_inj' h1 rfl
    simp only [List.cons.injEq, and_true] at this
    exact ⟨rfl, this.1.symm, this.2.symm⟩
  · right
    have h1 : evs ++ [y] = (pre ++ x :: post1) ++ [z] := by
      rw [h]; simp
    have := List.append_inj' h1 rfl
    simp only [List.cons.injEq, and_true] at this
    exact ⟨post1, by simp [this.2], this.1⟩


theorem IterInv_extend (evidence : String) (L : Int) (it it1 : PageIterator)
    (evs : List Event) (res : Except String Response) (hinv : IterInv evidence L it evs)
    (hev : it1.evidence = it.evidence) (hopts : it1.opts = it.request)
    (hfet : it1.fetched = fetchedCount (evs ++ [.fetchEvidence it.evidence it.request res]))
    (htot : it1.total = knownTotal (evs ++ [.fetchEvidence it.evidence it.request res])) :
    IterInv evidence L it1 (evs ++ [.fetchEvidence it.evidence it.request res]) := by
  obtain ⟨h1, h2, h3, h4, h5, h6⟩ := hinv
  refine ⟨hev.trans h1, by rw [hopts]; exact h2, by rw [hopts]; exact h3, hfet, htot, ?_⟩
  intro pre e o r post hsplit
  rcases append_singleton_split pre post evs _ _ hsplit with ⟨-, rfl, hx⟩ | ⟨post1, -, hevs⟩
  · simp only [Event.fetchEvidence.injEq] at hx
    obtain ⟨rfl, rfl, -⟩ := hx
    exact ⟨h1, h4, h3, h2⟩
  · exact h6 pre e o r post1 hevs

theorem Next_rec_inv (env : Env) (ctx : Context) (evidence : String) (L : Int)
    (it : PageIterator) (w0 w : World) (evs : List Event)
    (hinv : IterInv evidence L it evs) (hh : w.history = w0.history ++ evs) :
    ∃ evs1 : List Event,
      (it.Next (recClient env) ctx w).2.2.history = w0.history ++ evs1
      ∧ IterInv evidence L (it.Next (recClient env) ctx w).2.1 evs1
      ∧ ∀ page, (it.Next (recClient env) ctx w).1 = .ok page →
          ((it.Next (recClient env) ctx w).2.1.done = true ↔
            (page.getD []).length = 0 ∨ ((page.getD []).length : Int) < L
            ∨ ∃ t, knownTotal evs1 = some t ∧ t ≤ fetchedCount evs1) := by
  by_cases hd : it.done = true
  · rw [Next_of_done _ _ _ _ hd]
    refine ⟨evs, hh, hinv, ?_⟩
    intro page hpage
    simp only [Except.ok.injEq] at hpage
    subst hpage
    simp [hd]
  · have hd1 : it.done = false := by simpa using hd
    have hfetch := recClient_fetch env ctx it.evidence it.request w
    cases hres : env.fetchEvidence w.history ctx it.evidence it.request with
    | error e =>
        rw [hres] at hfetch
        rw [Next_of_fetch_error _ _ _ _ _ _ hd1 hfetch]
        refine ⟨evs ++ [.fetchEvidence it.evidence it.request (.error e)], ?_, ?_, ?_⟩
        · rw [record_history, hh]; simp
        · apply IterInv_extend evidence L it { it with opts := it.request } evs _ hinv rfl rfl
          · rw [fetchedCount_append]; simp [fetchedCount, hinv.2.2.2.1]
          · rw [knownTotal_append, ← hinv.2.2.2.2.1]
            cases it.total <;> simp [knownTotal]
        · intro page hpage; cases hpage
    | ok resp =>
        rw [hres] at hfetch
        obtain ⟨it1, hn, hev, hopts, hfet, htot, hdone⟩ :=
          Next_of_fetch_ok _ _ _ _ _ _ hd1 hfetch
        rw [hn]
        have hfc : fetchedCount (evs ++ [.fetchEvidence it.evidence it.request (.ok resp)])
            = it1.fetched := by
          rw [fetchedCount_append, hfet, hinv.2.2.2.1]; simp [fetchedCount]
        have hkt : knownTotal (evs ++ [.fetchEvidence it.evidence it.request (.ok resp)])
            = it1.total := by
          rw [knownTotal_append, htot, ← hinv.2.2.2.2.1]
          cases it.total with
          | some t => rfl
          | none => cases h : resp.Winstrom.RowCount <;> simp [knownTotal, h]
        refine ⟨evs ++ [.fetchEvidence it.evidence it.request (.ok resp)], ?_, ?_, ?_⟩
        · rw [record_history, hh]; simp
        · exact IterInv_extend evidence L it _ evs _ hinv hev hopts hfc.symm hkt.symm
        · intro page hpage
          simp only [Except.ok.injEq] at hpage
          have hlen : (page.getD []).length = resp.Winstrom.Records.length := by
            rw [← hpage]
            by_cases hr : resp.Winstrom.Records = [] <;> simp [hr]
          rw [hlen, hfc, hkt, hdone, hinv.2.1]
          simp only [List.length_eq_zero]


theorem nextCalls_rec_inv (env : Env) (ctx : Context) (evidence : String) (L : Int)
    (w0 : World) :
    ∀ (k : Nat) (it : PageIterator) (w : World) (evs : List Event),
      IterInv evidence L it evs → w.history = w0.history ++ evs →
      ∃ evs1 : List Event,
        (nextCalls (recClient env) ctx k it w).2.history = w0.history ++ evs1
        ∧ IterInv evidence L (nextCalls (recClient env) ctx k it w).1 evs1 := by
  intro k
  induction k with
  | zero => intro it w evs hinv hh; exact ⟨evs, hh, hinv⟩
  | succ k ih =>
      intro it w evs hinv hh
      obtain ⟨evs1, hh1, hinv1, -⟩ := Next_rec_inv env ctx evidence L it w0 w evs hinv hh
      exact ih _ _ evs1 hinv1 hh1

theorem IterateEvidence_inv (evidence : String) (opts : FetchOptions) :
    IterInv evidence (requestedPageSize opts) (IterateEvidence evidence opts) [] := by
  refine ⟨rfl, ?_, rfl, rfl, rfl, ?_⟩
  · by_cases h : opts.Limit ≤ 0 <;> simp [IterateEvidence, requestedPageSize, h]
  · intro pre e o r post h
    simp at h

/-- C7. Take the iterator `IterateEvidence evidence opts` after any `k` calls of `Next`
against any source.  Every request sent so far was for `evidence`, at the offset equal to the
number of records returned by the successful calls before it, with "add row count" on and
with the requested page size `L` (the given limit, or 100 when that is not positive).  And
when the next `Next` call succeeds, the iterator is terminated after it if and only if the
returned page is empty, or has fewer than `L` records, or the number of records fetched so
far has reached the known total (the total reported by the first response that reported
one). -/
theorem Next_terminated_iff (env : Env) (ctx : Context) (evidence : String)
    (opts : FetchOptions) (w : World) (k : Nat) :
    (∀ pre e o r post,
        passEvents w (nextCalls (recClient env) ctx k (IterateEvidence evidence opts) w).2
          = pre ++ Event.fetchEvidence e o r :: post →
        e = evidence ∧ o.Start = fetchedCount pre ∧ o.AddRowCount = true
          ∧ o.Limit = requestedPageSize opts)
    ∧ ∀ (page : Option (List Record)) (it1 : PageIterator) (w1 : World),
        (nextCalls (recClient env) ctx k (IterateEvidence evidence opts) w).1.Next
            (recClient env) ctx
            (nextCalls (recClient env) ctx k (IterateEvidence evidence opts) w).2
          = (.ok page, it1, w1) →
        (it1.done = true ↔
          (page.getD []).length = 0
          ∨ ((page.getD []).length : Int) < requestedPageSize opts
          ∨ ∃ t, knownTotal (passEvents w w1) = some t ∧ t ≤ fetchedCount (passEvents w w1))
    := by
  obtain ⟨evs, hh, hinv⟩ := nextCalls_rec_inv env ctx evidence (requestedPageSize opts) w k
    (IterateEvidence evidence opts) w [] (IterateEvidence_inv evidence opts) (by simp)
  refine ⟨?_, ?_⟩
  · rw [passEvents_of_history w _ _ hh]
    exact hinv.2.2.2.2.2
  · intro page it1 w1 hnext
    obtain ⟨evs1, hh1, -, hiff⟩ := Next_rec_inv env ctx evidence (requestedPageSize opts)
      _ w _ evs hinv hh
    rw [hnext] at hh1 hiff
    simp only at hh1 hiff
    rw [passEvents_of_history w w1 _ hh1]
    exact hiff page rfl


theorem nextCalls_of_done {σ : Type} (client : Client σ) (ctx : Context)
    (it : PageIterator) (s : σ) (hd : it.done = true) :
    ∀ k : Nat, nextCalls client ctx k it s = (it, s) := by
  intro k
  induction k with
  | zero => rfl
  | succ k ih => rw [nextCalls, Next_of_done _ _ _ _ hd]; exact ih

/-- C8. Once an iterator is terminated, a `Next` call returns Done (`nil, nil`) and leaves
both the iterator and the world exactly as they were (no request reaches the source), and so
does every later call, however many are made.  In particular, when the source answers the
first request of a new iterator with no records, that first `Next` returns Done and every
repeated call returns Done again without touching the source. -/
theorem Next_inert_after_done {σ : Type} (client : Client σ) (ctx : Context) :
    (∀ (it : PageIterator) (s : σ), it.done = true →
      it.Next client ctx s = (.ok none, it, s)
      ∧ ∀ k : Nat,
          nextCalls client ctx k it s = (it, s)
          ∧ (nextCalls client ctx k it s).1.Next client ctx (nextCalls client ctx k it s).2
              = (.ok none, it, s))
    ∧ (∀ (evidence : String) (opts : FetchOptions) (s s1 : σ) (resp : Response),
        client.FetchEvidence ctx evidence (IterateEvidence evidence opts).request s
          = (.ok resp, s1) →
        resp.Winstrom.Records = [] →
        ∃ it1 : PageIterator,
          (IterateEvidence evidence opts).Next client ctx s = (.ok none, it1, s1)
          ∧ it1.done = true
          ∧ ∀ k : Nat,
              (nextCalls client ctx k it1 s1).1.Next client ctx
                  (nextCalls client ctx k it1 s1).2
                = (.ok none, it1, s1)) := by
  refine ⟨?_, ?_⟩
  · intro it s hd
    refine ⟨Next_of_done _ _ _ _ hd, fun k => ?_⟩
    rw [nextCalls_of_done client ctx it s hd k]
    exact ⟨rfl, Next_of_done _ _ _ _ hd⟩
  · intro evidence opts s s1 resp hf hrec
    obtain ⟨it1, hn, -, -, -, -, hdone⟩ :=
      Next_of_fetch_ok client ctx (IterateEvidence evidence opts) s s1 resp rfl hf
    have hd1 : it1.done = true := hdone.mpr (Or.inl hrec)
    refine ⟨it1, by rw [hn]; simp [hrec], hd1, fun k => ?_⟩
    rw [nextCalls_of_done client ctx it1 s1 hd1 k]
    exact Next_of_done _ _ _ _ hd1

/-- Witness for C8: on a source with no records (`TestPageIterator_EmptyEvidence`) the first
`Next` returns Done after one request, and three more calls return Done with no further
request. -/
theorem Next_inert_after_done_witness :
    ∃ (it1 : PageIterator) (w1 : World),
      (IterateEvidence "test" limitTwo).Next (recClient (listEnv [])) .background emptyWorld
        = (.ok none, it1, w1)
      ∧ (fetchRequests w1.history).length = 1
      ∧ (nextCalls (recClient (listEnv [])) .background 3 it1 w1).1.Next
            (recClient (listEnv [])) .background
            (nextCalls (recClient (listEnv [])) .background 3 it1 w1).2
          = (.ok none, it1, w1) := by
  obtain ⟨it1, h1, -, h3⟩ := (Next_inert_after_done (recClient (listEnv [])) .background).2
    "test" limitTwo emptyWorld _ (pageOf [] (IterateEvidence "test" limitTwo).request)
    rfl rfl
  exact ⟨it1, _, h1, by decide, h3 3⟩


/-- C9. When the fetch inside `Next` fails with error `e`, `Next` returns that error (under
the prefix naming the offset) and leaves the fetched-so-far count, the known total and the
terminated flag as they were; the iterator it leaves behaves on every later call exactly as
the iterator before the failed call, so the next `Next` sends the same request, at the same
offset, again. -/
theorem Next_fetch_error_keeps_position {σ : Type} (client : Client σ) (ctx : Context)
    (it : PageIterator) (s s1 : σ) (e : String) (hd : it.done = false)
    (hf : client.FetchEvidence ctx it.evidence it.request s = (.error e, s1)) :
    ∃ it1 : PageIterator,
      it.Next client ctx s
        = (.error ("fetch page at offset " ++ toString it.fetched ++ ": " ++ e), it1, s1)
      ∧ it1.fetched = it.fetched ∧ it1.total = it.total ∧ it1.done = it.done
      ∧ it1.evidence = it.evidence ∧ it1.request = it.request
      ∧ ∀ s2 : σ, it1.Next client ctx s2 = it.Next client ctx s2 := by
  refine ⟨{ it with opts := it.request }, Next_of_fetch_error _ _ _ _ _ _ hd hf, rfl, rfl, rfl,
    rfl, rfl, ?_⟩
  intro s2
  simp only [PageIterator.Next, PageIterator.request, hd]
  rfl

/-- Witness for C9 (`TestPageIterator_ErrorMidPage`): the first page of two records is
served, the second request fails; the failed call leaves `fetched` at 2 and the iterator not
terminated, and a third call asks for offset 2 again: the offsets requested are 0, 2, 2. -/
theorem Next_fetch_error_keeps_position_witness :
    ∃ it1 : PageIterator,
      (((IterateEvidence "items" limitTwo).Next (recClient laterPagesFailEnv) .background
          emptyWorld).2.1.Next (recClient laterPagesFailEnv) .background
          ((IterateEvidence "items" limitTwo).Next (recClient laterPagesFailEnv) .background
            emptyWorld).2.2).2.1 = it1
      ∧ it1.fetched = 2 ∧ it1.done = false
      ∧ (fetchRequests (nextCalls (recClient laterPagesFailEnv) .background 3
          (IterateEvidence "items" limitTwo) emptyWorld).2.history).map (fun r => r.2.Start)
          = [0, 2, 2] := by
  obtain ⟨it1, h1, h2, -, h4, -, -, -⟩ :=
    Next_fetch_error_keeps_position (recClient laterPagesFailEnv) .background
      ((IterateEvidence "items" limitTwo).Next (recClient laterPagesFailEnv) .background
        emptyWorld).2.1
      ((IterateEvidence "items" limitTwo).Next (recClient laterPagesFailEnv) .background
        emptyWorld).2.2 _
      "fetch evidence items: unexpected status 400: bad request" (by decide) rfl
  refine ⟨it1, by rw [h1], ?_, ?_, by decide⟩
  · rw [h2]; decide
  · rw [h4]; decide


theorem doRequestAttempt_retry_iff (rt : RoundTrip) (n : Nat) :
    (∃ e, doRequestAttempt rt n = .retry e) ↔ rt.retryable = true := by
  cases rt with
  | createError e => simp [doRequestAttempt, RoundTrip.retryable]
  | transportError e => simp [doRequestAttempt, RoundTrip.retryable]
  | readError s e => simp [doRequestAttempt, RoundTrip.retryable]
  | response status body =>
      by_cases h : 500 ≤ status
      · simp [doRequestAttempt, RoundTrip.retryable, h]
      · by_cases h2 : status = 200 <;> simp [doRequestAttempt, RoundTrip.retryable, h, h2]

theorem doRequest_unfold (tr : Transport) (ctx : Context) (url : String) :
    doRequest tr ctx url =
      (match doRequestAttempt (tr.roundTrip ctx 0 url) 0 with
       | .done res => (res, [.send 0])
       | .retry _ =>
         match backoffInterrupted tr ctx 1 with
         | some c => (.error c, [.send 0, .backoff initialBackoff])
         | none =>
           match doRequestAttempt (tr.roundTrip ctx 1 url) 1 with
           | .done res => (res, [.send 0, .backoff initialBackoff, .send 1])
           | .retry _ =>
             match backoffInterrupted tr ctx 2 with
             | some c =>
                 (.error c, [.send 0, .backoff initialBackoff, .send 1,
                   .backoff (initialBackoff * 2)])
             | none =>
               match doRequestAttempt (tr.roundTrip ctx 2 url) 2 with
               | .done res =>
                   (res, [.send 0, .backoff initialBackoff, .send 1,
                     .backoff (initialBackoff * 2), .send 2])
               | .retry e =>
                   (.error ("all 3 attempts failed: " ++ e),
                     [.send 0, .backoff initialBackoff, .send 1,
                       .backoff (initialBackoff * 2), .send 2])) := by
  simp only [doRequest, maxRetries, doRequestLoop]
  cases doRequestAttempt (tr.roundTrip ctx 0 url) 0 with
  | done res => simp
  | retry e0 =>
      cases backoffInterrupted tr ctx 1 with
      | some c => simp
      | none =>
          cases doRequestAttempt (tr.roundTrip ctx 1 url) 1 with
          | done res => simp
          | retry e1 =>
              cases backoffInterrupted tr ctx 2 with
              | some c => simp
              | none =>
                  cases doRequestAttempt (tr.roundTrip ctx 2 url) 2 with
                  | done res => simp
                  | retry e2 => simp; rfl


/-- C10. For every behaviour of the source, `doRequest` makes at most 3 attempts.  An attempt
is retried exactly when it is a retryable failure (transport error, body-read error, or a
status of 500 and above).  When the attempts before attempt `k` (`k < 3`) are retryable
failures and attempt `k` is not, and no backoff wait is interrupted by cancellation,
`doRequest` stops there: it returns the result of attempt `k` after `k + 1` attempts; so a
source that fails retryably twice and then answers 200 yields the same result as a source
that answers 200 at once.  After three retryable failures the call fails with
"all 3 attempts failed: " followed by the cause of the third attempt. -/
theorem doRequest_retry_policy (tr : Transport) (ctx : Context) (url : String) :
    attemptsMade (doRequest tr ctx url).2 ≤ 3
    ∧ (∀ (rt : RoundTrip) (n : Nat),
        (∃ e, doRequestAttempt rt n = .retry e) ↔ rt.retryable = true)
    ∧ (∀ (k : Nat) (res : Except String String), k < 3 →
        (∀ j, j < k → (tr.roundTrip ctx j url).retryable = true) →
        doRequestAttempt (tr.roundTrip ctx k url) k = .done res →
        (∀ j, 1 ≤ j → j ≤ k → backoffInterrupted tr ctx j = none) →
        (doRequest tr ctx url).1 = res ∧ attemptsMade (doRequest tr ctx url).2 = k + 1)
    ∧ (∀ cause : String,
        (∀ j, j < 3 → (tr.roundTrip ctx j url).retryable = true) →
        doRequestAttempt (tr.roundTrip ctx 2 url) 2 = .retry cause →
        (∀ j, 1 ≤ j → j ≤ 2 → backoffInterrupted tr ctx j = none) →
        (doRequest tr ctx url).1 = .error ("all 3 attempts failed: " ++ cause)
        ∧ attemptsMade (doRequest tr ctx url).2 = 3)
    ∧ (∀ (tr2 : Transport) (body : String),
        (tr.roundTrip ctx 0 url).retryable = true →
        (tr.roundTrip ctx 1 url).retryable = true →
        tr.roundTrip ctx 2 url = .response 200 body →
        (∀ j, 1 ≤ j → j ≤ 2 → backoffInterrupted tr ctx j = none) →
        tr2.roundTrip ctx 0 url = .response 200 body →
        (doRequest tr ctx url).1 = .ok body
        ∧ (doRequest tr ctx url).1 = (doRequest tr2 ctx url).1) := by
  have key : ∀ (k : Nat) (res : Except String String), k < 3 →
      (∀ j, j < k → (tr.roundTrip ctx j url).retryable = true) →
      doRequestAttempt (tr.roundTrip ctx k url) k = .done res →
      (∀ j, 1 ≤ j → j ≤ k → backoffInterrupted tr ctx j = none) →
      (doRequest tr ctx url).1 = res ∧ attemptsMade (doRequest tr ctx url).2 = k + 1 := by
    intro k res hk hpre hdone hctx
    rw [doRequest_unfold]
    interval_cases k
    · rw [hdone]; simp [attemptsMade]
    · obtain ⟨e0, he0⟩ := (doRequestAttempt_retry_iff _ 0).mpr (hpre 0 (by omega))
      rw [he0, hctx 1 (by omega) (by omega), hdone]
      simp [attemptsMade]
    · obtain ⟨e0, he0⟩ := (doRequestAttempt_retry_iff _ 0).mpr (hpre 0 (by omega))
      obtain ⟨e1, he1⟩ := (doRequestAttempt_retry_iff _ 1).mpr (hpre 1 (by omega))
      rw [he0, hctx 1 (by omega) (by omega), he1, hctx 2 (by omega) (by omega), hdone]
      simp [attemptsMade]
  refine ⟨?_, doRequestAttempt_retry_iff, key, ?_, ?_⟩
  · rw [doRequest_unfold]
    cases doRequestAttempt (tr.roundTrip ctx 0 url) 0 <;>
      cases backoffInterrupted tr ctx 1 <;>
      cases doRequestAttempt (tr.roundTrip ctx 1 url) 1 <;>
      cases backoffInterrupted tr ctx 2 <;>
      cases doRequestAttempt (tr.roundTrip ctx 2 url) 2 <;>
      simp [attemptsMade]
  · intro cause hall hthird hctx
    obtain ⟨e0, he0⟩ := (doRequestAttempt_retry_iff _ 0).mpr (hall 0 (by omega))
    obtain ⟨e1, he1⟩ := (doRequestAttempt_retry_iff _ 1).mpr (hall 1 (by omega))
    rw [doRequest_unfold, he0, hctx 1 (by omega) (by omega), he1,
      hctx 2 (by omega) (by omega), hthird]
    simp [attemptsMade]
  · intro tr2 body h0 h1 h2 hctx h20
    have hres : doRequestAttempt (tr.roundTrip ctx 2 url) 2 = .done (.ok body) := by
      rw [h2]; simp [doRequestAttempt]
    have hleft := (key 2 (.ok body) (by omega)
      (fun j hj => by interval_cases j <;> assumption) hres hctx).1
    refine ⟨hleft, ?_⟩
    rw [hleft, doRequest_unfold, h20]
    simp [doRequestAttempt]

/-- Witness for C10: a source that answers 500, then fails at the transport, then answers
200 gives the body of the third attempt after 3 attempts, the same result as a source that
answers 200 at once; a source that always answers 503 gives the aggregate error naming the
third failure. -/
theorem doRequest_retry_policy_witness :
    (doRequest (failTwiceThenOk "data") .background "u").1 = .ok "data"
    ∧ attemptsMade (doRequest (failTwiceThenOk "data") .background "u").2 = 3
    ∧ (doRequest (failTwiceThenOk "data") .background "u").1
        = (doRequest (okAtOnce "data") .background "u").1
    ∧ (doRequest alwaysUnavailable .background "u").1
        = .error "all 3 attempts failed: server error 503 (attempt 3)" :=
  have h := doRequest_retry_policy (failTwiceThenOk "data") .background "u"
  have h2 := doRequest_retry_policy alwaysUnavailable .background "u"
  have ha := h.2.2.1 2 (.ok "data") (by decide)
    (fun j hj => by interval_cases j <;> decide) (by decide)
    (fun j h1 h2 => by interval_cases j <;> decide)
  have hb := h.2.2.2.2 (okAtOnce "data") "data" (by decide) (by decide) (by decide)
    (fun j h1 h2 => by interval_cases j <;> decide) (by decide)
  have hc := h2.2.2.2.1 "server error 503 (attempt 3)"
    (fun j hj => by interval_cases j <;> decide) (by decide)
    (fun j h1 h2 => by interval_cases j <;> decide)
  ⟨ha.1, ha.2, hb.2, hc.1⟩


/-- C11. A response whose status is neither 2xx nor a server error (500 and above), met at
any attempt `k` that `doRequest` reaches (the attempts before it were retryable failures and
no backoff wait was interrupted), makes `doRequest` fail at that attempt: no further attempt
is made, and the error is "unexpected status", the status code, a colon and the response
body. -/
theorem doRequest_unexpected_status (tr : Transport) (ctx : Context) (url : String)
    (k : Nat) (status : Int) (body : String) (hk : k < 3)
    (h2xx : ¬ (200 ≤ status ∧ status ≤ 299)) (h5xx : status < 500)
    (hresp : tr.roundTrip ctx k url = .response status body)
    (hpre : ∀ j, j < k → (tr.roundTrip ctx j url).retryable = true)
    (hctx : ∀ j, 1 ≤ j → j ≤ k → backoffInterrupted tr ctx j = none) :
    (doRequest tr ctx url).1
      = .error ("unexpected status " ++ toString status ++ ": " ++ body)
    ∧ attemptsMade (doRequest tr ctx url).2 = k + 1
    ∧ (∀ j, k < j → Action.send j ∉ (doRequest tr ctx url).2) := by
  have hne : status ≠ 200 := by omega
  have h5 : ¬ (500 ≤ status) := by omega
  have hdone : doRequestAttempt (tr.roundTrip ctx k url) k
      = .done (.error ("unexpected status " ++ toString status ++ ": " ++ body)) := by
    rw [hresp]; simp [doRequestAttempt, h5, hne]
  rw [doRequest_unfold]
  interval_cases k
  · rw [hdone]; simp [attemptsMade]
    intro j hj; omega
  · obtain ⟨e0, he0⟩ := (doRequestAttempt_retry_iff _ 0).mpr (hpre 0 (by omega))
    rw [he0, hctx 1 (by omega) (by omega), hdone]
    simp [attemptsMade]
    intro j hj; omega
  · obtain ⟨e0, he0⟩ := (doRequestAttempt_retry_iff _ 0).mpr (hpre 0 (by omega))
    obtain ⟨e1, he1⟩ := (doRequestAttempt_retry_iff _ 1).mpr (hpre 1 (by omega))
    rw [he0, hctx 1 (by omega) (by omega), he1, hctx 2 (by omega) (by omega), hdone]
    simp [attemptsMade]
    intro j hj; omega

/-- Witness for C11: 401 with body "unauthorized" fails after one attempt with a message
that carries "401" and the body. -/
theorem doRequest_unexpected_status_witness :
    (doRequest alwaysUnauthorized .background "u").1
      = .error "unexpected status 401: unauthorized"
    ∧ attemptsMade (doRequest alwaysUnauthorized .background "u").2 = 1 :=
  have h := doRequest_unexpected_status alwaysUnauthorized .background "u" 0 401
    "unauthorized" (by decide) (by decide) (by decide) rfl (fun j hj => absurd hj (by omega))
    (fun j h1 h2 => absurd h1 (by omega))
  ⟨h.1.trans (by decide), h.2.1⟩


/-- C12, counterexample. A response with status 204, a 2xx status, is reported as a failure:
`doRequest` returns the error "unexpected status 204: " after one attempt and no body. -/
theorem doRequest_2xx_success_counterexample :
    (doRequest alwaysNoContent .background "u").1 = .error "unexpected status 204: "
    ∧ attemptsMade (doRequest alwaysNoContent .background "u").2 = 1 := by
  decide

/-- C12, amended. Of the responses met at an attempt `k` that `doRequest` reaches, only the
one with status 200 is a success: it is neither retried nor reported as a failure and its
body is returned.  Every other status below 500, the 2xx statuses 201 to 299 included, is
the immediate permanent failure "unexpected status"; and a response is retried exactly when
its status is 500 or above. -/
theorem doRequest_status_classes (tr : Transport) (ctx : Context) (url : String)
    (k : Nat) (status : Int) (body : String) (hk : k < 3)
    (hresp : tr.roundTrip ctx k url = .response status body)
    (hpre : ∀ j, j < k → (tr.roundTrip ctx j url).retryable = true)
    (hctx : ∀ j, 1 ≤ j → j ≤ k → backoffInterrupted tr ctx j = none) :
    (status = 200 →
      (doRequest tr ctx url).1 = .ok body ∧ attemptsMade (doRequest tr ctx url).2 = k + 1)
    ∧ (status ≠ 200 → status < 500 →
      (doRequest tr ctx url).1
        = .error ("unexpected status " ++ toString status ++ ": " ++ body)
      ∧ attemptsMade (doRequest tr ctx url).2 = k + 1)
    ∧ ((∃ e, doRequestAttempt (tr.roundTrip ctx k url) k = .retry e) ↔ 500 ≤ status) := by
  have key : ∀ res, doRequestAttempt (tr.roundTrip ctx k url) k = .done res →
      (doRequest tr ctx url).1 = res ∧ attemptsMade (doRequest tr ctx url).2 = k + 1 := by
    intro res hdone
    rw [doRequest_unfold]
    interval_cases k
    · rw [hdone]; simp [attemptsMade]
    · obtain ⟨e0, he0⟩ := (doRequestAttempt_retry_iff _ 0).mpr (hpre 0 (by omega))
      rw [he0, hctx 1 (by omega) (by omega), hdone]
      simp [attemptsMade]
    · obtain ⟨e0, he0⟩ := (doRequestAttempt_retry_iff _ 0).mpr (hpre 0 (by omega))
      obtain ⟨e1, he1⟩ := (doRequestAttempt_retry_iff _ 1).mpr (hpre 1 (by omega))
      rw [he0, hctx 1 (by omega) (by omega), he1, hctx 2 (by omega) (by omega), hdone]
      simp [attemptsMade]
  refine ⟨?_, ?_, ?_⟩
  · intro h200
    apply key
    rw [hresp, h200]
    simp [doRequestAttempt]
  · intro hne h5
    apply key
    have h5n : ¬ (500 ≤ status) := by omega
    rw [hresp]
    simp [doRequestAttempt, h5n, hne]
  · rw [doRequestAttempt_retry_iff, hresp]
    simp [RoundTrip.retryable]

/-- Witness for C12 (amended): a source that answers 200 at once gives its body after one
attempt; a source that answers 204 gives the permanent failure after one attempt. -/
theorem doRequest_status_classes_witness :
    ((doRequest (okAtOnce "data") .background "u").1 = .ok "data"
      ∧ attemptsMade (doRequest (okAtOnce "data") .background "u").2 = 1)
    ∧ (doRequest alwaysNoContent .background "u").1 = .error "unexpected status 204: " :=
  have h := doRequest_status_classes (okAtOnce "data") .background "u" 0 200 "data"
    (by decide) rfl (fun j hj => absurd hj (by omega)) (fun j h1 h2 => absurd h1 (by omega))
  have h2 := doRequest_status_classes alwaysNoContent .background "u" 0 204 ""
    (by decide) rfl (fun j hj => absurd hj (by omega)) (fun j h1 h2 => absurd h1 (by omega))
  ⟨h.1 rfl, (h2.2.1 (by decide) (by decide)).1.trans (by decide)⟩

theorem ctxErr_ne_exhaustion (e cause : String)
    (he : e = "context canceled" ∨ e = "context deadline exceeded") :
    e ≠ "all 3 attempts failed: " ++ cause := by
  intro h
  have h1 := congrArg (fun s : String => s.data.head?) h
  rcases he with rfl | rfl <;> simp [String.data_append] at h1

/-- C13. When the context's cancellation fires during the backoff wait before attempt `k`
(`k` = 1 or 2, the earlier attempts having been retryable failures and the earlier wait not
interrupted), `doRequest` returns the context's error `e` at once: the interrupted wait is
its last action, only the `k` earlier requests were made and no later one, and (`e` being
one of the two errors a context reports) the result is not the retry-exhaustion error
"all 3 attempts failed". -/
theorem doRequest_cancel_during_backoff (tr : Transport) (ctx : Context) (url : String)
    (k : Nat) (e : String) (hk1 : 1 ≤ k) (hk : k < 3)
    (hpre : ∀ j, j < k → (tr.roundTrip ctx j url).retryable = true)
    (hctx : ∀ j, 1 ≤ j → j < k → backoffInterrupted tr ctx j = none)
    (hcancel : backoffInterrupted tr ctx k = some e) :
    (doRequest tr ctx url).1 = .error e
    ∧ attemptsMade (doRequest tr ctx url).2 = k
    ∧ (doRequest tr ctx url).2.getLast? = some (.backoff (initialBackoff * 2 ^ (k - 1)))
    ∧ (∀ j, k ≤ j → Action.send j ∉ (doRequest tr ctx url).2)
    ∧ (e = "context canceled" ∨ e = "context deadline exceeded" →
        ∀ cause, (doRequest tr ctx url).1 ≠ .error ("all 3 attempts failed: " ++ cause)) := by
  have hres : (doRequest tr ctx url).1 = .error e
      ∧ attemptsMade (doRequest tr ctx url).2 = k
      ∧ (doRequest tr ctx url).2.getLast? = some (.backoff (initialBackoff * 2 ^ (k - 1)))
      ∧ (∀ j, k ≤ j → Action.send j ∉ (doRequest tr ctx url).2) := by
    rw [doRequest_unfold]
    obtain ⟨e0, he0⟩ := (doRequestAttempt_retry_iff _ 0).mpr (hpre 0 (by omega))
    interval_cases k
    · rw [he0, hcancel]
      simp [attemptsMade]
      intro j hj; omega
    · obtain ⟨e1, he1⟩ := (doRequestAttempt_retry_iff _ 1).mpr (hpre 1 (by omega))
      rw [he0, hctx 1 (by omega) (by omega), he1, hcancel]
      simp [attemptsMade]
      intro j hj; omega
  refine ⟨hres.1, hres.2.1, hres.2.2.1, hres.2.2.2, ?_⟩
  intro he cause hcon
  rw [hres.1] at hcon
  simp only [Except.error.injEq] at hcon
  exact ctxErr_ne_exhaustion e cause he hcon

/-- Witness for C13: the source answers 503 and the cancellation fires during the second
wait: two requests were made, the result is "context canceled". -/
theorem doRequest_cancel_during_backoff_witness :
    (doRequest cancelInSecondWait .background "u").1 = .error "context canceled"
    ∧ (doRequest cancelInSecondWait .background "u").2
        = [.send 0, .backoff 500000000, .send 1, .backoff 1000000000] :=
  have h := doRequest_cancel_during_backoff cancelInSecondWait .background "u" 2
    "context canceled" (by decide) (by decide)
    (fun j hj => by interval_cases j <;> decide)
    (fun j h1 h2 => by interval_cases j; decide) (by decide)
  ⟨h.1, by decide⟩

/-- C14. The actions of every `doRequest` call are an initial part of the schedule
request, wait 500ms, request, wait 1s, request: no wait precedes the first attempt, the
wait before attempt `n > 1` (counted from 1) is `500ms * 2^(n-2)`, and the waits of one call
add up to at most 1.5s. -/
theorem doRequest_backoff_schedule (tr : Transport) (ctx : Context) (url : String) :
    (∃ rest, (doRequest tr ctx url).2 ++ rest = retrySchedule)
    ∧ retrySchedule
        = [.send 0, .backoff (500 * Millisecond), .send 1, .backoff (1000 * Millisecond),
            .send 2]
    ∧ (doRequest tr ctx url).2.head? = some (.send 0)
    ∧ backoffTotal (doRequest tr ctx url).2 ≤ 1500 * Millisecond := by
  have hs : retrySchedule
      = [.send 0, .backoff (500 * Millisecond), .send 1, .backoff (1000 * Millisecond),
          .send 2] := by decide
  have hb1 : initialBackoff = 500 * Millisecond := rfl
  have hb2 : initialBackoff * 2 = 1000 * Millisecond := by decide
  rw [hs, doRequest_unfold, hb2, hb1]
  refine ⟨?_, rfl, ?_, ?_⟩
  · cases doRequestAttempt (tr.roundTrip ctx 0 url) 0 <;>
      cases backoffInterrupted tr ctx 1 <;>
      cases doRequestAttempt (tr.roundTrip ctx 1 url) 1 <;>
      cases backoffInterrupted tr ctx 2 <;>
      cases doRequestAttempt (tr.roundTrip ctx 2 url) 2 <;>
      simp
  · cases doRequestAttempt (tr.roundTrip ctx 0 url) 0 <;>
      cases backoffInterrupted tr ctx 1 <;>
      cases doRequestAttempt (tr.roundTrip ctx 1 url) 1 <;>
      cases backoffInterrupted tr ctx 2 <;>
      cases doRequestAttempt (tr.roundTrip ctx 2 url) 2 <;>
      simp
  · cases doRequestAttempt (tr.roundTrip ctx 0 url) 0 <;>
      cases backoffInterrupted tr ctx 1 <;>
      cases doRequestAttempt (tr.roundTrip ctx 1 url) 1 <;>
      cases backoffInterrupted tr ctx 2 <;>
      cases doRequestAttempt (tr.roundTrip ctx 2 url) 2 <;>
      simp [backoffTotal, Millisecond]


theorem cleanupCallsOf_append (xs ys : List Event) :
    cleanupCallsOf (xs ++ ys) = cleanupCallsOf xs ++ cleanupCallsOf ys := by
  induction xs with
  | nil => rfl
  | cons e xs ih => cases e <;> simp [cleanupCallsOf, ih]

theorem cleanerLoop_rec (env : Env) (ctx : Context) (cutoff : Time) (batchSize : Int) :
    ∀ (evs : List Evidence) (w : World),
      ∃ calls : List Event,
        (cleanerLoop (recStore env) ctx cutoff batchSize evs w).history = w.history ++ calls
        ∧ (cleanerLoop (recStore env) ctx cutoff batchSize evs w).states = w.states
        ∧ CleanupCalls cutoff batchSize evs calls
        ∧ cleanupCallsOf calls
            = (evs.filter (fun ev => !ev.IsMasterData)).map
                (fun ev => (ev.Table, cutoff, batchSize)) := by
  intro evs
  induction evs with
  | nil => intro w; exact ⟨[], by simp [cleanerLoop], rfl, .done, rfl⟩
  | cons ev rest ih =>
      intro w
      rw [cleanerLoop]
      by_cases hm : ev.IsMasterData = true
      · obtain ⟨calls, h1, h2, h3, h4⟩ := ih w
        simp only [hm, if_true]
        exact ⟨calls, h1, h2, .skipped ev rest calls hm h3, by simp [hm, h4]⟩
      · have hm1 : ev.IsMasterData = false := by simpa using hm
        simp only [hm1, Bool.false_eq_true, if_false]
        have hcall : (recStore env).CleanupOldRecords ctx ev.Table cutoff batchSize w
            = (env.cleanupOldRecords w.history ctx ev.Table cutoff batchSize,
                w.record (.cleanupOldRecords ev.Table cutoff batchSize
                  (env.cleanupOldRecords w.history ctx ev.Table cutoff batchSize))) := rfl
        rw [hcall]
        generalize env.cleanupOldRecords w.history ctx ev.Table cutoff batchSize = res
        obtain ⟨deleted, err⟩ := res
        cases err with
        | some e =>
            simp only
            obtain ⟨calls, h1, h2, h3, h4⟩ := ih (w.record (.cleanupOldRecords ev.Table cutoff
              batchSize (deleted, some e)))
            refine ⟨.cleanupOldRecords ev.Table cutoff batchSize (deleted, some e) :: calls,
              ?_, ?_, ?_, ?_⟩
            · rw [h1, record_history]; simp
            · rw [h2, record_states]
            · exact .cleaned ev rest calls (deleted, some e) hm1 (by simp) h3
            · simp [cleanupCallsOf, hm1, h4]
        | none =>
            simp only
            by_cases hpos : deleted > 0
            · simp only [hpos, if_true]
              have hlog : ((recStore env).LogCleanup ctx ev.Slug deleted (some cutoff)
                  (w.record (.cleanupOldRecords ev.Table cutoff batchSize (deleted, none)))).2
                  = (w.record (.cleanupOldRecords ev.Table cutoff batchSize
                      (deleted, none))).record
                      (.logCleanup ev.Slug deleted (some cutoff)
                        (env.logCleanup (w.record (.cleanupOldRecords ev.Table cutoff
                          batchSize (deleted, none))).history ctx ev.Slug deleted
                          (some cutoff))) := rfl
              rw [hlog]
              obtain ⟨calls, h1, h2, h3, h4⟩ := ih ((w.record (.cleanupOldRecords ev.Table
                cutoff batchSize (deleted, none))).record
                  (.logCleanup ev.Slug deleted (some cutoff)
                    (env.logCleanup (w.record (.cleanupOldRecords ev.Table cutoff
                      batchSize (deleted, none))).history ctx ev.Slug deleted
                      (some cutoff))))
              refine ⟨.cleanupOldRecords ev.Table cutoff batchSize (deleted, none)
                :: .logCleanup ev.Slug deleted (some cutoff)
                    (env.logCleanup (w.record (.cleanupOldRecords ev.Table cutoff
                      batchSize (deleted, none))).history ctx ev.Slug deleted
                      (some cutoff)) :: calls, ?_, ?_, ?_, ?_⟩
              · rw [h1, record_history, record_history]; simp
              · rw [h2, record_states, record_states]
              · exact .logged ev rest calls deleted _ hm1 hpos h3
              · simp [cleanupCallsOf, hm1, h4]
            · simp only [hpos, if_false]
              obtain ⟨calls, h1, h2, h3, h4⟩ := ih (w.record (.cleanupOldRecords ev.Table
                cutoff batchSize (deleted, none)))
              refine ⟨.cleanupOldRecords ev.Table cutoff batchSize (deleted, none) :: calls,
                ?_, ?_, ?_, ?_⟩
              · rw [h1, record_history]; simp
              · rw [h2, record_states]
              · exact .cleaned ev rest calls (deleted, none) hm1 (by simp; omega) h3
              · simp [cleanupCallsOf, hm1, h4]

/-- C18. With `RetentionDays ≤ 0`, `Cleaner.Run` makes no call at all.  Otherwise it reads
the clock once, takes `cutoff = now.AddDate(0, 0, -RetentionDays)`, and its store calls are
exactly these, in catalog order: for each entity that is not reference data one
`CleanupOldRecords` call on its table with that cutoff and the configured batch size,
directly followed by one `LogCleanup` call (slug, rows deleted, cutoff) exactly when the
cleanup returned no error and deleted at least one row; no call for a reference-data entity;
and the calls for the later entities follow whatever an earlier cleanup returned. -/
theorem Cleaner_Run_calls (env : Env) (addDate : Time → Int → Int → Int → Time)
    (registry : List Evidence) (config : CleanupConfig) (ctx : Context) (w : World) :
    (config.RetentionDays ≤ 0 →
      Cleaner.Run (recStore env) (recTime env) addDate registry config ctx w = (none, w))
    ∧ (0 < config.RetentionDays →
      ∃ calls : List Event,
        (Cleaner.Run (recStore env) (recTime env) addDate registry config ctx w).2.history
          = w.history ++ .now (env.now w.history) :: calls
        ∧ CleanupCalls (addDate (env.now w.history) 0 0 (-config.RetentionDays))
            config.BatchSize registry calls
        ∧ cleanupCallsOf calls
            = (registry.filter (fun ev => !ev.IsMasterData)).map
                (fun ev => (ev.Table, addDate (env.now w.history) 0 0 (-config.RetentionDays),
                  config.BatchSize))) := by
  refine ⟨?_, ?_⟩
  · intro h
    simp [Cleaner.Run, h]
  · intro h
    have hn : ¬ (config.RetentionDays ≤ 0) := by omega
    simp only [Cleaner.Run, hn, if_false]
    obtain ⟨calls, h1, -, h3, h4⟩ := cleanerLoop_rec env ctx
      (addDate (env.now w.history) 0 0 (-config.RetentionDays)) config.BatchSize registry
      (w.record (.now (env.now w.history)))
    refine ⟨calls, ?_, h3, h4⟩
    show (cleanerLoop (recStore env) ctx
      (addDate (env.now w.history) 0 0 (-config.RetentionDays)) config.BatchSize registry
      (w.record (.now (env.now w.history)))).history = _
    rw [h1, record_history]
    simp

/-- Witness for C18: with retention disabled nothing is called; with 30 days of retention and
the catalog master, trans, other, the cleanup of "flexibee_trans" fails and the run goes on:
the calls are the cleanup of trans, the cleanup of other and the log entry for other. -/
theorem Cleaner_Run_calls_witness :
    Cleaner.Run (recStore cleanupFailsEnv) (recTime cleanupFailsEnv) addDateDays
        cleanerCatalog { RetentionDays := 0, BatchSize := 1000 } .background emptyWorld
      = (none, emptyWorld)
    ∧ (Cleaner.Run (recStore cleanupFailsEnv) (recTime cleanupFailsEnv) addDateDays
        cleanerCatalog { RetentionDays := 30, BatchSize := 1000 } .background
        emptyWorld).2.history
      = [ .now 8640000000000000,
          .cleanupOldRecords "flexibee_trans" 6048000000000000 1000
            (0, some "connection refused"),
          .cleanupOldRecords "flexibee_other" 6048000000000000 1000 (5, none),
          .logCleanup "other" 5 (some 6048000000000000) none ]
    ∧ ∃ calls : List Event,
        (Cleaner.Run (recStore cleanupFailsEnv) (recTime cleanupFailsEnv) addDateDays
          cleanerCatalog { RetentionDays := 30, BatchSize := 1000 } .background
          emptyWorld).2.history = .now 8640000000000000 :: calls
        ∧ cleanupCallsOf calls
          = [("flexibee_trans", 6048000000000000, 1000),
             ("flexibee_other", 6048000000000000, 1000)] :=
  have h0 := (Cleaner_Run_calls cleanupFailsEnv addDateDays cleanerCatalog
    { RetentionDays := 0, BatchSize := 1000 } .background emptyWorld).1 (by decide)
  have h30 := (Cleaner_Run_calls cleanupFailsEnv addDateDays cleanerCatalog
    { RetentionDays := 30, BatchSize := 1000 } .background emptyWorld).2 (by decide)
  ⟨h0, by decide,
    match h30 with
    | ⟨calls, hh, _, hc⟩ => ⟨calls, hh, hc.trans (by decide)⟩⟩

/-- C19, counterexample. The cleanup of "flexibee_trans" fails with "connection refused"
during the run, and `Cleaner.Run` returns nil. -/
theorem Cleaner_Run_error_counterexample :
    (Cleaner.Run (recStore cleanupFailsEnv) (recTime cleanupFailsEnv) addDateDays
        cleanerCatalog { RetentionDays := 30, BatchSize := 1000 } .background emptyWorld).1
      = none
    ∧ Event.cleanupOldRecords "flexibee_trans" 6048000000000000 1000
        (0, some "connection refused")
      ∈ (Cleaner.Run (recStore cleanupFailsEnv) (recTime cleanupFailsEnv) addDateDays
          cleanerCatalog { RetentionDays := 30, BatchSize := 1000 } .background
          emptyWorld).2.history := by
  decide

/-- C19, amended. `Cleaner.Run` returns nil in every case, for every store, clock, catalog
and configuration: whether or not the cleanup of some entity failed, no per-entity error
reaches the caller. -/
theorem Cleaner_Run_returns_nil {σ : Type} (st : SyncStore σ) (tm : TimePkg σ)
    (addDate : Time → Int → Int → Int → Time) (registry : List Evidence)
    (config : CleanupConfig) (ctx : Context) (s : σ) :
    (Cleaner.Run st tm addDate registry config ctx s).1 = none := by
  unfold Cleaner.Run
  split <;> rfl

theorem faulty_exec_log {σ : Type} (faults : Faults) (pool : Pool σ) (ctx : Context)
    (stmt : Statement) (args : List SqlArg) (s : σ × List PoolEvent) :
    ((faulty faults pool).Exec ctx stmt args s).2.2
      = s.2 ++ [.exec stmt args ((faulty faults pool).Exec ctx stmt args s).1] := by
  unfold faulty
  dsimp only
  split <;> rfl

theorem faulty_query_log {σ : Type} (faults : Faults) (pool : Pool σ) (ctx : Context)
    (table : String) (s : σ × List PoolEvent) :
    ((faulty faults pool).QueryColumns ctx table s).2.2
      = s.2 ++ [.queryColumns table ((faulty faults pool).QueryColumns ctx table s).1] := by
  unfold faulty
  dsimp only
  split <;> rfl

theorem upsertLoop_faulty {σ : Type} (lib : GoLib) (faults : Faults) (pool : Pool σ)
    (ctx : Context) (table primaryKey : String) (records : List Record) :
    ∀ (count : Int) (s : σ × List PoolEvent),
      ∃ results : List (Except String Int),
        results.length = (records.filterMap (upsertCall lib table primaryKey)).length
        ∧ (upsertLoop lib (faulty faults pool) ctx table primaryKey records count s).2.2
            = s.2 ++ List.zipWith (fun c res => PoolEvent.exec c.1 c.2 res)
                (records.filterMap (upsertCall lib table primaryKey)) results
        ∧ (upsertLoop lib (faulty faults pool) ctx table primaryKey records count s).1
            = count + ((results.filter isOk).length : Int) := by
  induction records with
  | nil => intro count s; exact ⟨[], by simp [upsertLoop]⟩
  | cons record rest ih =>
      intro count s
      cases hm : lib.jsonMarshal record with
      | error e =>
          obtain ⟨results, h1, h2, h3⟩ := ih count s
          refine ⟨results, ?_, ?_, ?_⟩
          · simpa [upsertCall, hm] using h1
          · simpa [upsertLoop, upsertCall, hm] using h2
          · simpa [upsertLoop, hm] using h3
      | ok rawJSON =>
          cases hl : List.lookup primaryKey record with
          | none =>
              obtain ⟨results, h1, h2, h3⟩ := ih count s
              refine ⟨results, ?_, ?_, ?_⟩
              · simpa [upsertCall, hm, hl] using h1
              · simpa [upsertLoop, upsertCall, hm, hl] using h2
              · simpa [upsertLoop, hm, hl] using h3
          | some id =>
              have hlog := faulty_exec_log faults pool ctx
                (upsertStatement lib table primaryKey record id rawJSON)
                (upsertParts lib primaryKey record id rawJSON).args s
              generalize hr : (faulty faults pool).Exec ctx
                (upsertStatement lib table primaryKey record id rawJSON)
                (upsertParts lib primaryKey record id rawJSON).args s = r at hlog
              obtain ⟨res, s1⟩ := r
              have hcall : upsertCall lib table primaryKey record
                  = some (upsertStatement lib table primaryKey record id rawJSON,
                      (upsertParts lib primaryKey record id rawJSON).args) := by
                simp [upsertCall, hm, hl]
              cases res with
              | error e =>
                  obtain ⟨results, h1, h2, h3⟩ := ih count s1
                  refine ⟨.error e :: results, ?_, ?_, ?_⟩
                  · simp [hcall, h1]
                  · simp only [upsertLoop, hm, hl, hr, h2]
                    simp only [] at hlog
                    rw [hlog]
                    simp [hcall]
                  · simp only [upsertLoop, hm, hl, hr, h3]
                    simp [isOk]
              | ok n =>
                  obtain ⟨results, h1, h2, h3⟩ := ih (count + 1) s1
                  refine ⟨.ok n :: results, ?_, ?_, ?_⟩
                  · simp [hcall, h1]
                  · simp only [upsertLoop, hm, hl, hr, h2]
                    simp only [] at hlog
                    rw [hlog]
                    simp [hcall]
                  · simp only [upsertLoop, hm, hl, hr, h3]
                    simp [isOk]
                    omega

/-- Claim C15. `Store.UpsertRecords` never fails the batch. Over any pool on which any
failures occur, and for every list of records, it returns a nil error; the writes it
attempts are exactly one per record that serialises and contains the primary-key field, in
the order of the records, whatever the earlier writes answered (so a record lacking the
primary key costs no write, and neither such a record nor a failed write stops the later
ones); and the count it returns is the number of those writes that succeeded. -/
theorem UpsertRecords_never_fails {σ : Type} (lib : GoLib) (faults : Faults) (pool : Pool σ)
    (ctx : Context) (table primaryKey : String) (records : List Record)
    (s : σ × List PoolEvent) :
    (Store.UpsertRecords lib (faulty faults pool) ctx table records primaryKey s).1.2 = none
    ∧ ∃ results : List (Except String Int),
        results.length = (records.filterMap (upsertCall lib table primaryKey)).length
        ∧ (Store.UpsertRecords lib (faulty faults pool) ctx table records primaryKey s).2.2
            = s.2 ++ List.zipWith (fun c res => PoolEvent.exec c.1 c.2 res)
                (records.filterMap (upsertCall lib table primaryKey)) results
        ∧ (Store.UpsertRecords lib (faulty faults pool) ctx table records primaryKey s).1.1
            = ((results.filter isOk).length : Int) := by
  unfold Store.UpsertRecords
  split
  · rename_i h
    have h0 : records = [] := List.length_eq_zero.mp h
    subst h0
    exact ⟨rfl, [], by simp⟩
  · obtain ⟨results, h1, h2, h3⟩ :=
      upsertLoop_faulty lib faults pool ctx table primaryKey records 0 s
    exact ⟨rfl, results, h1, h2, by simpa using h3⟩

theorem getTable_putTable_same (k : String) (v : DbTable) (xs : List (String × DbTable)) :
    getTable k (putTable k v xs) = some v := by
  induction xs with
  | nil => simp [putTable, getTable]
  | cons x xs ih =>
      obtain ⟨k1, v1⟩ := x
      by_cases h : k1 = k
      · simp [putTable, getTable, h]
      · simp [putTable, getTable, h, ih]

theorem getTable_putTable_other (k k1 : String) (v : DbTable) (xs : List (String × DbTable))
    (hne : k1 ≠ k) : getTable k1 (putTable k v xs) = getTable k1 xs := by
  induction xs with
  | nil => simp [putTable, getTable, hne.symm]
  | cons x xs ih =>
      obtain ⟨k2, v2⟩ := x
      by_cases h : k2 = k
      · subst h
        simp [putTable, getTable, hne.symm]
      · by_cases h1 : k2 = k1
        · subst h1
          simp [putTable, getTable, h]
        · simp [putTable, getTable, h, h1, ih]

theorem putTable_putTable (k : String) (v v1 : DbTable) (xs : List (String × DbTable)) :
    putTable k v (putTable k v1 xs) = putTable k v xs := by
  induction xs with
  | nil => simp [putTable]
  | cons x xs ih =>
      obtain ⟨k1, v2⟩ := x
      by_cases h : k1 = k
      · simp [putTable, h]
      · simp [putTable, h, ih]

theorem deleteOld_length (cutoff : Time) (n : Nat) (rows : List DbRow) :
    (deleteOld cutoff n rows).length + min n (rows.filter (isOld cutoff)).length
      = rows.length := by
  induction rows generalizing n with
  | nil => cases n <;> simp [deleteOld]
  | cons r rows ih =>
      cases n with
      | zero => simp [deleteOld]
      | succ n =>
          by_cases h : isOld cutoff r = true
          · have := ih n
            simp only [deleteOld, h, if_true, List.filter_cons_of_pos, List.length_cons]
            omega
          · have := ih (n + 1)
            simp only [Bool.not_eq_true] at h
            simp only [deleteOld, h, List.filter_cons, List.length_cons]
            simp only [Bool.false_eq_true, if_false, List.length_cons]
            omega

theorem deleteOld_old (cutoff : Time) (n : Nat) (rows : List DbRow) :
    ((deleteOld cutoff n rows).filter (isOld cutoff)).length
      = (rows.filter (isOld cutoff)).length - n := by
  induction rows generalizing n with
  | nil => cases n <;> simp [deleteOld]
  | cons r rows ih =>
      cases n with
      | zero => simp [deleteOld]
      | succ n =>
          by_cases h : isOld cutoff r = true
          · simp [deleteOld, h, ih n]
          · simp only [Bool.not_eq_true] at h
            simp [deleteOld, h, List.filter_cons, ih (n + 1)]

theorem deleteOld_keep (cutoff : Time) (n : Nat) (rows : List DbRow) :
    (deleteOld cutoff n rows).filter (fun r => !isOld cutoff r)
      = rows.filter (fun r => !isOld cutoff r) := by
  induction rows generalizing n with
  | nil => cases n <;> simp [deleteOld]
  | cons r rows ih =>
      cases n with
      | zero => simp [deleteOld]
      | succ n =>
          by_cases h : isOld cutoff r = true
          · simp [deleteOld, h, ih n]
          · simp only [Bool.not_eq_true] at h
            simp [deleteOld, h, List.filter_cons, ih (n + 1)]

theorem deleteOld_all (cutoff : Time) (n : Nat) (rows : List DbRow)
    (h : (rows.filter (isOld cutoff)).length ≤ n) :
    deleteOld cutoff n rows = rows.filter (fun r => !isOld cutoff r) := by
  induction rows generalizing n with
  | nil => cases n <;> simp [deleteOld]
  | cons r rows ih =>
      by_cases h1 : isOld cutoff r = true
      · cases n with
        | zero => simp [h1] at h
        | succ n =>
            simp only [h1, List.filter_cons_of_pos, List.length_cons] at h
            simp [deleteOld, h1, ih n (by omega)]
      · simp only [Bool.not_eq_true] at h1
        simp only [List.filter_cons, h1] at h
        cases n with
        | zero =>
            have h2 : (List.filter (isOld cutoff) rows).length = 0 := by simpa using h
            have := ih 0 (by omega)
            simp only [deleteOld] at this ⊢
            simp [List.filter_cons, h1, ← this]
        | succ n =>
            simp [deleteOld, h1, List.filter_cons, ih (n + 1) (by simpa using h)]

theorem faulty_exec_of_none {σ : Type} (faults : Faults) (pool : Pool σ) (ctx : Context)
    (stmt : Statement) (args : List SqlArg) (s : σ × List PoolEvent)
    (h : faults.exec s.2 stmt args = none) :
    (faulty faults pool).Exec ctx stmt args s
      = ((pool.Exec ctx stmt args s.1).1,
          ((pool.Exec ctx stmt args s.1).2, s.2 ++ [.exec stmt args (pool.Exec ctx stmt args s.1).1])) := by
  unfold faulty
  simp only [h]

theorem pgExec_cleanup (safeTable : String) (cutoff : Time) (b : Nat) (db : Database)
    (t : DbTable) (ht : getTable (pgIdent safeTable) db.tables = some t) :
    pgExec (.cleanup safeTable) [.time cutoff, .int b] db
      = (.ok ((min b (t.rows.filter (isOld cutoff)).length : Nat) : Int),
          ⟨putTable (pgIdent safeTable) ⟨t.columns, deleteOld cutoff b t.rows⟩ db.tables,
            db.now⟩) := by
  have hb : ¬ ((b : Int) < 0) := by omega
  have hlen := deleteOld_length cutoff b t.rows
  simp only [pgExec, ht, hb, if_false, Int.toNat_ofNat]
  congr 2
  omega

theorem cleanupLoop_pg (lib : GoLib) (faults : Faults) (ctx : Context) (table : String)
    (cutoff : Time) (b : Nat) (hb : 1 ≤ b)
    (hfaults : ∀ h args, faults.exec h (.cleanup (sanitizeIdentifier lib table)) args = none)
    (fuel : Nat) :
    ∀ (db : Database) (log : List PoolEvent) (t : DbTable) (total : Int),
      getTable (pgIdent (sanitizeIdentifier lib table)) db.tables = some t →
      ((t.rows.filter (isOld cutoff)).length / b + 1 ≤ fuel →
        cleanupLoop lib (faulty faults pgPool) ctx table cutoff b fuel total (db, log)
          = some ((total + ((t.rows.filter (isOld cutoff)).length : Int), none),
              (⟨putTable (pgIdent (sanitizeIdentifier lib table))
                  ⟨t.columns, t.rows.filter (fun r => !isOld cutoff r)⟩ db.tables, db.now⟩,
                log ++ (List.replicate ((t.rows.filter (isOld cutoff)).length / b)
                    (PoolEvent.exec (.cleanup (sanitizeIdentifier lib table))
                      [.time cutoff, .int b] (.ok b))
                  ++ [PoolEvent.exec (.cleanup (sanitizeIdentifier lib table))
                      [.time cutoff, .int b]
                      (.ok (((t.rows.filter (isOld cutoff)).length % b : Nat) : Int))]))))
      ∧ (fuel ≤ (t.rows.filter (isOld cutoff)).length / b →
        cleanupLoop lib (faulty faults pgPool) ctx table cutoff b fuel total (db, log)
          = none) := by
  induction fuel with
  | zero =>
      intro db log t total _
      exact ⟨fun h => absurd h (by simp), fun _ => rfl⟩
  | succ fuel ih =>
      intro db log t total ht
      have hex := faulty_exec_of_none faults pgPool ctx (.cleanup (sanitizeIdentifier lib table))
        [.time cutoff, .int b] (db, log) (hfaults _ _)
      have hpg : pgPool.Exec ctx (.cleanup (sanitizeIdentifier lib table))
          [.time cutoff, .int b] db
          = pgExec (.cleanup (sanitizeIdentifier lib table)) [.time cutoff, .int b] db := rfl
      simp only [hpg, pgExec_cleanup _ cutoff b db t ht] at hex
      generalize hm : (t.rows.filter (isOld cutoff)).length = m at hex ⊢
      by_cases hlt : m < b
      · have hmin : min b m = m := by omega
        have hd : ((m : Nat) : Int) < (b : Int) := by omega
        have hdiv : m / b = 0 := Nat.div_eq_of_lt hlt
        have hmod : m % b = m := Nat.mod_eq_of_lt hlt
        constructor
        · intro _
          simp only [cleanupLoop, hex, hmin, hd, if_true, hdiv, hmod, List.replicate_zero,
            List.nil_append]
          rw [deleteOld_all cutoff b t.rows (by omega)]
        · intro h
          rw [hdiv] at h
          omega
      · have hmin : min b m = b := by omega
        have hd : ¬ (((b : Nat) : Int) < (b : Int)) := by omega
        have hdiv : m / b = (m - b) / b + 1 := by
          rw [Nat.div_eq m b]
          simp [show 0 < b by omega, show b ≤ m by omega]
        have hmod : m % b = (m - b) % b := Nat.mod_eq_sub_mod (by omega)
        have ht1 : getTable (pgIdent (sanitizeIdentifier lib table))
            (putTable (pgIdent (sanitizeIdentifier lib table))
              ⟨t.columns, deleteOld cutoff b t.rows⟩ db.tables)
            = some ⟨t.columns, deleteOld cutoff b t.rows⟩ := getTable_putTable_same _ _ _
        have hm1 : ((deleteOld cutoff b t.rows).filter (isOld cutoff)).length = m - b := by
          rw [deleteOld_old, hm]
        obtain ⟨ih1, ih2⟩ := ih
          ⟨putTable (pgIdent (sanitizeIdentifier lib table))
            ⟨t.columns, deleteOld cutoff b t.rows⟩ db.tables, db.now⟩
          (log ++ [PoolEvent.exec (.cleanup (sanitizeIdentifier lib table))
            [.time cutoff, .int b] (.ok b)])
          ⟨t.columns, deleteOld cutoff b t.rows⟩ (total + b) ht1
        simp only [hm1, deleteOld_keep, putTable_putTable] at ih1 ih2
        constructor
        · intro hf
          rw [hdiv] at hf
          simp only [cleanupLoop, hex, hmin, hd, if_false]
          rw [ih1 (by omega), hdiv, hmod]
          simp only [List.replicate_succ, List.append_assoc, List.singleton_append,
            List.cons_append, List.nil_append]
          congr 3
          push_cast [Nat.cast_sub (show b ≤ m by omega)]
          omega
        · intro hf
          rw [hdiv] at hf
          simp only [cleanupLoop, hex, hmin, hd, if_false]
          exact ih2 (by omega)

/-- Claim C17. For every batch size `b ≥ 1` and every table with `m` rows whose `synced_at`
is strictly before the cutoff, when no delete is hit by a failure, `Store.CleanupOldRecords`
returns `m` and no error as soon as it is given `m / b + 1` rounds, and is still running
after `m / b` rounds; its rounds are `m / b` deletes of `b` rows followed by one delete of
`m mod b` rows; and the table is left with exactly the rows that are not strictly older than
the cutoff (so a row synced at the cutoff stays). -/
theorem CleanupOldRecords_rounds (lib : GoLib) (faults : Faults) (ctx : Context)
    (table : String) (cutoff : Time) (b : Nat) (db : Database) (log : List PoolEvent)
    (t : DbTable) (hb : 1 ≤ b)
    (hfaults : ∀ h args, faults.exec h (.cleanup (sanitizeIdentifier lib table)) args = none)
    (ht : getTable (pgIdent (sanitizeIdentifier lib table)) db.tables = some t) :
    (∀ fuel, (t.rows.filter (isOld cutoff)).length / b + 1 ≤ fuel →
      Store.CleanupOldRecords lib (faulty faults pgPool) fuel ctx table cutoff b (db, log)
        = some ((((t.rows.filter (isOld cutoff)).length : Int), none),
            (⟨putTable (pgIdent (sanitizeIdentifier lib table))
                ⟨t.columns, t.rows.filter (fun r => !isOld cutoff r)⟩ db.tables, db.now⟩,
              log ++ (List.replicate ((t.rows.filter (isOld cutoff)).length / b)
                  (PoolEvent.exec (.cleanup (sanitizeIdentifier lib table))
                    [.time cutoff, .int b] (.ok b))
                ++ [PoolEvent.exec (.cleanup (sanitizeIdentifier lib table))
                    [.time cutoff, .int b]
                    (.ok (((t.rows.filter (isOld cutoff)).length % b : Nat) : Int))]))))
    ∧ (∀ fuel, fuel ≤ (t.rows.filter (isOld cutoff)).length / b →
      Store.CleanupOldRecords lib (faulty faults pgPool) fuel ctx table cutoff b (db, log)
        = none)
    ∧ (t.rows.filter (isOld cutoff)).length % b < b := by
  refine ⟨fun fuel hf => ?_, fun fuel hf => ?_, Nat.mod_lt _ (by omega)⟩
  · have h := (cleanupLoop_pg lib faults ctx table cutoff b hb hfaults fuel db log t 0 ht).1 hf
    simpa [Store.CleanupOldRecords] using h
  · exact (cleanupLoop_pg lib faults ctx table cutoff b hb hfaults fuel db log t 0 ht).2 hf

/-- Witness for C17: five of the seven rows of `agedTable` are older than 100; with batch
size 2 the cleanup takes three rounds deleting 2, 2 and 1 rows, returns 5, and keeps the rows
synced at 120 and at 100. -/
theorem CleanupOldRecords_rounds_witness :
    Store.CleanupOldRecords sampleLib (faulty noFaults pgPool) 3 .background "flexibee_test"
        100 2 (agedDb, [])
      = some ((5, none),
          (⟨[("flexibee_test", ⟨baseColumns,
              [[("id", .val (.num 2)), ("synced_at", .time 120)],
               [("id", .val (.num 4)), ("synced_at", .time 100)]]⟩)], 130⟩,
            [.exec (.cleanup (sanitizeIdentifier sampleLib "flexibee_test"))
                [.time 100, .int 2] (.ok 2),
             .exec (.cleanup (sanitizeIdentifier sampleLib "flexibee_test"))
                [.time 100, .int 2] (.ok 2),
             .exec (.cleanup (sanitizeIdentifier sampleLib "flexibee_test"))
                [.time 100, .int 2] (.ok 1)]))
    ∧ Store.CleanupOldRecords sampleLib (faulty noFaults pgPool) 2 .background "flexibee_test"
        100 2 (agedDb, []) = none :=
  have h := CleanupOldRecords_rounds sampleLib noFaults .background "flexibee_test" 100 2
    agedDb [] agedTable (by decide) (fun _ _ => rfl) (by decide)
  ⟨(h.1 3 (by decide)).trans (by decide), h.2.1 2 (by decide)⟩

theorem getTable_append (k : String) (xs ys : List (String × DbTable)) :
    getTable k (xs ++ ys)
      = match getTable k xs with
        | some v => some v
        | none => getTable k ys := by
  induction xs with
  | nil => simp [getTable]
  | cons x xs ih =>
      obtain ⟨k1, v1⟩ := x
      by_cases h : k1 = k
      · simp [getTable, h]
      · simp [getTable, h, ih]

theorem Grows.refl (db : Database) : Grows db db := by
  intro name t h
  exact ⟨[], by simpa using h⟩

theorem Grows.trans {db db1 db2 : Database} (h1 : Grows db db1) (h2 : Grows db1 db2) :
    Grows db db2 := by
  intro name t h
  obtain ⟨e1, he1⟩ := h1 name t h
  obtain ⟨e2, he2⟩ := h2 name _ he1
  exact ⟨e1 ++ e2, by simpa using he2⟩

theorem Grows.columnNames {db db1 : Database} (h : Grows db db1) (name c : String)
    (hc : c ∈ columnNames name db) : c ∈ columnNames name db1 := by
  unfold FlexibeeAdapter.columnNames at hc ⊢
  cases ht : getTable name db.tables with
  | none => simp [ht] at hc
  | some t =>
      obtain ⟨extra, he⟩ := h name t ht
      simp only [ht] at hc
      simp only [he, List.map_append, List.mem_append]
      exact Or.inl hc

theorem pgExec_createTable (safeTable : String) (args : List SqlArg) (db db1 : Database)
    (n : Int) (h : pgExec (.createTable safeTable) args db = (.ok n, db1)) :
    Grows db db1 ∧ getTable (pgIdent safeTable) db1.tables ≠ none
      ∧ (getTable (pgIdent safeTable) db.tables ≠ none → db1 = db) := by
  unfold pgExec at h
  simp only at h
  split at h
  · simp at h
  · cases ht : getTable (pgIdent safeTable) db.tables with
    | some t =>
        simp only [ht, Prod.mk.injEq] at h
        obtain ⟨_, rfl⟩ := h
        exact ⟨Grows.refl _, by simp [ht], fun _ => rfl⟩
    | none =>
        simp only [ht, Prod.mk.injEq] at h
        obtain ⟨_, rfl⟩ := h
        refine ⟨?_, ?_, fun hne => absurd rfl hne⟩
        · intro name t hn
          exact ⟨[], by simp [getTable_append, hn]⟩
        · simp [getTable_append, ht, getTable]

theorem pgExec_addColumn (safeTable colName pgType : String) (args : List SqlArg)
    (db db1 : Database) (n : Int)
    (h : pgExec (.addColumn safeTable colName pgType) args db = (.ok n, db1)) :
    Grows db db1 ∧ pgIdent colName ∈ columnNames (pgIdent safeTable) db1 := by
  unfold pgExec at h
  simp only at h
  cases ht : getTable (pgIdent safeTable) db.tables with
  | none => simp [ht] at h
  | some t =>
      simp only [ht] at h
      split at h
      · simp at h
      · split at h
        · rename_i hin
          simp only [Prod.mk.injEq] at h
          obtain ⟨_, rfl⟩ := h
          exact ⟨Grows.refl _, by simpa [columnNames, ht] using hin⟩
        · simp only [Prod.mk.injEq] at h
          obtain ⟨_, rfl⟩ := h
          constructor
          · intro name t1 hn
            by_cases hk : name = pgIdent safeTable
            · subst hk
              rw [ht] at hn
              cases hn
              exact ⟨[(pgIdent colName, pgType)], getTable_putTable_same _ _ _⟩
            · exact ⟨[], by
                simp only [List.append_nil]
                rw [getTable_putTable_other _ _ _ _ hk]
                exact hn⟩
          · simp [columnNames, getTable_putTable_same]

theorem pgExec_addColumn_known (safeTable colName pgType : String) (args : List SqlArg)
    (db : Database) (h : pgIdent colName ∈ columnNames (pgIdent safeTable) db) :
    (pgExec (.addColumn safeTable colName pgType) args db).2 = db := by
  unfold pgExec
  simp only
  cases ht : getTable (pgIdent safeTable) db.tables with
  | none => rfl
  | some t =>
      simp only [columnNames, ht] at h
      simp only
      split
      · rfl
      · rfl

theorem pgExec_ddl_error (stmt : Statement) (args : List SqlArg) (db : Database) (e : String)
    (hs : (∃ st, stmt = .createTable st) ∨ (∃ st c ty, stmt = .addColumn st c ty))
    (h : (pgExec stmt args db).1 = .error e) : (pgExec stmt args db).2 = db := by
  rcases hs with ⟨st, rfl⟩ | ⟨st, c, ty, rfl⟩
  · unfold pgExec at h ⊢
    simp only at h ⊢
    split
    · rfl
    · rename_i hne
      simp only [hne, if_false] at h
      cases ht : getTable (pgIdent st) db.tables with
      | some t => rfl
      | none => simp [ht] at h
  · unfold pgExec at h ⊢
    simp only at h ⊢
    cases ht : getTable (pgIdent st) db.tables with
    | none => rfl
    | some t =>
        simp only [ht] at h
        simp only
        split
        · rfl
        · rename_i hne
          simp only [hne, if_false] at h
          split
          · rfl
          · rename_i hnin
            simp [hnin] at h

/-- One `Exec` on the recording pool over the database: the call is logged with its answer,
and the database either stays as it was, or the statement ran and succeeded. -/
theorem faulty_pg_exec (faults : Faults) (ctx : Context) (stmt : Statement)
    (args : List SqlArg) (db : Database) (log : List PoolEvent)
    (hs : (∃ st, stmt = .createTable st) ∨ (∃ st c ty, stmt = .addColumn st c ty)) :
    ∃ res db1, (faulty faults pgPool).Exec ctx stmt args (db, log)
        = (res, (db1, log ++ [.exec stmt args res]))
      ∧ (db1 = db ∨ ∃ n, res = .ok n ∧ pgExec stmt args db = (.ok n, db1))
      ∧ ((PoolEvent.exec stmt args res).succeeded = true →
          ∃ n, res = .ok n ∧ pgExec stmt args db = (.ok n, db1)) := by
  unfold faulty
  simp only
  cases hf : faults.exec log stmt args with
  | some e =>
      exact ⟨.error e, db, rfl, Or.inl rfl, by simp [PoolEvent.succeeded]⟩
  | none =>
      simp only
      have hpg : pgPool.Exec ctx stmt args db = pgExec stmt args db := rfl
      rw [hpg]
      cases hr : (pgExec stmt args db).1 with
      | error e =>
          have := pgExec_ddl_error stmt args db e hs hr
          exact ⟨.error e, db, by rw [this], Or.inl rfl, by simp [PoolEvent.succeeded]⟩
      | ok n =>
          have heq : pgExec stmt args db = (.ok n, (pgExec stmt args db).2) := by
            rw [← hr]
          exact ⟨.ok n, (pgExec stmt args db).2, rfl, Or.inr ⟨n, rfl, heq⟩,
            fun _ => ⟨n, rfl, heq⟩⟩

theorem faulty_pg_query (faults : Faults) (ctx : Context) (table : String) (db : Database)
    (log : List PoolEvent) :
    ∃ res, (faulty faults pgPool).QueryColumns ctx table (db, log)
        = (res, (db, log ++ [.queryColumns table res]))
      ∧ (∀ cols, res = .ok cols → cols = columnNames table db) := by
  unfold faulty
  simp only
  cases hf : faults.query log table with
  | some e => exact ⟨.error e, rfl, by simp⟩
  | none =>
      simp only [pgPool, columnNames]
      cases ht : getTable table db.tables with
      | some t => exact ⟨_, rfl, by simp⟩
      | none => exact ⟨_, rfl, by simp⟩

theorem ensureColumns_pg (lib : GoLib) (faults : Faults) (ctx : Context)
    (safeTable : String) (existing : List String) (props : List Property) :
    ∀ (db : Database) (log : List PoolEvent),
      ∃ db1 evs,
        ensureColumns lib (faulty faults pgPool) ctx safeTable existing props (db, log)
          = (db1, log ++ evs)
        ∧ Grows db db1
        ∧ ((∀ e ∈ evs, PoolEvent.succeeded e = true) →
            ∀ p ∈ props, p.Name ∈ existing ∨ p.Name = "id"
              ∨ pgIdent (sanitizeIdentifier lib p.Name) ∈ columnNames (pgIdent safeTable) db1)
        ∧ ((∀ p ∈ props, p.Name ∈ existing ∨ p.Name = "id"
              ∨ pgIdent (sanitizeIdentifier lib p.Name) ∈ columnNames (pgIdent safeTable) db) →
            db1 = db) := by
  induction props with
  | nil =>
      intro db log
      exact ⟨db, [], by simp [ensureColumns], Grows.refl _, by simp, fun _ => rfl⟩
  | cons p rest ih =>
      intro db log
      by_cases h1 : p.Name ∈ existing
      · obtain ⟨db1, evs, hrun, hg, hall, hsame⟩ := ih db log
        refine ⟨db1, evs, by simp [ensureColumns, h1, hrun], hg, ?_, ?_⟩
        · intro hs q hq
          rcases List.mem_cons.mp hq with rfl | hq
          · exact Or.inl h1
          · exact hall hs q hq
        · intro hpre
          exact hsame (fun q hq => hpre q (List.mem_cons_of_mem _ hq))
      · by_cases h2 : p.Name = "id"
        · obtain ⟨db1, evs, hrun, hg, hall, hsame⟩ := ih db log
          refine ⟨db1, evs, by simp [ensureColumns, h1, h2, hrun], hg, ?_, ?_⟩
          · intro hs q hq
            rcases List.mem_cons.mp hq with rfl | hq
            · exact Or.inr (Or.inl h2)
            · exact hall hs q hq
          · intro hpre
            exact hsame (fun q hq => hpre q (List.mem_cons_of_mem _ hq))
        · obtain ⟨res, d1, hex, hd1, hok⟩ := faulty_pg_exec faults ctx
            (.addColumn safeTable (sanitizeIdentifier lib p.Name) (FlexibeeTypeToPG p)) [] db log
            (Or.inr ⟨_, _, _, rfl⟩)
          obtain ⟨db1, evs, hrun, hg, hall, hsame⟩ := ih d1
            (log ++ [.exec (.addColumn safeTable (sanitizeIdentifier lib p.Name)
              (FlexibeeTypeToPG p)) [] res])
          have hg1 : Grows db d1 := by
            rcases hd1 with rfl | ⟨n, _, hpg⟩
            · exact Grows.refl _
            · exact (pgExec_addColumn _ _ _ _ _ _ _ hpg).1
          refine ⟨db1, .exec (.addColumn safeTable (sanitizeIdentifier lib p.Name)
              (FlexibeeTypeToPG p)) [] res :: evs, ?_, hg1.trans hg, ?_, ?_⟩
          · simp only [ensureColumns, h1, h2, if_false, hex, hrun]
            simp
          · intro hs q hq
            have hs2 : ∀ e ∈ evs, PoolEvent.succeeded e = true :=
              fun e he => hs e (List.mem_cons_of_mem _ he)
            rcases List.mem_cons.mp hq with rfl | hq
            · obtain ⟨n, _, hpg⟩ := hok (hs _ (List.mem_cons_self _ _))
              exact Or.inr (Or.inr (hg.columnNames _ _
                (pgExec_addColumn _ _ _ _ _ _ _ hpg).2))
            · exact hall hs2 q hq
          · intro hpre
            have hp : pgIdent (sanitizeIdentifier lib p.Name)
                ∈ columnNames (pgIdent safeTable) db := by
              rcases hpre p (List.mem_cons_self _ _) with h | h | h
              · exact absurd h h1
              · exact absurd h h2
              · exact h
            have hd : d1 = db := by
              rcases hd1 with rfl | ⟨n, _, hpg⟩
              · rfl
              · have := pgExec_addColumn_known safeTable (sanitizeIdentifier lib p.Name)
                  (FlexibeeTypeToPG p) [] db hp
                rw [hpg] at this
                exact this
            subst hd
            exact hsame (fun q hq => hpre q (List.mem_cons_of_mem _ hq))

theorem EnsureTable_pg (lib : GoLib) (faults : Faults) (ctx : Context) (table : String)
    (props : List Property) (db : Database) (log : List PoolEvent) :
    ∃ err db1 evs,
      EnsureTable lib (faulty faults pgPool) ctx table props (db, log) = (err, (db1, log ++ evs))
      ∧ Grows db db1
      ∧ ((∀ e ∈ evs, PoolEvent.succeeded e = true) →
          err = none ∧ getTable (pgIdent (sanitizeIdentifier lib table)) db1.tables ≠ none
          ∧ ∀ p ∈ props, p.Name ∈ columnNames table db1 ∨ p.Name = "id"
              ∨ pgIdent (sanitizeIdentifier lib p.Name)
                  ∈ columnNames (pgIdent (sanitizeIdentifier lib table)) db1)
      ∧ (getTable (pgIdent (sanitizeIdentifier lib table)) db.tables ≠ none →
          (∀ p ∈ props, p.Name ∈ columnNames table db ∨ p.Name = "id"
              ∨ pgIdent (sanitizeIdentifier lib p.Name)
                  ∈ columnNames (pgIdent (sanitizeIdentifier lib table)) db) →
          db1 = db) := by
  obtain ⟨res, d1, hex, hd1, hok⟩ := faulty_pg_exec faults ctx
    (.createTable (sanitizeIdentifier lib table)) [] db log (Or.inl ⟨_, rfl⟩)
  have hg1 : Grows db d1 := by
    rcases hd1 with rfl | ⟨n, _, hpg⟩
    · exact Grows.refl _
    · exact (pgExec_createTable _ _ _ _ _ hpg).1
  have hsame1 : getTable (pgIdent (sanitizeIdentifier lib table)) db.tables ≠ none →
      d1 = db := by
    intro hT
    rcases hd1 with rfl | ⟨n, _, hpg⟩
    · rfl
    · exact (pgExec_createTable _ _ _ _ _ hpg).2.2 hT
  cases res with
  | error e =>
      refine ⟨some ("create table " ++ table ++ ": " ++ e), d1,
        [.exec (.createTable (sanitizeIdentifier lib table)) [] (.error e)], ?_, hg1, ?_, ?_⟩
      · simp only [EnsureTable, hex]
      · intro hs
        have := hs _ (List.mem_singleton.mpr rfl)
        simp [PoolEvent.succeeded] at this
      · intro hT _
        exact hsame1 hT
  | ok n =>
      obtain ⟨qres, hq, hcols⟩ := faulty_pg_query faults ctx table d1
        (log ++ [.exec (.createTable (sanitizeIdentifier lib table)) [] (.ok n)])
      cases qres with
      | error e =>
          refine ⟨some ("get columns for " ++ table ++ ": " ++ e), d1,
            [.exec (.createTable (sanitizeIdentifier lib table)) [] (.ok n),
              .queryColumns table (.error e)], ?_, hg1, ?_, ?_⟩
          · simp only [EnsureTable, hex, getExistingColumns, hq, List.append_assoc]
            rfl
          · intro hs
            have := hs (.queryColumns table (.error e)) (by simp)
            simp [PoolEvent.succeeded] at this
          · intro hT _
            exact hsame1 hT
      | ok existing =>
          have hexi : existing = columnNames table d1 := hcols existing rfl
          obtain ⟨db1, evs, hrun, hg, hall, hsame⟩ := ensureColumns_pg lib faults ctx
            (sanitizeIdentifier lib table) existing props d1
            ((log ++ [.exec (.createTable (sanitizeIdentifier lib table)) [] (.ok n)])
              ++ [.queryColumns table (.ok existing)])
          refine ⟨none, db1, .exec (.createTable (sanitizeIdentifier lib table)) [] (.ok n)
            :: .queryColumns table (.ok existing) :: evs, ?_, hg1.trans hg, ?_, ?_⟩
          · simp only [EnsureTable, hex, getExistingColumns, hq, hrun]
            simp
          · intro hs
            obtain ⟨m, _, hpg⟩ := hok (hs _ (List.mem_cons_self _ _))
            have hT1 := (pgExec_createTable _ _ _ _ _ hpg).2.1
            refine ⟨rfl, ?_, ?_⟩
            · cases hT : getTable (pgIdent (sanitizeIdentifier lib table)) d1.tables with
              | none => exact absurd hT hT1
              | some t =>
                  obtain ⟨extra, he⟩ := hg _ t hT
                  simp [he]
            · intro p hp
              have hs2 : ∀ e ∈ evs, PoolEvent.succeeded e = true :=
                fun e he => hs e (List.mem_cons_of_mem _ (List.mem_cons_of_mem _ he))
              rcases hall hs2 p hp with h | h | h
              · exact Or.inl (hg.columnNames _ _ (hexi ▸ h))
              · exact Or.inr (Or.inl h)
              · exact Or.inr (Or.inr h)
          · intro hT hpre
            have hd : d1 = db := hsame1 hT
            subst hd
            exact hsame (fun p hp => by
              rcases hpre p hp with h | h | h
              · exact Or.inl (hexi ▸ h)
              · exact Or.inr (Or.inl h)
              · exact Or.inr (Or.inr h))

/-- Claim C20. Over the database, with any failures occurring, every run of `EnsureTable`
with any field set only adds columns: each table that was there is still there, and each of
its columns is still a column of it with the same type. And when `EnsureTable` is run a
second time with the same field set and every statement of the two runs (the table
creation, the column listing and each column addition) succeeds, the second run returns no
error and leaves the database, hence the columns of the table and their types, exactly as
the first run left it. -/
theorem EnsureTable_idempotent (lib : GoLib) (faults : Faults) (ctx : Context)
    (table : String) (props : List Property) (db : Database) (log : List PoolEvent) :
    (∀ name t, getTable name db.tables = some t →
      ∃ t1, getTable name
          (EnsureTable lib (faulty faults pgPool) ctx table props (db, log)).2.1.tables = some t1
        ∧ ∀ c ∈ t.columns, c ∈ t1.columns)
    ∧ ((∀ e ∈ ((EnsureTable lib (faulty faults pgPool) ctx table props
            (EnsureTable lib (faulty faults pgPool) ctx table props (db, log)).2).2.2).drop
              log.length,
          PoolEvent.succeeded e = true) →
        (EnsureTable lib (faulty faults pgPool) ctx table props
            (EnsureTable lib (faulty faults pgPool) ctx table props (db, log)).2).1 = none
        ∧ (EnsureTable lib (faulty faults pgPool) ctx table props
            (EnsureTable lib (faulty faults pgPool) ctx table props (db, log)).2).2.1
          = (EnsureTable lib (faulty faults pgPool) ctx table props (db, log)).2.1) := by
  obtain ⟨err1, db1, evs1, hrun1, hg1, hall1, _⟩ :=
    EnsureTable_pg lib faults ctx table props db log
  obtain ⟨err2, db2, evs2, hrun2, _, hall2, hsame2⟩ :=
    EnsureTable_pg lib faults ctx table props db1 (log ++ evs1)
  rw [hrun1]
  simp only []
  rw [hrun2]
  simp only []
  constructor
  · intro name t ht
    obtain ⟨extra, he⟩ := hg1 name t ht
    exact ⟨_, he, fun c hc => List.mem_append_left _ hc⟩
  · intro hs
    have hs1 : ∀ e ∈ evs1 ++ evs2, PoolEvent.succeeded e = true := by
      intro e he
      apply hs
      simpa [List.append_assoc] using he
    obtain ⟨_, hT, hcols⟩ := hall1 (fun e he => hs1 e (List.mem_append_left _ he))
    obtain ⟨herr, _, _⟩ := hall2 (fun e he => hs1 e (List.mem_append_right _ he))
    exact ⟨herr, hsame2 hT hcols⟩

/-- Witness for C20: on an empty database and without failures, the first run for
`flexibee_test` with the sample fields creates six columns, every statement of the two runs
succeeds, and the second run returns no error and changes nothing. -/
theorem EnsureTable_idempotent_witness :
    (∀ e ∈ ((EnsureTable sampleLib (faulty noFaults pgPool) .background "flexibee_test"
          sampleProps
          (EnsureTable sampleLib (faulty noFaults pgPool) .background "flexibee_test"
            sampleProps (emptyDb, [])).2).2.2).drop 0,
        PoolEvent.succeeded e = true)
    ∧ (EnsureTable sampleLib (faulty noFaults pgPool) .background "flexibee_test" sampleProps
        (emptyDb, [])).2.1
      = ⟨[("flexibee_test", ⟨[("id", "BIGINT"), ("raw_data", "JSONB"),
          ("synced_at", "TIMESTAMPTZ"), ("kod", "TEXT"), ("cena", "NUMERIC"),
          ("last_update", "TIMESTAMPTZ")], []⟩)], 50⟩
    ∧ (EnsureTable sampleLib (faulty noFaults pgPool) .background "flexibee_test" sampleProps
          (EnsureTable sampleLib (faulty noFaults pgPool) .background "flexibee_test"
            sampleProps (emptyDb, [])).2).1 = none
    ∧ (EnsureTable sampleLib (faulty noFaults pgPool) .background "flexibee_test" sampleProps
          (EnsureTable sampleLib (faulty noFaults pgPool) .background "flexibee_test"
            sampleProps (emptyDb, [])).2).2.1
        = (EnsureTable sampleLib (faulty noFaults pgPool) .background "flexibee_test"
            sampleProps (emptyDb, [])).2.1 :=
  ⟨by decide, by decide,
    (EnsureTable_idempotent sampleLib noFaults .background "flexibee_test" sampleProps emptyDb
      []).2 (by decide)⟩

/-- C16, the code at the failing input. `EnsureTable` without field descriptors leaves
`flexibee_test` with the base columns only. `UpsertRecords` then lists the field `kod` of the
record as a column of its `INSERT`, the database rejects the statement because the table has
no such column, and the record is skipped: the count is 0 and the table stays empty, so the
payload column does not carry the record either. The same record without the field is
stored. -/
theorem UpsertRecords_unknown_field_rejected :
    EnsureTable sampleLib pgPool .background "flexibee_test" [] emptyDb = (none, baseColumnsDb)
    ∧ execStatements (Store.UpsertRecords sampleLib (faulty noFaults pgPool) .background
          "flexibee_test" [recordWithKod] "id" (baseColumnsDb, [])).2.2
        = [.upsert (sanitizeIdentifier sampleLib "flexibee_test")
            [sanitizeIdentifier sampleLib "id", sanitizeIdentifier sampleLib "raw_data",
              sanitizeIdentifier sampleLib "synced_at", sanitizeIdentifier sampleLib "kod"]
            ["$1", "$2", "NOW()", "$3"] (sanitizeIdentifier sampleLib "id")
            [(sanitizeIdentifier sampleLib "raw_data", "$2"),
              (sanitizeIdentifier sampleLib "synced_at", "NOW()"),
              (sanitizeIdentifier sampleLib "kod", "$3")]]
    ∧ (execResults (Store.UpsertRecords sampleLib (faulty noFaults pgPool) .background
          "flexibee_test" [recordWithKod] "id" (baseColumnsDb, [])).2.2).map isOk = [false]
    ∧ Store.UpsertRecords sampleLib pgPool .background "flexibee_test" [recordWithKod] "id"
          baseColumnsDb = ((0, none), baseColumnsDb)
    ∧ Store.UpsertRecords sampleLib pgPool .background "flexibee_test" [[("id", .num 1)]] "id"
          baseColumnsDb
        = ((1, none), ⟨[("flexibee_test", ⟨baseColumns,
            [[("id", .val (.num 1)), ("raw_data", .json "json of 1 fields"),
              ("synced_at", .time 50)]]⟩)], 50⟩) := by
  decide

theorem ensureColumns_faulty {σ : Type} (lib : GoLib) (faults : Faults) (pool : Pool σ)
    (ctx : Context) (table : String) (existing : List String) (props : List Property) :
    ∀ s : σ × List PoolEvent,
      ∃ results : List (Except String Int),
        results.length = (columnsToAdd existing props).length
        ∧ (ensureColumns lib (faulty faults pool) ctx (sanitizeIdentifier lib table) existing
              props s).2
            = s.2 ++ List.zipWith (fun p res => PoolEvent.exec (addColumnStatement lib table p)
                [] res) (columnsToAdd existing props) results := by
  induction props with
  | nil => intro s; exact ⟨[], by simp [columnsToAdd, ensureColumns]⟩
  | cons p rest ih =>
      intro s
      by_cases h1 : p.Name ∈ existing
      · obtain ⟨results, hl, hrun⟩ := ih s
        refine ⟨results, ?_, ?_⟩
        · simpa [columnsToAdd, h1] using hl
        · simpa [columnsToAdd, ensureColumns, h1] using hrun
      · by_cases h2 : p.Name = "id"
        · obtain ⟨results, hl, hrun⟩ := ih s
          refine ⟨results, ?_, ?_⟩
          · simpa [columnsToAdd, h1, h2] using hl
          · simpa [columnsToAdd, ensureColumns, h1, h2] using hrun
        · have hlog := faulty_exec_log faults pool ctx (addColumnStatement lib table p) [] s
          obtain ⟨results, hl, hrun⟩ := ih
            ((faulty faults pool).Exec ctx (addColumnStatement lib table p) [] s).2
          have hcols : columnsToAdd existing (p :: rest) = p :: columnsToAdd existing rest := by
            simp [columnsToAdd, h1, h2]
          refine ⟨((faulty faults pool).Exec ctx (addColumnStatement lib table p) [] s).1
            :: results, ?_, ?_⟩
          · simp [hcols, hl]
          · have hstep : ensureColumns lib (faulty faults pool) ctx (sanitizeIdentifier lib table)
                existing (p :: rest) s
                = ensureColumns lib (faulty faults pool) ctx (sanitizeIdentifier lib table)
                    existing rest
                    ((faulty faults pool).Exec ctx (addColumnStatement lib table p) [] s).2 := by
              simp [ensureColumns, h1, h2, addColumnStatement]
            rw [hstep, hrun, hlog, hcols]
            simp

/-- Claim C21. Over any pool on which any failures occur, a run of `EnsureTable` is one of
three. The creation of the table fails, and the run returns "create table ..." having done
nothing else. Or the listing of the columns fails, and the run returns "get columns for
...". Or both succeed, and then the run attempts, in the order of the fields, one column
addition for every field that is not in the listing and is not named "id", whatever the
earlier additions answered, and returns no error. So a failed addition neither stops the
later ones nor makes the run fail, and an error is returned only in the first two cases. -/
theorem EnsureTable_column_failures {σ : Type} (lib : GoLib) (faults : Faults)
    (pool : Pool σ) (ctx : Context) (table : String) (props : List Property)
    (s : σ × List PoolEvent) :
    ∃ evs : List PoolEvent,
      (EnsureTable lib (faulty faults pool) ctx table props s).2.2 = s.2 ++ evs
      ∧ ((∃ e, evs = [.exec (.createTable (sanitizeIdentifier lib table)) [] (.error e)]
            ∧ (EnsureTable lib (faulty faults pool) ctx table props s).1
                = some ("create table " ++ table ++ ": " ++ e))
        ∨ (∃ n e, evs = [.exec (.createTable (sanitizeIdentifier lib table)) [] (.ok n),
                .queryColumns table (.error e)]
            ∧ (EnsureTable lib (faulty faults pool) ctx table props s).1
                = some ("get columns for " ++ table ++ ": " ++ e))
        ∨ (∃ (n : Int) (existing : List String) (results : List (Except String Int)),
            results.length = (columnsToAdd existing props).length
            ∧ evs = .exec (.createTable (sanitizeIdentifier lib table)) [] (.ok n)
                :: .queryColumns table (.ok existing)
                :: List.zipWith (fun p res => PoolEvent.exec (addColumnStatement lib table p)
                    [] res) (columnsToAdd existing props) results
            ∧ (EnsureTable lib (faulty faults pool) ctx table props s).1 = none)) := by
  have hlog := faulty_exec_log faults pool ctx (.createTable (sanitizeIdentifier lib table)) [] s
  generalize hr : (faulty faults pool).Exec ctx (.createTable (sanitizeIdentifier lib table))
    [] s = r at hlog
  obtain ⟨res, s1⟩ := r
  simp only at hlog
  cases res with
  | error e =>
      refine ⟨[.exec (.createTable (sanitizeIdentifier lib table)) [] (.error e)], ?_,
        Or.inl ⟨e, rfl, ?_⟩⟩
      · simp only [EnsureTable, hr, hlog]
      · simp only [EnsureTable, hr]
  | ok n =>
      have hqlog := faulty_query_log faults pool ctx table s1
      generalize hq : (faulty faults pool).QueryColumns ctx table s1 = q at hqlog
      obtain ⟨qres, s2⟩ := q
      simp only at hqlog
      cases qres with
      | error e =>
          refine ⟨[.exec (.createTable (sanitizeIdentifier lib table)) [] (.ok n),
            .queryColumns table (.error e)], ?_, Or.inr (Or.inl ⟨n, e, rfl, ?_⟩)⟩
          · simp only [EnsureTable, hr, getExistingColumns, hq, hqlog, hlog]
            simp
          · simp only [EnsureTable, hr, getExistingColumns, hq]
      | ok existing =>
          obtain ⟨results, hl, hrun⟩ :=
            ensureColumns_faulty lib faults pool ctx table existing props s2
          refine ⟨.exec (.createTable (sanitizeIdentifier lib table)) [] (.ok n)
            :: .queryColumns table (.ok existing)
            :: List.zipWith (fun p res => PoolEvent.exec (addColumnStatement lib table p)
                [] res) (columnsToAdd existing props) results, ?_,
            Or.inr (Or.inr ⟨n, existing, results, hl, rfl, ?_⟩)⟩
          · simp only [EnsureTable, hr, getExistingColumns, hq, hrun, hqlog, hlog]
            simp
          · simp only [EnsureTable, hr, getExistingColumns, hq]

/-- An instance of C21 on the database: the addition of the column for `kod` fails, the
additions for `cena` and `last-update` are still attempted and succeed, and the run returns
no error. -/
theorem EnsureTable_failed_column_example :
    EnsureTable sampleLib (faulty kodColumnFails pgPool) .background "flexibee_test" sampleProps
        (emptyDb, [])
      = (none,
          (⟨[("flexibee_test", ⟨baseColumns ++ [("cena", "NUMERIC"),
              ("last_update", "TIMESTAMPTZ")], []⟩)], 50⟩,
            [.exec (.createTable (sanitizeIdentifier sampleLib "flexibee_test")) [] (.ok 0),
             .queryColumns "flexibee_test" (.ok ["id", "raw_data", "synced_at"]),
             .exec (addColumnStatement sampleLib "flexibee_test"
                ⟨"kod", "string", 20, true, false⟩) [] (.error "permission denied"),
             .exec (addColumnStatement sampleLib "flexibee_test"
                ⟨"cena", "numeric", 0, false, false⟩) [] (.ok 0),
             .exec (addColumnStatement sampleLib "flexibee_test"
                ⟨"last-update", "datetime", 0, false, false⟩) [] (.ok 0)])) := by
  decide

/-- Claim C22. `FlexibeeTypeToPG` is a total function of the field descriptor: "integer"
gives BIGINT, "numeric" NUMERIC, "date" DATE, "datetime" TIMESTAMPTZ, "logic" BOOLEAN, and
every other type text, among them "string", "relation", "unknown" and the empty text, gives
TEXT. The other components of the descriptor play no part. -/
theorem FlexibeeTypeToPG_mapping (p : Property) :
    (p.Type_ = "integer" → FlexibeeTypeToPG p = "BIGINT")
    ∧ (p.Type_ = "numeric" → FlexibeeTypeToPG p = "NUMERIC")
    ∧ (p.Type_ = "date" → FlexibeeTypeToPG p = "DATE")
    ∧ (p.Type_ = "datetime" → FlexibeeTypeToPG p = "TIMESTAMPTZ")
    ∧ (p.Type_ = "logic" → FlexibeeTypeToPG p = "BOOLEAN")
    ∧ (p.Type_ ∉ ["integer", "numeric", "date", "datetime", "logic"] →
        FlexibeeTypeToPG p = "TEXT")
    ∧ FlexibeeTypeToPG p ∈ ["BIGINT", "NUMERIC", "DATE", "TIMESTAMPTZ", "BOOLEAN", "TEXT"] := by
  refine ⟨fun h => ?_, fun h => ?_, fun h => ?_, fun h => ?_, fun h => ?_, fun h => ?_, ?_⟩
  · simp [FlexibeeTypeToPG, h]
  · simp [FlexibeeTypeToPG, h]
  · simp [FlexibeeTypeToPG, h]
  · simp [FlexibeeTypeToPG, h]
  · simp [FlexibeeTypeToPG, h]
  · simp only [List.mem_cons, List.mem_singleton, List.not_mem_nil, or_false, not_or] at h
    obtain ⟨h1, h2, h3, h4, h5⟩ := h
    unfold FlexibeeTypeToPG
    simp only [h1, h2, h3, h4, h5, if_false]
    split_ifs <;> rfl
  · unfold FlexibeeTypeToPG
    split_ifs <;> simp

/-- Witness for C22: the cases of `TestFlexibeeTypeToPG` and the empty type text. -/
theorem FlexibeeTypeToPG_mapping_witness :
    FlexibeeTypeToPG ⟨"a", "integer", 0, false, false⟩ = "BIGINT"
    ∧ FlexibeeTypeToPG ⟨"a", "numeric", 0, false, false⟩ = "NUMERIC"
    ∧ FlexibeeTypeToPG ⟨"a", "date", 0, false, false⟩ = "DATE"
    ∧ FlexibeeTypeToPG ⟨"a", "datetime", 0, false, false⟩ = "TIMESTAMPTZ"
    ∧ FlexibeeTypeToPG ⟨"a", "logic", 0, false, false⟩ = "BOOLEAN"
    ∧ FlexibeeTypeToPG ⟨"a", "string", 0, false, false⟩ = "TEXT"
    ∧ FlexibeeTypeToPG ⟨"a", "relation", 0, false, false⟩ = "TEXT"
    ∧ FlexibeeTypeToPG ⟨"a", "unknown", 0, false, false⟩ = "TEXT"
    ∧ FlexibeeTypeToPG ⟨"a", "", 0, false, false⟩ = "TEXT" :=
  ⟨(FlexibeeTypeToPG_mapping ⟨"a", "integer", 0, false, false⟩).1 rfl,
    (FlexibeeTypeToPG_mapping ⟨"a", "numeric", 0, false, false⟩).2.1 rfl,
    (FlexibeeTypeToPG_mapping ⟨"a", "date", 0, false, false⟩).2.2.1 rfl,
    (FlexibeeTypeToPG_mapping ⟨"a", "datetime", 0, false, false⟩).2.2.2.1 rfl,
    (FlexibeeTypeToPG_mapping ⟨"a", "logic", 0, false, false⟩).2.2.2.2.1 rfl,
    (FlexibeeTypeToPG_mapping ⟨"a", "string", 0, false, false⟩).2.2.2.2.2.1 (by decide),
    (FlexibeeTypeToPG_mapping ⟨"a", "relation", 0, false, false⟩).2.2.2.2.2.1 (by decide),
    (FlexibeeTypeToPG_mapping ⟨"a", "unknown", 0, false, false⟩).2.2.2.2.2.1 (by decide),
    (FlexibeeTypeToPG_mapping ⟨"a", "", 0, false, false⟩).2.2.2.2.2.1 (by decide)⟩

theorem hexDigit_plain (n : Nat) : hexDigit n ≠ dquote ∧ hexDigit n ≠ '-' := by
  have h : ∀ m, m < 16 → Nat.digitChar m ≠ dquote ∧ Nat.digitChar m ≠ '-' := by decide
  exact h (n % 16) (Nat.mod_lt _ (by decide))

theorem hexDigits_plain (w n : Nat) (x : Char) (hx : x ∈ hexDigits w n) :
    x ≠ dquote ∧ x ≠ '-' := by
  simp only [hexDigits, List.mem_map] at hx
  obtain ⟨i, -, rfl⟩ := hx
  exact hexDigit_plain _

/-- The three forms of what `%q` writes for a rune: a backslash and the rune itself, for the
double quote and the backslash; the rune itself, for a printable one; and otherwise a
backslash, a letter, and hexadecimal digits if any. -/
theorem appendEscapedRune_shape (lib : GoLib) (c : Char) :
    ((c = dquote ∨ c = backslash) ∧ appendEscapedRune lib c = [backslash, c])
    ∨ (¬ (c = dquote ∨ c = backslash) ∧ IsPrint lib c = true ∧ appendEscapedRune lib c = [c])
    ∨ (¬ (c = dquote ∨ c = backslash) ∧ ¬ IsPrint lib c = true
        ∧ ∃ x rest, appendEscapedRune lib c = backslash :: x :: rest
          ∧ (x ≠ dquote ∧ x ≠ '-') ∧ ∀ y ∈ rest, y ≠ dquote ∧ y ≠ '-') := by
  by_cases h1 : c = dquote ∨ c = backslash
  · exact Or.inl ⟨h1, by unfold appendEscapedRune; rw [if_pos h1]⟩
  · by_cases h2 : IsPrint lib c = true
    · exact Or.inr (Or.inl ⟨h1, h2, by unfold appendEscapedRune; rw [if_neg h1, if_pos h2]⟩)
    · refine Or.inr (Or.inr ⟨h1, h2, ?_⟩)
      have hnil : ∀ y ∈ ([] : List Char), y ≠ dquote ∧ y ≠ '-' := fun y hy => by cases hy
      unfold appendEscapedRune
      rw [if_neg h1, if_neg h2]
      by_cases h3 : c.toNat = 7
      · rw [if_pos h3]; exact ⟨'a', [], rfl, by decide, hnil⟩
      rw [if_neg h3]
      by_cases h4 : c.toNat = 8
      · rw [if_pos h4]; exact ⟨'b', [], rfl, by decide, hnil⟩
      rw [if_neg h4]
      by_cases h5 : c.toNat = 12
      · rw [if_pos h5]; exact ⟨'f', [], rfl, by decide, hnil⟩
      rw [if_neg h5]
      by_cases h6 : c.toNat = 10
      · rw [if_pos h6]; exact ⟨'n', [], rfl, by decide, hnil⟩
      rw [if_neg h6]
      by_cases h7 : c.toNat = 13
      · rw [if_pos h7]; exact ⟨'r', [], rfl, by decide, hnil⟩
      rw [if_neg h7]
      by_cases h8 : c.toNat = 9
      · rw [if_pos h8]; exact ⟨'t', [], rfl, by decide, hnil⟩
      rw [if_neg h8]
      by_cases h9 : c.toNat = 11
      · rw [if_pos h9]; exact ⟨'v', [], rfl, by decide, hnil⟩
      rw [if_neg h9]
      by_cases h10 : c.toNat < 0x20 ∨ c.toNat = 0x7F
      · rw [if_pos h10]
        exact ⟨'x', hexDigits 2 c.toNat, rfl, by decide, hexDigits_plain _ _⟩
      rw [if_neg h10]
      by_cases h11 : c.toNat < 0x10000
      · rw [if_pos h11]
        exact ⟨'u', hexDigits 4 c.toNat, rfl, by decide, hexDigits_plain _ _⟩
      rw [if_neg h11]
      exact ⟨'U', hexDigits 8 c.toNat, rfl, by decide, hexDigits_plain _ _⟩

theorem appendEscapedRune_plain (lib : GoLib) (c : Char) (hq : c ≠ dquote) (hh : c ≠ '-')
    (x : Char) (hx : x ∈ appendEscapedRune lib c) : x ≠ dquote ∧ x ≠ '-' := by
  have hb : backslash ≠ dquote ∧ backslash ≠ '-' := by decide
  rcases appendEscapedRune_shape lib c with ⟨-, h⟩ | ⟨-, -, h⟩ | ⟨-, -, y, rest, h, hy, hrest⟩
  · rw [h] at hx
    simp only [List.mem_cons, List.mem_singleton, List.not_mem_nil, or_false] at hx
    rcases hx with rfl | rfl
    · exact hb
    · exact ⟨hq, hh⟩
  · rw [h] at hx
    simp only [List.mem_singleton] at hx
    subst hx
    exact ⟨hq, hh⟩
  · rw [h] at hx
    simp only [List.mem_cons] at hx
    rcases hx with rfl | rfl | hx
    · exact hb
    · exact hy
    · exact hrest _ hx

theorem cleanedName_plain (name : String) (c : Char) (hc : c ∈ cleanedName name) :
    c ≠ dquote ∧ c ≠ '-' := by
  simp only [cleanedName, List.mem_map, List.mem_filter] at hc
  obtain ⟨d, ⟨-, hd⟩, rfl⟩ := hc
  have hd1 : d ≠ dquote := by simpa using hd
  by_cases h : d = '-'
  · simp only [h, if_true]
    decide
  · simp only [h, if_false]
    exact ⟨hd1, h⟩

theorem sanitizeIdentifier_data (lib : GoLib) (name : String) :
    (sanitizeIdentifier lib name).data
      = dquote :: ((cleanedName name).flatMap (appendEscapedRune lib) ++ [dquote]) := rfl

/-- Claim C23. For every input text and whatever the table of printable runes, the result
of `sanitizeIdentifier` is a double quote, a body, and a double quote, and the body contains
no double quote and no hyphen: the only double quotes of the result are its first and its
last character, so the quoting opened by the first one is closed by the last one and by no
character of the name. -/
theorem sanitizeIdentifier_quoted (lib : GoLib) (name : String) :
    ∃ body : List Char,
      (sanitizeIdentifier lib name).data = dquote :: (body ++ [dquote])
      ∧ dquote ∉ body ∧ '-' ∉ body
      ∧ (sanitizeIdentifier lib name).data.head? = some dquote
      ∧ (sanitizeIdentifier lib name).data.getLast? = some dquote := by
  refine ⟨(cleanedName name).flatMap (appendEscapedRune lib), sanitizeIdentifier_data lib name,
    ?_, ?_, ?_, ?_⟩
  · intro h
    obtain ⟨c, hc, hx⟩ := List.mem_flatMap.mp h
    have hp := cleanedName_plain name c hc
    exact (appendEscapedRune_plain lib c hp.1 hp.2 _ hx).1 rfl
  · intro h
    obtain ⟨c, hc, hx⟩ := List.mem_flatMap.mp h
    have hp := cleanedName_plain name c hc
    exact (appendEscapedRune_plain lib c hp.1 hp.2 _ hx).2 rfl
  · rw [sanitizeIdentifier_data]; rfl
  · rw [sanitizeIdentifier_data]
    rw [← List.cons_append, List.getLast?_append]
    simp

theorem appendEscapedRune_length (lib : GoLib) (c : Char) :
    1 ≤ (appendEscapedRune lib c).length := by
  rcases appendEscapedRune_shape lib c with ⟨-, h⟩ | ⟨-, -, h⟩ | ⟨-, -, y, rest, h, -, -⟩
  all_goals (rw [h]; simp)

theorem appendEscapedRune_self_iff (lib : GoLib) (c : Char) :
    appendEscapedRune lib c = [c] ↔ c ≠ dquote ∧ c ≠ backslash ∧ IsPrint lib c = true := by
  rcases appendEscapedRune_shape lib c with ⟨h1, h⟩ | ⟨h1, h2, h⟩ | ⟨h1, h2, y, rest, h, -, -⟩
  · rw [h]
    constructor
    · intro h3
      simp at h3
    · rintro ⟨h3, h4, -⟩
      rcases h1 with h1 | h1
      · exact absurd h1 h3
      · exact absurd h1 h4
  · rw [h]
    simp only [true_iff]
    exact ⟨fun hq => h1 (Or.inl hq), fun hq => h1 (Or.inr hq), h2⟩
  · rw [h]
    constructor
    · intro h3
      simp at h3
    · rintro ⟨-, -, h3⟩
      exact absurd h3 h2

theorem flatMap_eq_self_iff (f : Char → List Char) (hf : ∀ c, 1 ≤ (f c).length)
    (l : List Char) : l.flatMap f = l ↔ ∀ c ∈ l, f c = [c] := by
  have hlen : ∀ l : List Char, l.length ≤ (l.flatMap f).length := by
    intro l
    induction l with
    | nil => simp
    | cons c l ih =>
        have := hf c
        simp only [List.flatMap_cons, List.length_append, List.length_cons]
        omega
  induction l with
  | nil => simp
  | cons c l ih =>
      simp only [List.flatMap_cons, List.mem_cons, forall_eq_or_imp]
      constructor
      · intro h
        have h1 := congrArg List.length h
        simp only [List.length_append, List.length_cons] at h1
        have h2 := hf c
        have h3 := hlen l
        have h4 : (f c).length = 1 := by omega
        obtain ⟨x, hx⟩ := List.length_eq_one.mp h4
        rw [hx] at h
        simp only [List.singleton_append, List.cons.injEq] at h
        exact ⟨by rw [hx, h.1], ih.mp h.2⟩
      · rintro ⟨h1, h2⟩
        rw [h1, ih.mpr h2]
        rfl

/-- C24, counterexample. For the name made of `a`, a backslash and `b`, `sanitizeIdentifier`
returns the quoted text with the backslash doubled, which is not the name between two double
quotes; and for a name with a line feed it returns a backslash and `n` in its place. -/
theorem sanitizeIdentifier_wraps_counterexample :
    sanitizeIdentifier sampleLib backslashName
        = String.mk [dquote, 'a', backslash, backslash, 'b', dquote]
    ∧ wrappedIdentifier backslashName = String.mk [dquote, 'a', backslash, 'b', dquote]
    ∧ sanitizeIdentifier sampleLib backslashName ≠ wrappedIdentifier backslashName
    ∧ sanitizeIdentifier sampleLib lineFeedName
        = String.mk [dquote, 'a', backslash, 'n', 'b', dquote] := by
  decide

/-- C24, amended. For every name, `sanitizeIdentifier` returns a double quote, then for each
character of the name with the double quotes removed and the hyphens replaced by underscores
what Go's `%q` writes for it, then a closing double quote. The result is exactly the cleaned
name between two double quotes if and only if every character of the name other than a
double quote is printable (`strconv.IsPrint`) and is not a backslash; a backslash or a
non-printable character appears as its Go escape sequence. -/
theorem sanitizeIdentifier_wraps (lib : GoLib) (name : String) :
    (sanitizeIdentifier lib name).data
        = dquote :: ((cleanedName name).flatMap (appendEscapedRune lib) ++ [dquote])
    ∧ (sanitizeIdentifier lib name = wrappedIdentifier name
        ↔ ∀ c ∈ name.data, c ≠ dquote → c ≠ backslash ∧ IsPrint lib c = true) := by
  refine ⟨rfl, ?_⟩
  have hund : '_' ≠ dquote ∧ '_' ≠ backslash ∧ IsPrint lib '_' = true := by
    refine ⟨by decide, by decide, ?_⟩
    simp [IsPrint]
  rw [String.ext_iff, sanitizeIdentifier_data]
  simp only [wrappedIdentifier, List.cons.injEq, true_and, List.append_cancel_right_eq]
  rw [flatMap_eq_self_iff _ (appendEscapedRune_length lib)]
  simp only [appendEscapedRune_self_iff]
  constructor
  · intro h c hc hq
    by_cases hh : c = '-'
    · subst hh
      refine ⟨by decide, ?_⟩
      simp [IsPrint]
    · have hmem : c ∈ cleanedName name := by
        simp only [cleanedName, List.mem_map, List.mem_filter]
        exact ⟨c, ⟨hc, by simpa using hq⟩, by simp [hh]⟩
      exact (h c hmem).2
  · intro h c hc
    simp only [cleanedName, List.mem_map, List.mem_filter] at hc
    obtain ⟨d, ⟨hd, hq⟩, rfl⟩ := hc
    have hq1 : d ≠ dquote := by simpa using hq
    by_cases hh : d = '-'
    · simp only [hh, if_true]
      exact hund
    · simp only [hh, if_false]
      exact ⟨hq1, h d hd hq1⟩

/-- Witness for C24 (amended): the three cases of `TestSanitizeIdentifier`, whose characters
are letters, hyphens and underscores. -/
theorem sanitizeIdentifier_wraps_witness :
    sanitizeIdentifier sampleLib "simple" = String.mk (dquote :: ("simple".data ++ [dquote]))
    ∧ sanitizeIdentifier sampleLib "with-hyphen"
        = String.mk (dquote :: ("with_hyphen".data ++ [dquote]))
    ∧ sanitizeIdentifier sampleLib "already_underscore"
        = String.mk (dquote :: ("already_underscore".data ++ [dquote])) :=
  ⟨((sanitizeIdentifier_wraps sampleLib "simple").2.mpr (by decide)).trans (by decide),
    ((sanitizeIdentifier_wraps sampleLib "with-hyphen").2.mpr (by decide)).trans (by decide),
    ((sanitizeIdentifier_wraps sampleLib "already_underscore").2.mpr (by decide)).trans
      (by decide)⟩

theorem upsertFields_spec (lib : GoLib) (primaryKey : String) (fields : List (String × Value)) :
    ∀ (argIdx : Nat) (p : UpsertParts),
      (upsertFields lib primaryKey fields argIdx p).cols
          = p.cols ++ (nonKeyFields primaryKey fields).map (fun kv => sanitizeIdentifier lib kv.1)
      ∧ (upsertFields lib primaryKey fields argIdx p).placeholders
          = p.placeholders ++ (List.range (nonKeyFields primaryKey fields).length).map
              (fun i => "$" ++ toString (argIdx + i))
      ∧ (upsertFields lib primaryKey fields argIdx p).updates
          = p.updates
            ++ ((nonKeyFields primaryKey fields).map (fun kv => sanitizeIdentifier lib kv.1)).zip
                ((List.range (nonKeyFields primaryKey fields).length).map
                  (fun i => "$" ++ toString (argIdx + i)))
      ∧ (upsertFields lib primaryKey fields argIdx p).args
          = p.args ++ (nonKeyFields primaryKey fields).map (fun kv => SqlArg.val kv.2) := by
  induction fields with
  | nil => intro argIdx p; simp [upsertFields, nonKeyFields]
  | cons kv rest ih =>
      intro argIdx p
      obtain ⟨k, v⟩ := kv
      by_cases hk : k = primaryKey
      · have hnk : nonKeyFields primaryKey ((k, v) :: rest) = nonKeyFields primaryKey rest := by
          simp [nonKeyFields, hk]
        rw [hnk]
        simpa [upsertFields, hk] using ih argIdx p
      · have hnk : nonKeyFields primaryKey ((k, v) :: rest)
            = (k, v) :: nonKeyFields primaryKey rest := by
          simp [nonKeyFields, hk]
        have hrange : ∀ n : Nat, (List.range (n + 1)).map (fun i => "$" ++ toString (argIdx + i))
            = ("$" ++ toString argIdx)
              :: (List.range n).map (fun i => "$" ++ toString (argIdx + 1 + i)) := by
          intro n
          rw [List.range_succ_eq_map]
          simp only [List.map_cons, List.map_map, Nat.add_zero, List.cons.injEq, true_and]
          apply List.map_congr_left
          intro i _
          simp only [Function.comp, Nat.succ_eq_add_one]
          rw [show argIdx + (i + 1) = argIdx + 1 + i by omega]
        obtain ⟨h1, h2, h3, h4⟩ := ih (argIdx + 1)
          ⟨p.cols ++ [sanitizeIdentifier lib k],
            p.placeholders ++ ["$" ++ toString argIdx],
            p.updates ++ [(sanitizeIdentifier lib k, "$" ++ toString argIdx)],
            p.args ++ [.val v]⟩
        rw [hnk]
        simp only [upsertFields, hk, if_false, h1, h2, h3, h4, List.length_cons, hrange]
        simp

/-- Claim C28. For every record that serialises and contains the primary-key field, the
write `UpsertRecords` attempts is the statement with the column list: primary-key column,
`raw_data`, `synced_at`, then one column for each other field of the record; with the value
list `$1`, `$2`, `NOW()`, then `$3`, `$4`, ... for the other fields; and with an update set
that assigns to every listed column except the first one (the primary key) the very entry
it has in the value list. The arguments are the primary-key value, the payload, then the
values of the other fields in the same order, so there are `k` = 2 + the number of other
fields of them, and the placeholders number them from 1 to `k`. -/
theorem UpsertRecords_statement (lib : GoLib) (table primaryKey : String) (record : Record)
    (id : Value) (rawJSON : String) (hjson : lib.jsonMarshal record = .ok rawJSON)
    (hid : record.lookup primaryKey = some id) :
    upsertCall lib table primaryKey record
      = some (.upsert (sanitizeIdentifier lib table)
          ([sanitizeIdentifier lib primaryKey, sanitizeIdentifier lib "raw_data",
              sanitizeIdentifier lib "synced_at"]
            ++ (nonKeyFields primaryKey record).map (fun kv => sanitizeIdentifier lib kv.1))
          (["$1", "$2", "NOW()"]
            ++ (List.range (nonKeyFields primaryKey record).length).map fieldPlaceholder)
          (sanitizeIdentifier lib primaryKey)
          ((([sanitizeIdentifier lib primaryKey, sanitizeIdentifier lib "raw_data",
              sanitizeIdentifier lib "synced_at"]
            ++ (nonKeyFields primaryKey record).map (fun kv => sanitizeIdentifier lib kv.1)).zip
            (["$1", "$2", "NOW()"]
              ++ (List.range (nonKeyFields primaryKey record).length).map
                  fieldPlaceholder)).drop 1),
        [.val id, .json rawJSON]
          ++ (nonKeyFields primaryKey record).map (fun kv => SqlArg.val kv.2))
    ∧ ([SqlArg.val id, .json rawJSON]
          ++ (nonKeyFields primaryKey record).map (fun kv => SqlArg.val kv.2)).length
        = 2 + (nonKeyFields primaryKey record).length
    ∧ (["$1", "$2"] ++ (List.range (nonKeyFields primaryKey record).length).map
          fieldPlaceholder
        = (List.range (2 + (nonKeyFields primaryKey record).length)).map
            (fun j => "$" ++ toString (j + 1))) := by
  obtain ⟨h1, h2, h3, h4⟩ := upsertFields_spec lib primaryKey record 3
    ⟨[sanitizeIdentifier lib primaryKey, sanitizeIdentifier lib "raw_data",
        sanitizeIdentifier lib "synced_at"],
      ["$1", "$2", "NOW()"],
      [(sanitizeIdentifier lib "raw_data", "$2"), (sanitizeIdentifier lib "synced_at", "NOW()")],
      [.val id, .json rawJSON]⟩
  have hfp : (fun i => "$" ++ toString (3 + i)) = fieldPlaceholder := by
    funext i
    simp only [fieldPlaceholder]
    rw [Nat.add_comm]
  rw [hfp] at h2 h3
  refine ⟨?_, ?_, ?_⟩
  · simp only [upsertCall, hjson, hid, upsertStatement, upsertParts, h1, h2, h3, h4]
    rfl
  · simp
    omega
  · rw [List.range_add, List.map_append]
    congr 1
    simp only [List.map_map]
    apply List.map_congr_left
    intro i _
    simp only [Function.comp, fieldPlaceholder]
    rw [show 2 + i + 1 = i + 3 by omega]

/-- Witness for C28: a record with the key and two other fields gives five columns, the
values `$1`, `$2`, `NOW()`, `$3`, `$4`, an update set for the four columns after the key, and
four arguments. -/
theorem UpsertRecords_statement_witness :
    upsertCall sampleLib "flexibee_test" "id"
        [("kod", .str "T001"), ("id", .num 7), ("cena", .num 5)]
      = some (.upsert (sanitizeIdentifier sampleLib "flexibee_test")
          [sanitizeIdentifier sampleLib "id", sanitizeIdentifier sampleLib "raw_data",
            sanitizeIdentifier sampleLib "synced_at", sanitizeIdentifier sampleLib "kod",
            sanitizeIdentifier sampleLib "cena"]
          ["$1", "$2", "NOW()", "$3", "$4"]
          (sanitizeIdentifier sampleLib "id")
          [(sanitizeIdentifier sampleLib "raw_data", "$2"),
            (sanitizeIdentifier sampleLib "synced_at", "NOW()"),
            (sanitizeIdentifier sampleLib "kod", "$3"),
            (sanitizeIdentifier sampleLib "cena", "$4")],
        [.val (.num 7), .json "json of 3 fields", .val (.str "T001"), .val (.num 5)]) :=
  (UpsertRecords_statement sampleLib "flexibee_test" "id"
    [("kod", .str "T001"), ("id", .num 7), ("cena", .num 5)] (.num 7) "json of 3 fields"
    (by decide) (by decide)).1.trans (by decide)

/-- Claim C29. The record with the fields `id`, `a-b` and `a_b` has pairwise distinct field
names, and `UpsertRecords` builds for it a column list that names `a_b` twice, because
`sanitizeIdentifier` gives `a-b` and `a_b` the same result; the records with a field
`raw_data` or `synced_at` besides `id` get that base column twice. The database rejects such
a statement and the record is skipped. In general the column list is free of duplicates
exactly when the sanitised names of the fields other than the key are pairwise distinct,
none of them is the sanitised primary key, `raw_data` or `synced_at`, and these three differ
from each other. -/
theorem UpsertRecords_duplicate_columns :
    ((twinNamesRecord.map Prod.fst).Nodup
      ∧ sanitizeIdentifier sampleLib "a-b" = sanitizeIdentifier sampleLib "a_b"
      ∧ (upsertParts sampleLib "id" twinNamesRecord (.num 1) "payload").cols
          = [sanitizeIdentifier sampleLib "id", sanitizeIdentifier sampleLib "raw_data",
              sanitizeIdentifier sampleLib "synced_at", sanitizeIdentifier sampleLib "a_b",
              sanitizeIdentifier sampleLib "a_b"]
      ∧ ¬ (upsertParts sampleLib "id" twinNamesRecord (.num 1) "payload").cols.Nodup)
    ∧ ((payloadNameRecord.map Prod.fst).Nodup
      ∧ ¬ (upsertParts sampleLib "id" payloadNameRecord (.num 1) "payload").cols.Nodup)
    ∧ ((timestampNameRecord.map Prod.fst).Nodup
      ∧ ¬ (upsertParts sampleLib "id" timestampNameRecord (.num 1) "payload").cols.Nodup)
    ∧ Store.UpsertRecords sampleLib pgPool .background "flexibee_test" [twinNamesRecord] "id"
        twinColumnDb = ((0, none), twinColumnDb)
    ∧ ∀ (lib : GoLib) (primaryKey : String) (record : Record) (id : Value) (rawJSON : String),
        (upsertParts lib primaryKey record id rawJSON).cols.Nodup
          ↔ ((nonKeyFields primaryKey record).map (fun kv => sanitizeIdentifier lib kv.1)).Nodup
            ∧ (∀ kv ∈ nonKeyFields primaryKey record,
                sanitizeIdentifier lib kv.1 ∉ [sanitizeIdentifier lib primaryKey,
                  sanitizeIdentifier lib "raw_data", sanitizeIdentifier lib "synced_at"])
            ∧ [sanitizeIdentifier lib primaryKey, sanitizeIdentifier lib "raw_data",
                sanitizeIdentifier lib "synced_at"].Nodup := by
  refine ⟨by decide, by decide, by decide, by decide, ?_⟩
  intro lib primaryKey record id rawJSON
  have h1 := (upsertFields_spec lib primaryKey record 3
    ⟨[sanitizeIdentifier lib primaryKey, sanitizeIdentifier lib "raw_data",
        sanitizeIdentifier lib "synced_at"],
      ["$1", "$2", "NOW()"],
      [(sanitizeIdentifier lib "raw_data", "$2"), (sanitizeIdentifier lib "synced_at", "NOW()")],
      [.val id, .json rawJSON]⟩).1
  simp only [upsertParts, h1]
  rw [List.nodup_append]
  constructor
  · rintro ⟨hb, hf, hd⟩
    refine ⟨hf, ?_, hb⟩
    intro kv hkv hmem
    exact hd hmem (List.mem_map.mpr ⟨kv, hkv, rfl⟩)
  · rintro ⟨hf, hd, hb⟩
    refine ⟨hb, hf, ?_⟩
    intro x hx hx2
    obtain ⟨kv, hkv, rfl⟩ := List.mem_map.mp hx2
    exact hd kv hkv hx

theorem deleteOld_zero (cutoff : Time) (rows : List DbRow) : deleteOld cutoff 0 rows = rows := by
  cases rows <;> rfl

theorem pgExec_cleanup_zero (safeTable : String) (cutoff : Time) (db : Database) (t : DbTable)
    (ht : getTable (pgIdent safeTable) db.tables = some t) :
    pgExec (.cleanup safeTable) [.time cutoff, .int 0] db
      = (.ok 0, ⟨putTable (pgIdent safeTable) t db.tables, db.now⟩) := by
  have h := pgExec_cleanup safeTable cutoff 0 db t ht
  simp only [Nat.cast_zero, Nat.zero_min, deleteOld_zero] at h
  exact h

theorem cleanupLoop_zero (lib : GoLib) (faults : Faults) (ctx : Context) (table : String)
    (cutoff : Time)
    (hfaults : ∀ h args, faults.exec h (.cleanup (sanitizeIdentifier lib table)) args = none)
    (fuel : Nat) :
    ∀ (db : Database) (log : List PoolEvent) (t : DbTable) (total : Int),
      getTable (pgIdent (sanitizeIdentifier lib table)) db.tables = some t →
      cleanupLoop lib (faulty faults pgPool) ctx table cutoff 0 fuel total (db, log) = none := by
  induction fuel with
  | zero => intro db log t total _; rfl
  | succ fuel ih =>
      intro db log t total ht
      have hex := faulty_exec_of_none faults pgPool ctx (.cleanup (sanitizeIdentifier lib table))
        [.time cutoff, .int 0] (db, log) (hfaults _ _)
      have hpg : pgPool.Exec ctx (.cleanup (sanitizeIdentifier lib table))
          [.time cutoff, .int 0] db
          = pgExec (.cleanup (sanitizeIdentifier lib table)) [.time cutoff, .int 0] db := rfl
      simp only [hpg, pgExec_cleanup_zero _ cutoff db t ht] at hex
      simp only [cleanupLoop, hex, lt_self_iff_false, if_false]
      exact ih _ _ t _ (getTable_putTable_same _ _ _)

/-- The loop of `CleanupOldRecords` does not exit while every delete succeeds with a count
that is not below the batch size; with a batch size of 0 or less that is every count. -/
theorem cleanupLoop_no_exit {σ : Type} (lib : GoLib) (pool : Pool σ) (ctx : Context)
    (table : String) (cutoff : Time) (b : Int) (hb : b ≤ 0)
    (hok : ∀ s, ∃ n s1, 0 ≤ n ∧ pool.Exec ctx (.cleanup (sanitizeIdentifier lib table))
      [.time cutoff, .int b] s = (.ok n, s1))
    (fuel : Nat) :
    ∀ (total : Int) (s : σ), cleanupLoop lib pool ctx table cutoff b fuel total s = none := by
  induction fuel with
  | zero => intro total s; rfl
  | succ fuel ih =>
      intro total s
      obtain ⟨n, s1, hn, hex⟩ := hok s
      have hlt : ¬ n < b := by omega
      simp only [cleanupLoop, hex, hlt, if_false]
      exact ih _ _

/-- Claim C30. With batch size 0, on a database that holds the table and with no failure
hitting a delete, `Store.CleanupOldRecords` is still running after any number of rounds:
each round is a delete that succeeds, removes 0 rows and leaves the table as it was, and the
exit test `0 < 0` is false after it. With a batch size of 1 or more the same call returns.
And over any store whose deletes succeed (with a count that is not negative), no batch size
of 0 or less ever lets the loop exit. -/
theorem CleanupOldRecords_zero_batch (lib : GoLib) (faults : Faults) (ctx : Context)
    (table : String) (cutoff : Time) (db : Database) (log : List PoolEvent) (t : DbTable)
    (hfaults : ∀ h args, faults.exec h (.cleanup (sanitizeIdentifier lib table)) args = none)
    (ht : getTable (pgIdent (sanitizeIdentifier lib table)) db.tables = some t) :
    (∀ k, Store.CleanupOldRecords lib (faulty faults pgPool) k ctx table cutoff 0 (db, log)
        = none)
    ∧ (faulty faults pgPool).Exec ctx (.cleanup (sanitizeIdentifier lib table))
          [.time cutoff, .int 0] (db, log)
        = (.ok 0, (⟨putTable (pgIdent (sanitizeIdentifier lib table)) t db.tables, db.now⟩,
            log ++ [.exec (.cleanup (sanitizeIdentifier lib table)) [.time cutoff, .int 0]
              (.ok 0)]))
    ∧ getTable (pgIdent (sanitizeIdentifier lib table))
          (putTable (pgIdent (sanitizeIdentifier lib table)) t db.tables) = some t
    ∧ (∀ b : Nat, 1 ≤ b →
        ∃ k r, Store.CleanupOldRecords lib (faulty faults pgPool) k ctx table cutoff b (db, log)
          = some r)
    ∧ (∀ (σ : Type) (pool : Pool σ) (b : Int), b ≤ 0 →
        (∀ s, ∃ n s1, 0 ≤ n ∧ pool.Exec ctx (.cleanup (sanitizeIdentifier lib table))
          [.time cutoff, .int b] s = (.ok n, s1)) →
        ∀ k s, Store.CleanupOldRecords lib pool k ctx table cutoff b s = none) := by
  refine ⟨fun k => cleanupLoop_zero lib faults ctx table cutoff hfaults k db log t 0 ht, ?_,
    getTable_putTable_same _ _ _, ?_, ?_⟩
  · have hex := faulty_exec_of_none faults pgPool ctx (.cleanup (sanitizeIdentifier lib table))
      [.time cutoff, .int 0] (db, log) (hfaults _ _)
    have hpg : pgPool.Exec ctx (.cleanup (sanitizeIdentifier lib table))
        [.time cutoff, .int 0] db
        = pgExec (.cleanup (sanitizeIdentifier lib table)) [.time cutoff, .int 0] db := rfl
    simpa only [hpg, pgExec_cleanup_zero _ cutoff db t ht] using hex
  · intro b hb
    exact ⟨_, _, (cleanupLoop_pg lib faults ctx table cutoff b hb hfaults _ db log t 0 ht).1
      (le_refl _)⟩
  · intro σ pool b hb hok k s
    exact cleanupLoop_no_exit lib pool ctx table cutoff b hb hok k 0 s

/-- Witness for C30: on `agedDb`, whose table holds five rows older than 100, the cleanup
with batch size 0 is still running after 1000 rounds, while with batch size 2 it returns
after 3. -/
theorem CleanupOldRecords_zero_batch_witness :
    Store.CleanupOldRecords sampleLib (faulty noFaults pgPool) 1000 .background "flexibee_test"
        100 0 (agedDb, []) = none
    ∧ (Store.CleanupOldRecords sampleLib (faulty noFaults pgPool) 3 .background "flexibee_test"
        100 2 (agedDb, [])).isSome = true :=
  ⟨(CleanupOldRecords_zero_batch sampleLib noFaults .background "flexibee_test" 100 agedDb []
      agedTable (fun _ _ => rfl) (by decide)).1 1000, by decide⟩

theorem mapGet_mapSet_same (k : String) (v : Evidence) (xs : List (String × Evidence)) :
    mapGet k (mapSet k v xs) = some v := by
  induction xs with
  | nil => simp [mapSet, mapGet]
  | cons x xs ih =>
      obtain ⟨k1, v1⟩ := x
      by_cases h : k1 = k
      · simp [mapSet, mapGet, h]
      · simp [mapSet, mapGet, h, ih]

theorem mapGet_mapSet_other (k k1 : String) (v : Evidence) (xs : List (String × Evidence))
    (hne : k ≠ k1) : mapGet k1 (mapSet k v xs) = mapGet k1 xs := by
  induction xs with
  | nil => simp [mapSet, mapGet, hne]
  | cons x xs ih =>
      obtain ⟨k2, v2⟩ := x
      by_cases h : k2 = k
      · subst h
        simp [mapSet, mapGet, hne]
      · by_cases h1 : k2 = k1
        · subst h1
          simp [mapSet, mapGet, h]
        · simp [mapSet, mapGet, h, h1, ih]

theorem mapSet_keys (k : String) (v : Evidence) (xs : List (String × Evidence)) :
    (mapSet k v xs).map Prod.fst
      = if (mapGet k xs).isSome then xs.map Prod.fst else xs.map Prod.fst ++ [k] := by
  induction xs with
  | nil => simp [mapSet, mapGet]
  | cons x xs ih =>
      obtain ⟨k1, v1⟩ := x
      by_cases h : k1 = k
      · simp [mapSet, mapGet, h]
      · simp only [mapSet, mapGet, h, if_false, List.map_cons, ih]
        split_ifs <;> simp

theorem mem_firstOccurrences (xs : List String) (y : String) :
    y ∈ firstOccurrences xs ↔ y ∈ xs := by
  induction xs with
  | nil => simp [firstOccurrences]
  | cons x xs ih =>
      simp only [firstOccurrences, List.mem_cons, List.mem_filter, ih, decide_eq_true_eq]
      by_cases h : y = x
      · simp [h]
      · simp [h]

theorem nodup_firstOccurrences (xs : List String) : (firstOccurrences xs).Nodup := by
  induction xs with
  | nil => simp [firstOccurrences]
  | cons x xs ih =>
      simp only [firstOccurrences, List.nodup_cons, List.mem_filter, decide_eq_true_eq]
      exact ⟨fun h => h.2 rfl, ih.filter _⟩

theorem firstOccurrences_append_singleton (xs : List String) (y : String) :
    firstOccurrences (xs ++ [y])
      = if y ∈ xs then firstOccurrences xs else firstOccurrences xs ++ [y] := by
  induction xs with
  | nil => simp [firstOccurrences]
  | cons x xs ih =>
      have hstep : firstOccurrences (x :: xs ++ [y])
          = x :: (firstOccurrences (xs ++ [y])).filter (fun z => decide (z ≠ x)) := rfl
      rw [hstep, ih]
      by_cases h1 : y = x
      · subst h1
        by_cases h2 : y ∈ xs
        · simp [h2, firstOccurrences]
        · simp [h2, List.filter_append, firstOccurrences]
      · by_cases h2 : y ∈ xs
        · simp [h1, h2, firstOccurrences]
        · simp [h1, h2, List.filter_append, firstOccurrences]

theorem lastRegistered_append_singleton (slug : String) (evs : List Evidence) (ev : Evidence) :
    lastRegistered slug (evs ++ [ev])
      = if ev.Slug = slug then some ev else lastRegistered slug evs := by
  simp only [lastRegistered, List.reverse_append, List.reverse_singleton, List.singleton_append,
    List.find?_cons]
  by_cases h : ev.Slug = slug <;> simp [h]

theorem lastRegistered_isSome (slug : String) (evs : List Evidence) :
    (lastRegistered slug evs).isSome = true ↔ slug ∈ evs.map Evidence.Slug := by
  simp only [lastRegistered, List.find?_isSome, List.mem_reverse, decide_eq_true_eq,
    List.mem_map]

theorem registered_append_singleton (evs : List Evidence) (ev : Evidence) :
    registered (evs ++ [ev]) = (registered evs).Register ev := by
  simp [registered, List.foldl_append]

/-- What holds of the registry after any sequence of `Register` calls. -/
theorem registered_inv (evs : List Evidence) :
    (registered evs).order = firstOccurrences (evs.map Evidence.Slug)
    ∧ (registered evs).evidences.map Prod.fst = (registered evs).order
    ∧ ∀ slug, mapGet slug (registered evs).evidences = lastRegistered slug evs := by
  induction evs using List.reverseRecOn with
  | nil => exact ⟨rfl, rfl, fun _ => rfl⟩
  | append_singleton evs ev ih =>
      obtain ⟨h1, h2, h3⟩ := ih
      rw [registered_append_singleton]
      have hsome : (mapGet ev.Slug (registered evs).evidences).isSome = true
          ↔ ev.Slug ∈ evs.map Evidence.Slug := by
        rw [h3, lastRegistered_isSome]
      refine ⟨?_, ?_, ?_⟩
      · simp only [Registry.Register, List.map_append, List.map_cons, List.map_nil,
          firstOccurrences_append_singleton, h1]
        by_cases hm : ev.Slug ∈ evs.map Evidence.Slug
        · rw [if_pos (hsome.mpr hm), if_pos hm]
        · rw [if_neg (fun h => hm (hsome.mp h)), if_neg hm]
      · simp only [Registry.Register, mapSet_keys, h2]
      · intro slug
        simp only [Registry.Register, lastRegistered_append_singleton]
        by_cases hs : ev.Slug = slug
        · subst hs
          simp [mapGet_mapSet_same]
        · rw [mapGet_mapSet_other _ _ _ _ hs, if_neg hs, h3]

theorem lastRegistered_slug (slug : String) (evs : List Evidence) (ev : Evidence)
    (h : lastRegistered slug evs = some ev) : ev.Slug = slug := by
  have := List.find?_some h
  simpa using this

theorem filterMap_eq_map_getD {α β : Type} (f : α → Option β) (d : β) (l : List α)
    (h : ∀ x ∈ l, (f x).isSome = true) : l.filterMap f = l.map (fun x => (f x).getD d) := by
  induction l with
  | nil => rfl
  | cons x l ih =>
      have hx := h x (List.mem_cons_self _ _)
      obtain ⟨y, hy⟩ := Option.isSome_iff_exists.mp hx
      rw [List.filterMap_cons_some hy, List.map_cons, hy,
        ih (fun z hz => h z (List.mem_cons_of_mem _ hz))]
      rfl

theorem registered_All (evs : List Evidence) :
    (registered evs).All
        = (firstOccurrences (evs.map Evidence.Slug)).filterMap
            (fun slug => lastRegistered slug evs)
    ∧ (registered evs).All.map Evidence.Slug = firstOccurrences (evs.map Evidence.Slug) := by
  obtain ⟨h1, -, h3⟩ := registered_inv evs
  have hall : (registered evs).All
      = (firstOccurrences (evs.map Evidence.Slug)).map
          (fun slug => (lastRegistered slug evs).getD Evidence.zero) := by
    simp only [Registry.All, h1, h3]
  have hsome : ∀ slug ∈ firstOccurrences (evs.map Evidence.Slug),
      (lastRegistered slug evs).isSome = true := by
    intro slug hs
    exact (lastRegistered_isSome slug evs).mpr ((mem_firstOccurrences _ _).mp hs)
  refine ⟨?_, ?_⟩
  · rw [hall, filterMap_eq_map_getD _ Evidence.zero _ hsome]
  · rw [hall, List.map_map]
    conv_rhs => rw [← List.map_id (firstOccurrences (evs.map Evidence.Slug))]
    apply List.map_congr_left
    intro slug hs
    obtain ⟨ev, hev⟩ := Option.isSome_iff_exists.mp (hsome slug hs)
    simp only [Function.comp, hev, Option.getD_some, id]
    exact lastRegistered_slug slug evs ev hev

theorem registered_Len (evs : List Evidence) :
    (registered evs).Len = (registered evs).All.length := by
  obtain ⟨-, h2, -⟩ := registered_inv evs
  have := congrArg List.length h2
  simp only [List.length_map] at this
  simp [Registry.Len, Registry.All, this]

/-- Claim C26. After any sequence `evs` of `Register` calls on a new registry: `All` is the
list of the distinct registered slugs, each once and at the place of its first registration,
each with the descriptor registered last for it; `Get` of a slug gives that same descriptor
and found, and not found for a slug that was never registered; `Len` is the length of `All`;
and registering again a slug that is already registered changes neither `Len` nor the order
of the slugs in `All`, and makes `Get` return the new descriptor. -/
theorem Registry_register_sequence (evs : List Evidence) :
    (registered evs).All
        = (firstOccurrences (evs.map Evidence.Slug)).filterMap
            (fun slug => lastRegistered slug evs)
    ∧ (registered evs).All.map Evidence.Slug = firstOccurrences (evs.map Evidence.Slug)
    ∧ ((registered evs).All.map Evidence.Slug).Nodup
    ∧ (∀ slug, slug ∈ (registered evs).All.map Evidence.Slug ↔ slug ∈ evs.map Evidence.Slug)
    ∧ (∀ slug, (registered evs).Get slug
        = match lastRegistered slug evs with
          | some ev => (ev, true)
          | none => (Evidence.zero, false))
    ∧ (∀ slug, ((registered evs).Get slug).2 = true ↔ slug ∈ evs.map Evidence.Slug)
    ∧ (registered evs).Len = (registered evs).All.length
    ∧ (∀ ev : Evidence, ev.Slug ∈ evs.map Evidence.Slug →
        ((registered evs).Register ev).Len = (registered evs).Len
        ∧ ((registered evs).Register ev).All.map Evidence.Slug
            = (registered evs).All.map Evidence.Slug
        ∧ ((registered evs).Register ev).Get ev.Slug = (ev, true)) := by
  obtain ⟨hall, hslugs⟩ := registered_All evs
  obtain ⟨-, -, h3⟩ := registered_inv evs
  have hget : ∀ slug, (registered evs).Get slug
      = match lastRegistered slug evs with
        | some ev => (ev, true)
        | none => (Evidence.zero, false) := by
    intro slug
    simp only [Registry.Get, h3]
  refine ⟨hall, hslugs, ?_, ?_, hget, ?_, registered_Len evs, ?_⟩
  · rw [hslugs]; exact nodup_firstOccurrences _
  · intro slug; rw [hslugs]; exact mem_firstOccurrences _ _
  · intro slug
    rw [hget, ← lastRegistered_isSome]
    cases lastRegistered slug evs <;> simp
  · intro ev hev
    have hreg := registered_append_singleton evs ev
    obtain ⟨-, hslugs1⟩ := registered_All (evs ++ [ev])
    obtain ⟨-, -, h31⟩ := registered_inv (evs ++ [ev])
    have hfirst : firstOccurrences ((evs ++ [ev]).map Evidence.Slug)
        = firstOccurrences (evs.map Evidence.Slug) := by
      rw [List.map_append, List.map_singleton, firstOccurrences_append_singleton, if_pos hev]
    rw [hreg] at hslugs1 h31
    refine ⟨?_, ?_, ?_⟩
    · have hl1 := registered_Len (evs ++ [ev])
      rw [hreg] at hl1
      rw [hl1, registered_Len evs]
      have e1 := congrArg List.length hslugs1
      have e2 := congrArg List.length hslugs
      simp only [List.length_map] at e1 e2
      rw [e1, e2, hfirst]
    · rw [hslugs1, hslugs, hfirst]
    · simp only [Registry.Get, h31, lastRegistered_append_singleton, if_true]

/-- Witness for C26: after registering `b`, `a`, `c` and then `b` again, `All` lists `b`
(with the second descriptor), `a`, `c`; `Len` is 3; and registering `a` again keeps `Len`
and the order. -/
theorem Registry_register_sequence_witness :
    (registered sampleRegistrations).All
      = [⟨"b", "t_b_updated", "id", true⟩, ⟨"a", "t_a", "id", false⟩, ⟨"c", "t_c", "id", false⟩]
    ∧ (registered sampleRegistrations).Len = 3
    ∧ (registered sampleRegistrations).Get "zzz" = (Evidence.zero, false)
    ∧ ((registered sampleRegistrations).Register ⟨"a", "t_a2", "id", false⟩).Len
        = (registered sampleRegistrations).Len
    ∧ ((registered sampleRegistrations).Register ⟨"a", "t_a2", "id", false⟩).All.map
          Evidence.Slug = ["b", "a", "c"] :=
  have h := Registry_register_sequence sampleRegistrations
  have hr := h.2.2.2.2.2.2.2 ⟨"a", "t_a2", "id", false⟩ (by decide)
  ⟨h.1.trans (by decide), h.2.2.2.2.2.2.1.trans (by decide), (h.2.2.2.2.1 "zzz").trans
    (by decide), hr.1, hr.2.1.trans (by decide)⟩

/-- Every request the page loop of `syncEvidence` sends carries the evidence, the limit, the
detail level and the filter of the iterator it started from; and it sends at least one
unless the iterator was terminated. -/
theorem syncLoop_rec_requests (env : Env) (ctx : Context) (ev : Evidence)
    (prior : Option SyncState) :
    ∀ (fuel : Nat) (it : PageIterator) (total : Int) (w : World)
      (r : Except String Int) (w1 : World),
      syncLoop (recClient env) (recStore env) (recTime env) ctx ev prior fuel it total w
        = some (r, w1) →
      ∃ evs : List Event, w1.history = w.history ++ evs
        ∧ (∀ p ∈ fetchRequests evs, p.1 = it.evidence ∧ p.2.Limit = it.opts.Limit
            ∧ p.2.Detail = it.opts.Detail ∧ p.2.Filter = it.opts.Filter)
        ∧ (it.done = false → fetchRequests evs ≠ []) := by
  intro fuel
  induction fuel with
  | zero => intro it total w r w1 h; simp [syncLoop] at h
  | succ fuel ih =>
      intro it total w r w1 h
      rw [syncLoop] at h
      by_cases hd : it.done = true
      · rw [Next_of_done _ _ _ _ hd] at h
        simp only [Option.some.injEq, Prod.mk.injEq] at h
        obtain ⟨rfl, rfl⟩ := h
        exact ⟨[], by simp, by simp [fetchRequests], by simp [hd]⟩
      · have hd1 : it.done = false := by simpa using hd
        have hf := recClient_fetch env ctx it.evidence it.request w
        generalize hwf : w.record (.fetchEvidence it.evidence it.request
          (env.fetchEvidence w.history ctx it.evidence it.request)) = wf at hf
        have hwfh : wf.history = w.history ++ [.fetchEvidence it.evidence it.request
          (env.fetchEvidence w.history ctx it.evidence it.request)] := by
          rw [← hwf]; rfl
        have hreq : it.request.Limit = it.opts.Limit ∧ it.request.Detail = it.opts.Detail
            ∧ it.request.Filter = it.opts.Filter := ⟨rfl, rfl, rfl⟩
        cases hres : env.fetchEvidence w.history ctx it.evidence it.request with
        | error e =>
            rw [hres] at hf hwfh
            rw [Next_of_fetch_error _ _ _ _ _ _ hd1 hf] at h
            simp only [Option.some.injEq, Prod.mk.injEq] at h
            obtain ⟨rfl, rfl⟩ := h
            obtain ⟨t, serr, hh, -⟩ := saveErrorState_rec env ctx ev.Slug prior
              ("fetch page at offset " ++ toString it.fetched ++ ": " ++ e) wf
            refine ⟨[.fetchEvidence it.evidence it.request (.error e),
              .now t, .setSyncState ev.Slug
                { Evidence := ev.Slug, LastUpdate := watermarkOf prior, LastSync := t,
                  RowCount := rowCountOf prior, Status := "error",
                  ErrorMsg := "fetch page at offset " ++ toString it.fetched ++ ": " ++ e }
                serr], ?_, ?_, ?_⟩
            · rw [hh, hwfh]; simp
            · intro p hp
              simp only [fetchRequests, List.mem_singleton] at hp
              subst hp
              exact ⟨rfl, hreq⟩
            · intro _; simp [fetchRequests]
        | ok resp =>
            rw [hres] at hf hwfh
            obtain ⟨it1, hn, hev1, hopts1, -⟩ := Next_of_fetch_ok _ _ _ _ _ _ hd1 hf
            rw [hn] at h
            by_cases hrec : resp.Winstrom.Records = []
            · simp only [hrec, if_true, Option.some.injEq, Prod.mk.injEq] at h
              obtain ⟨rfl, rfl⟩ := h
              refine ⟨[.fetchEvidence it.evidence it.request (.ok resp)], hwfh, ?_, ?_⟩
              · intro p hp
                simp only [fetchRequests, List.mem_singleton] at hp
                subst hp
                exact ⟨rfl, hreq⟩
              · intro _; simp [fetchRequests]
            · simp only [hrec, if_false] at h
              rw [recStore_upsert] at h
              generalize hwu : wf.record (.upsertRecords ev.Table resp.Winstrom.Records
                ev.PrimaryKey (env.upsertRecords wf.history ctx ev.Table resp.Winstrom.Records
                  ev.PrimaryKey)) = wu at h
              have hwuh : wu.history = wf.history ++ [.upsertRecords ev.Table
                  resp.Winstrom.Records ev.PrimaryKey (env.upsertRecords wf.history ctx
                    ev.Table resp.Winstrom.Records ev.PrimaryKey)] := by
                rw [← hwu]; rfl
              cases hup : env.upsertRecords wf.history ctx ev.Table resp.Winstrom.Records
                  ev.PrimaryKey with
              | error e =>
                  rw [hup] at h hwuh
                  simp only [Option.some.injEq, Prod.mk.injEq] at h
                  obtain ⟨rfl, rfl⟩ := h
                  obtain ⟨t, serr, hh, -⟩ := saveErrorState_rec env ctx ev.Slug prior e wu
                  refine ⟨[.fetchEvidence it.evidence it.request (.ok resp),
                    .upsertRecords ev.Table resp.Winstrom.Records ev.PrimaryKey (.error e),
                    .now t, .setSyncState ev.Slug
                      { Evidence := ev.Slug, LastUpdate := watermarkOf prior, LastSync := t,
                        RowCount := rowCountOf prior, Status := "error", ErrorMsg := e }
                      serr], ?_, ?_, ?_⟩
                  · rw [hh, hwuh, hwfh]; simp
                  · intro p hp
                    simp only [fetchRequests, List.mem_singleton] at hp
                    subst hp
                    exact ⟨rfl, hreq⟩
                  · intro _; simp [fetchRequests]
              | ok n =>
                  rw [hup] at h hwuh
                  simp only at h
                  obtain ⟨evs, hh, hP, -⟩ := ih _ _ _ _ _ h
                  refine ⟨[.fetchEvidence it.evidence it.request (.ok resp),
                    .upsertRecords ev.Table resp.Winstrom.Records ev.PrimaryKey (.ok n)]
                    ++ evs, ?_, ?_, ?_⟩
                  · rw [hh, hwuh, hwfh]; simp
                  · intro p hp
                    rw [fetchRequests_append] at hp
                    simp only [fetchRequests, List.mem_append, List.mem_singleton] at hp
                    rcases hp with rfl | hp
                    · exact ⟨rfl, hreq⟩
                    · have := hP p hp
                      rw [hev1, hopts1] at this
                      exact this
                  · intro _
                    rw [fetchRequests_append]
                    simp [fetchRequests]

/-- Claim C25. In a pass of `syncEvidence` with a batch size above 0 that read the
checkpoint `prior` at its start (`none`: there is none), at least one page is requested, and
every request of the pass is for the entity's evidence with page size equal to the batch
size, detail "full", and with the filter `lastUpdate > '<watermark in RFC 3339>'` when
`prior` exists and has a watermark, and the empty filter (a full fetch) when there is no
checkpoint or it has no watermark. -/
theorem syncEvidence_fetch_options (env : Env) (ctx : Context) (ev : Evidence)
    (batchSize : Int) (fuel : Nat) (w w1 : World) (out : Option String)
    (prior : Option SyncState) (hb : 0 < batchSize)
    (hrun : syncPass env ctx ev batchSize fuel w = some (out, w1))
    (hread : (passEvents w w1).head? = some (.getSyncState ev.Slug (.ok prior))) :
    fetchRequests (passEvents w w1) ≠ []
    ∧ ∀ p ∈ fetchRequests (passEvents w w1),
        p.1 = ev.Slug ∧ p.2.Limit = batchSize ∧ p.2.Detail = "full"
        ∧ p.2.Filter
            = (match watermarkOf prior with
              | some lastUpdate => "lastUpdate > '" ++ env.formatRFC3339 lastUpdate ++ "'"
              | none => "") := by
  have hopts : ∀ pr : Option SyncState,
      (IterateEvidence ev.Slug (syncFetchOptions (recTime env) pr batchSize)).evidence = ev.Slug
      ∧ (IterateEvidence ev.Slug (syncFetchOptions (recTime env) pr batchSize)).opts.Limit
          = batchSize
      ∧ (IterateEvidence ev.Slug (syncFetchOptions (recTime env) pr batchSize)).opts.Detail
          = "full"
      ∧ (IterateEvidence ev.Slug (syncFetchOptions (recTime env) pr batchSize)).opts.Filter
          = (match watermarkOf pr with
            | some lastUpdate => "lastUpdate > '" ++ env.formatRFC3339 lastUpdate ++ "'"
            | none => "")
      ∧ (IterateEvidence ev.Slug (syncFetchOptions (recTime env) pr batchSize)).done = false := by
    intro pr
    have hlim : ∀ o : FetchOptions, o.Limit = batchSize → ¬ o.Limit ≤ 0 := by
      intro o ho; omega
    rcases pr with _ | cur
    · simp [IterateEvidence, syncFetchOptions, watermarkOf, not_le.mpr hb]
    · cases hlu : cur.LastUpdate with
      | none => simp [IterateEvidence, syncFetchOptions, watermarkOf, hlu, not_le.mpr hb]
      | some t =>
          simp [IterateEvidence, syncFetchOptions, watermarkOf, hlu, not_le.mpr hb, recTime]
  unfold syncPass syncEvidence at hrun
  rw [recStore_get] at hrun
  cases hg : env.getSyncStateErr w.history ctx ev.Slug with
  | some e =>
      rw [hg] at hrun
      simp only [Option.some.injEq, Prod.mk.injEq] at hrun
      obtain ⟨-, rfl⟩ := hrun
      rw [passEvents_of_history w _ [.getSyncState ev.Slug (.error e)] rfl] at hread
      simp at hread
  | none =>
      rw [hg] at hrun
      simp only at hrun
      generalize hwg : w.record (.getSyncState ev.Slug (.ok (getRow ev.Slug w.states))) = wg
        at hrun
      have hwgh : wg.history
          = w.history ++ [.getSyncState ev.Slug (.ok (getRow ev.Slug w.states))] := by
        rw [← hwg]; rfl
      generalize hprior : getRow ev.Slug w.states = pr at hrun hwgh
      cases hl : syncLoop (recClient env) (recStore env) (recTime env) ctx ev pr fuel
          (IterateEvidence ev.Slug (syncFetchOptions (recTime env) pr batchSize)) 0 wg with
      | none => rw [hl] at hrun; simp at hrun
      | some res =>
          obtain ⟨r, w2⟩ := res
          rw [hl] at hrun
          obtain ⟨evs, hh, hP, hne⟩ := syncLoop_rec_requests env ctx ev pr _ _ _ _ _ _ hl
          obtain ⟨ho1, ho2, ho3, ho4, ho5⟩ := hopts pr
          rw [ho1, ho2, ho3, ho4] at hP
          have hne1 := hne ho5
          have key : ∀ tail : List Event, fetchRequests tail = [] →
              w1.history = w2.history ++ tail →
              fetchRequests (passEvents w w1) ≠ []
              ∧ ∀ p ∈ fetchRequests (passEvents w w1),
                  p.1 = ev.Slug ∧ p.2.Limit = batchSize ∧ p.2.Detail = "full"
                  ∧ p.2.Filter
                      = (match watermarkOf prior with
                        | some lastUpdate =>
                            "lastUpdate > '" ++ env.formatRFC3339 lastUpdate ++ "'"
                        | none => "") := by
            intro tail htail hw1
            have hpe : passEvents w w1
                = .getSyncState ev.Slug (.ok pr) :: (evs ++ tail) := by
              apply passEvents_of_history
              rw [hw1, hh, hwgh]
              simp
            rw [hpe] at hread ⊢
            simp only [List.head?_cons, Option.some.injEq, Event.getSyncState.injEq,
              Except.ok.injEq, true_and] at hread
            subst hread
            have hfr : fetchRequests (Event.getSyncState ev.Slug (.ok pr) :: (evs ++ tail))
                = fetchRequests evs := by
              simp [fetchRequests, fetchRequests_append, htail]
            rw [hfr]
            exact ⟨hne1, hP⟩
          cases r with
          | error msg =>
              simp only [Option.some.injEq, Prod.mk.injEq] at hrun
              obtain ⟨-, rfl⟩ := hrun
              exact key [] rfl (by simp)
          | ok n =>
              simp only at hrun
              generalize hst : (match pr with
                  | some cur =>
                    ({ Evidence := ev.Slug, LastUpdate := some ((recTime env).Now w2).1,
                       LastSync := ((recTime env).Now w2).1,
                       RowCount := wrap64 (cur.RowCount + n), Status := "ok",
                       ErrorMsg := "" } : SyncState)
                  | none =>
                    { Evidence := ev.Slug, LastUpdate := some ((recTime env).Now w2).1,
                      LastSync := ((recTime env).Now w2).1, RowCount := n,
                      Status := "ok", ErrorMsg := "" }) = st at hrun
              have hnow : ((recTime env).Now w2).2 = w2.record (.now (env.now w2.history)) :=
                rfl
              rw [hnow] at hrun
              obtain ⟨serr, -, hs1, hs2, -⟩ := recStore_set env ctx ev.Slug st
                (w2.record (.now (env.now w2.history)))
              generalize (recStore env).SetSyncState ctx ev.Slug st
                (w2.record (.now (env.now w2.history))) = res at hrun hs1 hs2
              obtain ⟨serr1, w3⟩ := res
              simp only at hs1 hs2
              subst hs1
              have hw3 : w1 = w3 := by
                cases serr1 <;> simp only [Option.some.injEq, Prod.mk.injEq] at hrun <;>
                  exact hrun.2.symm
              subst hw3
              exact key [.now (env.now w2.history), .setSyncState ev.Slug st serr1]
                (by simp [fetchRequests]) (by rw [hs2, record_history]; simp)

/-- Witness for C25: the first pass over "items" (no checkpoint) sends its requests with page
size 2, detail "full" and no filter; the pass that starts from the checkpoint with watermark
1 sends them with the filter on the watermark. -/
theorem syncEvidence_fetch_options_witness :
    syncPass (listEnv threeRecords) .background itemsEvidence 2 10 emptyWorld
      = some (none, firstSyncWorld)
    ∧ (fetchRequests (passEvents emptyWorld firstSyncWorld)).length = 2
    ∧ (∀ p ∈ fetchRequests (passEvents emptyWorld firstSyncWorld),
        p.1 = "items" ∧ p.2.Limit = 2 ∧ p.2.Detail = "full" ∧ p.2.Filter = "")
    ∧ (fetchRequests (passEvents syncedWorld failedSyncWorld)).length = 2
    ∧ (∀ p ∈ fetchRequests (passEvents syncedWorld failedSyncWorld),
        p.1 = "items" ∧ p.2.Limit = 2 ∧ p.2.Detail = "full"
        ∧ p.2.Filter = "lastUpdate > '1'") :=
  have h1 := syncEvidence_fetch_options (listEnv threeRecords) .background itemsEvidence 2 10
    emptyWorld firstSyncWorld none none (by decide) (by decide) (by decide)
  have h2 := syncEvidence_fetch_options laterPagesFailEnv .background itemsEvidence 2 10
    syncedWorld failedSyncWorld (some ("fetch page: fetch page at offset 2: "
      ++ "fetch evidence items: unexpected status 400: bad request"))
    (some { Evidence := "items", LastUpdate := some 1, LastSync := 1, RowCount := 2,
            Status := "ok", ErrorMsg := "" }) (by decide) (by decide) (by decide)
  ⟨by decide, by decide, h1.2, by decide,
    fun p hp => ⟨(h2.2 p hp).1, (h2.2 p hp).2.1, (h2.2 p hp).2.2.1,
      (h2.2 p hp).2.2.2.trans (by decide)⟩⟩

theorem getElem?_some_lt {α : Type} (l : List α) (i : Nat) (x : α) (h : l[i]? = some x) :
    i < l.length ∧ l[i]? = some x ∧ (x :: l.eraseIdx i).Perm l := by
  have hi : i < l.length := by
    rcases Nat.lt_or_ge i l.length with h1 | h1
    · exact h1
    · rw [List.getElem?_eq_none h1] at h; cases h
  have hx : l[i] = x := by
    have := List.getElem?_eq_getElem hi
    rw [h] at this
    exact (Option.some.inj this).symm
  refine ⟨hi, h, ?_⟩
  rw [← hx, List.eraseIdx_eq_take_drop_succ]
  have hsplit : l = l.take i ++ l[i] :: l.drop (i + 1) := by
    conv_lhs => rw [← List.take_append_drop i l]
    rw [List.drop_eq_getElem_cons hi]
  conv_rhs => rw [hsplit]
  exact List.perm_middle.symm

/-- What holds at every moment of `Engine.RunOnce` under a limit that is not negative: the
semaphore has the capacity `e.concurrency` and holds one token for each goroutine that has
been started and has not run `g.done()`; and every entity of the catalog is in one place. -/
theorem RunOnceStep_inv {σ : Type} (e : Engine) (client : Client σ) (st : SyncStore σ)
    (tm : TimePkg σ) (fuel : Nat) (s s1 : RunOnceState σ) (m : RunOnceMove)
    (hstep : e.RunOnceStep client st tm fuel s m = some s1)
    (hsem : s.g.sem = some ⟨e.concurrency.toNat, s.executing.length + s.returned.length⟩)
    (hle : s.executing.length + s.returned.length ≤ e.concurrency.toNat)
    (hp : (s.finished ++ s.returned ++ s.executing ++ s.pending).Perm e.registry) :
    s1.g.sem = some ⟨e.concurrency.toNat, s1.executing.length + s1.returned.length⟩
    ∧ s1.executing.length + s1.returned.length ≤ e.concurrency.toNat
    ∧ (s1.finished ++ s1.returned ++ s1.executing ++ s1.pending).Perm e.registry := by
  cases m with
  | go =>
      simp only [Engine.RunOnceStep] at hstep
      cases hw : s.pending with
      | nil => simp [hw] at hstep
      | cons ev rest =>
          simp only [hw, Group.acquire, hsem, TokenChan.send] at hstep
          split_ifs at hstep with hlt
          simp only [Option.some.injEq] at hstep
          subst hstep
          refine ⟨?_, ?_, ?_⟩
          · simp only [List.length_append, List.length_singleton]
            congr 2
            omega
          · simp only [List.length_append, List.length_singleton]
            omega
          · rw [hw] at hp
            simpa [List.append_assoc] using hp
  | syncReturns i =>
      simp only [Engine.RunOnceStep] at hstep
      cases hg : s.executing[i]? with
      | none => simp [hg] at hstep
      | some ev =>
          simp only [hg] at hstep
          cases hrun : syncEvidence client st tm s.gctx ev e.batchSize fuel s.world with
          | none => simp [hrun] at hstep
          | some res =>
              obtain ⟨err, w1⟩ := res
              simp only [hrun, Option.some.injEq] at hstep
              subst hstep
              obtain ⟨hi, -, hperm⟩ := getElem?_some_lt _ _ _ hg
              have hlen : (s.executing.eraseIdx i).length + (s.returned ++ [ev]).length
                  = s.executing.length + s.returned.length := by
                simp only [List.length_eraseIdx, hi, if_true, List.length_append,
                  List.length_singleton]
                omega
              refine ⟨?_, ?_, ?_⟩
              · simp only [hsem, hlen]
              · simp only [hlen]; exact hle
              · refine List.Perm.trans ?_ hp
                simp only [List.append_assoc]
                apply List.Perm.append_left
                apply List.Perm.append_left
                rw [← List.append_assoc]
                apply List.Perm.append_right
                exact hperm
  | done i =>
      simp only [Engine.RunOnceStep] at hstep
      cases hg : s.returned[i]? with
      | none => simp [hg] at hstep
      | some ev =>
          simp only [hg, Group.done, hsem, TokenChan.recv] at hstep
          split_ifs at hstep with hpos
          simp only [Option.some.injEq] at hstep
          subst hstep
          obtain ⟨hi, -, hperm⟩ := getElem?_some_lt _ _ _ hg
          have hlen : s.executing.length + (s.returned.eraseIdx i).length
              = s.executing.length + s.returned.length - 1 := by
            simp only [List.length_eraseIdx, hi, if_true]
            omega
          refine ⟨?_, ?_, ?_⟩
          · simp only [hlen]
          · simp only [hlen]; omega
          · refine List.Perm.trans ?_ hp
            simp only [List.append_assoc]
            apply List.Perm.append_left
            rw [← List.append_assoc]
            apply List.Perm.append_right
            exact hperm

theorem RunOnceMoves_inv {σ : Type} (e : Engine) (client : Client σ) (st : SyncStore σ)
    (tm : TimePkg σ) (fuel : Nat) (moves : List RunOnceMove) :
    ∀ s s1 : RunOnceState σ, e.RunOnceMoves client st tm fuel s moves = some s1 →
      s.g.sem = some ⟨e.concurrency.toNat, s.executing.length + s.returned.length⟩ →
      s.executing.length + s.returned.length ≤ e.concurrency.toNat →
      (s.finished ++ s.returned ++ s.executing ++ s.pending).Perm e.registry →
      s1.g.sem = some ⟨e.concurrency.toNat, s1.executing.length + s1.returned.length⟩
      ∧ s1.executing.length + s1.returned.length ≤ e.concurrency.toNat
      ∧ (s1.finished ++ s1.returned ++ s1.executing ++ s1.pending).Perm e.registry := by
  induction moves with
  | nil =>
      intro s s1 h h1 h2 h3
      simp only [Engine.RunOnceMoves, Option.some.injEq] at h
      subst h
      exact ⟨h1, h2, h3⟩
  | cons m rest ih =>
      intro s s1 h h1 h2 h3
      simp only [Engine.RunOnceMoves] at h
      cases hstep : e.RunOnceStep client st tm fuel s m with
      | none => simp [hstep] at h
      | some s2 =>
          simp only [hstep] at h
          obtain ⟨k1, k2, k3⟩ := RunOnceStep_inv e client st tm fuel s s2 m hstep h1 h2 h3
          exact ih s2 s1 h k1 k2 k3

/-- Claim C27. For an engine whose `concurrency` is not negative, at every moment of
`RunOnce`, whatever the order in which the goroutines advance and whatever the source and
the store answer: the number of entities whose `syncEvidence` is executing is at most
`e.concurrency`; every entity of the catalog is pending, executing, returned or finished,
each once; while the number executing equals the limit the loop's `g.Go` cannot start the
next entity; when `g.Go` is blocked with an entity pending, every slot is held by a
goroutine that was started and has not ended; and as soon as one of them has returned from
`syncEvidence` and run `g.done()`, `g.Go` can start the next entity. -/
theorem RunOnce_concurrency_bound {σ : Type} (e : Engine) (client : Client σ)
    (st : SyncStore σ) (tm : TimePkg σ) (fuel : Nat) (ctx : Context) (w : σ)
    (moves : List RunOnceMove) (s : RunOnceState σ) (hl : 0 ≤ e.concurrency)
    (hrun : e.RunOnceMoves client st tm fuel (e.RunOnceStart ctx w) moves = some s) :
    (s.executing.length : Int) ≤ e.concurrency
    ∧ (s.finished ++ s.returned ++ s.executing ++ s.pending).Perm e.registry
    ∧ ((s.executing.length : Int) = e.concurrency →
        e.RunOnceStep client st tm fuel s .go = none)
    ∧ (s.pending ≠ [] → e.RunOnceStep client st tm fuel s .go = none →
        ((s.executing.length + s.returned.length : Nat) : Int) = e.concurrency)
    ∧ (∀ i s1, s.pending ≠ [] → e.RunOnceStep client st tm fuel s (.done i) = some s1 →
        (e.RunOnceStep client st tm fuel s1 .go).isSome = true) := by
  have hstart : (e.RunOnceStart ctx w).g.sem = some ⟨e.concurrency.toNat, 0⟩ := by
    simp [Engine.RunOnceStart, Group.SetLimit, not_lt.mpr hl]
  obtain ⟨hsem, hle, hp⟩ := RunOnceMoves_inv e client st tm fuel moves (e.RunOnceStart ctx w) s
    hrun (by simpa [Engine.RunOnceStart] using hstart) (by simp [Engine.RunOnceStart])
    (by simp [Engine.RunOnceStart])
  have hcap : ((e.concurrency.toNat : Nat) : Int) = e.concurrency := Int.toNat_of_nonneg hl
  refine ⟨by omega, hp, ?_, ?_, ?_⟩
  · intro heq
    simp only [Engine.RunOnceStep]
    cases hw : s.pending with
    | nil => rfl
    | cons ev rest =>
        have : ¬ (s.executing.length + s.returned.length < e.concurrency.toNat) := by omega
        simp only [Group.acquire, hsem, TokenChan.send, this, if_false]
  · intro hw hgo
    obtain ⟨ev, rest, hw1⟩ := List.exists_cons_of_ne_nil hw
    simp only [Engine.RunOnceStep, hw1, Group.acquire, hsem, TokenChan.send] at hgo
    split_ifs at hgo with hlt
    omega
  · intro i s1 hw hdone
    obtain ⟨k1, k2, -⟩ := RunOnceStep_inv e client st tm fuel s s1 (.done i) hdone hsem hle hp
    simp only [Engine.RunOnceStep] at hdone
    cases hg : s.returned[i]? with
    | none => simp [hg] at hdone
    | some ev =>
        simp only [hg, Group.done, hsem, TokenChan.recv] at hdone
        split_ifs at hdone with hpos
        simp only [Option.some.injEq] at hdone
        subst hdone
        obtain ⟨hi, -, -⟩ := getElem?_some_lt _ _ _ hg
        obtain ⟨ev1, rest, hw1⟩ := List.exists_cons_of_ne_nil hw
        have hlt : s.executing.length + s.returned.length - 1 < e.concurrency.toNat := by
          omega
        simp [Engine.RunOnceStep, hw1, Group.acquire, TokenChan.send, hlt]
theorem runGroup_sequentialMoves {σ : Type} (e : Engine) (client : Client σ)
    (st : SyncStore σ) (tm : TimePkg σ) (fuel : Nat) :
    ∀ (l : List Evidence) (gctx : Context) (gerr : Option String) (fin : List Evidence)
      (w : σ) (r : Option String) (outs : List (String × Option String)) (w2 : σ),
      runGroup client st tm e.batchSize fuel l gctx gerr w = some (r, outs, w2) →
      ∃ gctxN, e.RunOnceMoves client st tm fuel
          { g := ⟨some ⟨1, 0⟩, gerr⟩, gctx := gctx, pending := l, executing := [],
            returned := [], finished := fin, world := w } (sequentialMoves l.length)
        = some { g := ⟨some ⟨1, 0⟩, r⟩, gctx := gctxN, pending := [], executing := [],
                 returned := [], finished := fin ++ l, world := w2 } := by
  intro l
  induction l with
  | nil =>
      intro gctx gerr fin w r outs w2 h
      simp only [runGroup, Option.some.injEq, Prod.mk.injEq] at h
      obtain ⟨h1, -, h3⟩ := h
      subst h1
      subst h3
      exact ⟨gctx, by simp [sequentialMoves, Engine.RunOnceMoves]⟩
  | cons ev rest ih =>
      intro gctx gerr fin w r outs w2 h
      simp only [runGroup] at h
      cases hsync : syncEvidence client st tm gctx ev e.batchSize fuel w with
      | none => simp [hsync] at h
      | some res =>
          obtain ⟨err, w1⟩ := res
          simp only [hsync] at h
          split at h
          · cases h
          · rename_i r2 outs2 w3 hrest
            simp only [Option.some.injEq, Prod.mk.injEq] at h
            obtain ⟨h1, -, h3⟩ := h
            subst h1
            subst h3
            obtain ⟨gctxN, hN⟩ := ih _ _ (fin ++ [ev]) _ _ _ _ hrest
            refine ⟨gctxN, ?_⟩
            simp only [List.length_cons, sequentialMoves, Engine.RunOnceMoves,
              Engine.RunOnceStep, Group.acquire, Group.done, TokenChan.send, TokenChan.recv,
              List.nil_append, List.getElem?_cons_zero, hsync, List.eraseIdx_cons_zero,
              Nat.lt_one_iff, if_true, Nat.zero_add, Nat.lt_add_one, Nat.add_sub_cancel]
            rw [hN]
            simp

/-- Under `concurrency = 1` the run of `Engine.RunOnceMoves` in which the entities go one
after the other ends with the error and the world that `Engine.RunOnce` gives, with every
entity of the catalog finished. -/
theorem RunOnce_sequentialMoves {σ : Type} (e : Engine) (client : Client σ)
    (st : SyncStore σ) (tm : TimePkg σ) (fuel : Nat) (ctx : Context) (w : σ)
    (r : Option String) (outs : List (String × Option String)) (w2 : σ)
    (h1 : e.concurrency = 1) (h : e.RunOnce client st tm ctx fuel w = some (r, outs, w2)) :
    ∃ gctxN, e.RunOnceMoves client st tm fuel (e.RunOnceStart ctx w)
        (sequentialMoves e.registry.length)
      = some { g := ⟨some ⟨1, 0⟩, r⟩, gctx := gctxN, pending := [], executing := [],
               returned := [], finished := e.registry, world := w2 } := by
  obtain ⟨gctxN, hN⟩ := runGroup_sequentialMoves e client st tm fuel e.registry ctx none []
    w r outs w2 h
  refine ⟨gctxN, ?_⟩
  simpa [Engine.RunOnceStart, Group.SetLimit, h1] using hN

/-- Witness for C27: the engine over the three-entity catalog with limit 2, after the loop
started "master" and "trans" and the `syncEvidence` of "master" returned.  One sync is
executing, `g.Go` is blocked with "other" pending, and after the `g.done()` of "master" it
can start "other". -/
theorem RunOnce_concurrency_bound_witness :
    0 ≤ (catalogEngine 2).concurrency
    ∧ ∃ s : RunOnceState World,
        (catalogEngine 2).RunOnceMoves (recClient (listEnv threeRecords))
            (recStore (listEnv threeRecords)) (recTime (listEnv threeRecords)) 10
            ((catalogEngine 2).RunOnceStart .background emptyWorld)
            [.go, .go, .syncReturns 0] = some s
        ∧ s.pending.map Evidence.Slug = ["other"]
        ∧ s.executing.map Evidence.Slug = ["trans"]
        ∧ s.returned.map Evidence.Slug = ["master"]
        ∧ (s.executing.length : Int) ≤ (catalogEngine 2).concurrency
        ∧ (catalogEngine 2).RunOnceStep (recClient (listEnv threeRecords))
            (recStore (listEnv threeRecords)) (recTime (listEnv threeRecords)) 10 s .go = none
        ∧ ∃ s1, (catalogEngine 2).RunOnceStep (recClient (listEnv threeRecords))
              (recStore (listEnv threeRecords)) (recTime (listEnv threeRecords)) 10 s (.done 0)
            = some s1
          ∧ ((catalogEngine 2).RunOnceStep (recClient (listEnv threeRecords))
              (recStore (listEnv threeRecords)) (recTime (listEnv threeRecords)) 10 s1
              .go).isSome = true :=
  have h := RunOnce_concurrency_bound (catalogEngine 2) (recClient (listEnv threeRecords))
    (recStore (listEnv threeRecords)) (recTime (listEnv threeRecords)) 10 .background
    emptyWorld [.go, .go, .syncReturns 0] _ (by decide) rfl
  ⟨by decide, _, rfl, by decide, by decide, by decide, h.1, by decide,
    _, rfl, h.2.2.2.2 0 _ (by decide) rfl⟩

end FlexibeeAdapter
